import Mathlib

/-!
# luagnuplot — the capture layer of `libgnuplot.c` and `lua_gnuplot.c`

A shallow embedding of the library interface that luagnuplot adds to gnuplot:

* the bitmap plane decoder (`gnuplot_save_bitmap_data` and the single-slot cache
  `saved_rgb_data`, `saved_width`, `saved_height`),
* the render-command buffer of the `luacmd` terminal (`luacmd_*`),
* the library session (`gnuplot_init`, `gnuplot_cmd`, `gnuplot_cmd_multi`,
  `gnuplot_reset`, `gnuplot_close`, `gnuplot_set_datablock`),
* the two retrieval functions of the Lua binding.

Conventions.  C statics become fields of explicit state records, and every C
function becomes a function from the state before the call to the returned value
and the state after it.  `unsigned int` arithmetic is computed modulo `2 ^ 32`
and a conversion to `int` wraps in two's complement; `int` counters that never
leave the range of `int` are natural numbers.  Functions of the plotting engine
that are not part of the library sources are fields of an `Engine` record.
-/

namespace LuaGnuplot

/-! ## Machine integers -/

/-- The number of values of an `unsigned int`. -/
def UINT_MOD : Nat := 4294967296

/-- The value of an `unsigned int` expression whose mathematical value is `n`. -/
def uint (n : Nat) : Nat := n % UINT_MOD

/-- The unsigned difference `a - b` of two `unsigned int` values. -/
def usub (a b : Nat) : Nat := (uint a + UINT_MOD - uint b) % UINT_MOD

/-- The conversion of an `unsigned int` value to `int` (two's complement). -/
@[irreducible] def toInt (n : Nat) : Int :=
  if uint n < 2147483648 then (uint n : Int) else (uint n : Int) - 4294967296

/-! ## Bitmap plane decoder (`libgnuplot.c`, lines 301-394) -/

/-- The engine's bitmap globals of `bitmap.h`.  `b_p` is `NULL` or the array of
row pointers: `rows r x` is the byte `*((*b_p)[r] + x)`. -/
structure Bitmap where
  b_p : Option (Nat → Nat → Nat)
  b_xsize : Nat
  b_ysize : Nat
  b_planes : Nat
  b_psize : Nat

/-- The block that `saved_rgb_data` points to: the two `unsigned int` header
words and the pixel bytes behind them.  A byte that has not been stored to since
`malloc` is `none`. -/
structure RgbBlock where
  width : Nat
  height : Nat
  rgb : List (Option Nat)
deriving DecidableEq, Repr

/-- The statics `saved_rgb_data`, `saved_width`, `saved_height`. -/
structure SavedBitmap where
  saved_rgb_data : Option RgbBlock
  saved_width : Nat
  saved_height : Nat
deriving DecidableEq, Repr

/-- The statics at program start. -/
def SavedBitmap.init : SavedBitmap := ⟨none, 0, 0⟩

/-- A store through a pointer that has left its block has no defined result. -/
inductive Fault where
  | store_outside_block
deriving DecidableEq, Repr

/-- The pointer `rgb_ptr` inside the pixel area: the bytes behind the pointer
and the bytes from the pointer to the end of the block. -/
structure Cursor where
  before : List (Option Nat)
  after : List (Option Nat)
deriving DecidableEq, Repr

/-- The statement `*rgb_ptr++ = v`. -/
def store (v : Nat) (c : Cursor) : Except Fault Cursor :=
  match c.after with
  | [] => .error Fault.store_outside_block
  | _ :: rest => .ok ⟨c.before ++ [some v], rest⟩

/-- The expression `(plane & mask) ? 1 : 3`. -/
def level (plane mask : Nat) : Nat := if plane &&& mask ≠ 0 then 1 else 3

/-- The three levels of one pixel after the `plane4` decrement, as
`(red, green, blue)`. -/
def levels (plane1 plane2 plane3 plane4 mask : Nat) : Nat × Nat × Nat :=
  let red := level plane3 mask
  let green := level plane2 mask
  let blue := level plane1 mask
  if plane4 &&& mask ≠ 0 then (red - 1, green - 1, blue - 1) else (red, green, blue)

/-- The loop `for (int i = 0; i < 8; i++)`; the first argument counts the
iterations that remain, the second is `mask`. -/
def bit_loop (plane1 plane2 plane3 plane4 : Nat) : Nat → Nat → Cursor → Except Fault Cursor
  | 0, _, c => .ok c
  | n + 1, mask, c => do
    let (red, green, blue) := levels plane1 plane2 plane3 plane4 mask
    let c ← store (red * 85 % 256) c
    let c ← store (green * 85 % 256) c
    let c ← store (blue * 85 % 256) c
    bit_loop plane1 plane2 plane3 plane4 n (mask >>> 1) c

/-- The loop `for (int j = row; j >= 0; j--)` for the column `x`; the first
argument is `j + 1`. -/
def row_loop (rows : Nat → Nat → Nat) (b_psize x : Nat) : Nat → Cursor → Except Fault Cursor
  | 0, c => .ok c
  | j + 1, c => do
    let plane1 := rows j x
    let plane2 := rows (uint (j + b_psize)) x
    let plane3 := rows (uint (j + b_psize + b_psize)) x
    let plane4 := rows (uint (j + b_psize + b_psize + b_psize)) x
    let c ← bit_loop plane1 plane2 plane3 plane4 8 0x80 c
    row_loop rows b_psize x j c

/-- The loop `for (int x = height - 1; x >= 0; x--)`; the first argument is
`x + 1`. -/
def col_loop (rows : Nat → Nat → Nat) (b_psize width : Nat) : Nat → Cursor → Except Fault Cursor
  | 0, c => .ok c
  | x + 1, c => do
    let row := toInt (usub (width / 8) 1)
    let c ← row_loop rows b_psize x (row + 1).toNat c
    col_loop rows b_psize width x c

/-- The function `gnuplot_save_bitmap_data`.  `malloc_ok` tells whether the
`malloc` of the new block succeeds.  The result is the returned pointer (`none`
for `NULL`) and the statics after the call. -/
def gnuplot_save_bitmap_data (malloc_ok : Bool) (bm : Bitmap) (s : SavedBitmap) :
    Except Fault (Option RgbBlock × SavedBitmap) :=
  match bm.b_p with
  | none => .ok (none, s)
  | some rows =>
    if bm.b_xsize = 0 ∨ bm.b_ysize = 0 then .ok (none, s)
    else if bm.b_planes < 4 then .ok (none, s)
    else
      let width := bm.b_ysize
      let height := bm.b_xsize
      let rgb_size := uint (width * height * 3)
      if malloc_ok = false then .ok (none, { s with saved_rgb_data := none })
      else do
        let c ← col_loop rows bm.b_psize width (toInt (usub height 1) + 1).toNat
                  ⟨[], List.replicate rgb_size none⟩
        let block : RgbBlock := ⟨width, height, c.before ++ c.after⟩
        .ok (some block, ⟨some block, width, height⟩)

/-- The function `gnuplot_get_saved_bitmap_data`. -/
def gnuplot_get_saved_bitmap_data (s : SavedBitmap) : Option RgbBlock :=
  s.saved_rgb_data

/-- The function `gnuplot_free_saved_bitmap`. -/
def gnuplot_free_saved_bitmap (s : SavedBitmap) : SavedBitmap :=
  match s.saved_rgb_data with
  | some _ => ⟨none, 0, 0⟩
  | none => s

/-- What `l_gnuplot_get_rgb_data` leaves on the Lua stack: `nil` and a message,
or a table with the fields `width`, `height` and `data`. -/
inductive RgbResult where
  | nil_msg (msg : String)
  | table (width height : Nat) (data : List (Option Nat))
deriving DecidableEq, Repr

/-- The message of `l_gnuplot_get_rgb_data` when nothing is saved. -/
def no_bitmap_msg : String :=
  "No bitmap data available. Use 'set terminal pbm color', plot something, then close output with 'set output' before calling this."

/-- The Lua function `gnuplot.get_rgb_data()` (`lua_gnuplot.c`, lines 137-172). -/
def l_gnuplot_get_rgb_data (s : SavedBitmap) : RgbResult :=
  match gnuplot_get_saved_bitmap_data s with
  | none => .nil_msg no_bitmap_msg
  | some block =>
    let width := block.width
    let height := block.height
    let rgb_size := uint (width * height * 3)
    .table width height (block.rgb.take rgb_size)

/-- A valid 4-plane bitmap: the row array exists, both sizes are positive, at
least four planes are present, every plane has `b_ysize / 8` rows (`b_psize`)
with `b_ysize` a multiple of 8, and the two sizes are values of the type
`unsigned int` that they have in `bitmap.h`. -/
def ValidBitmap (bm : Bitmap) : Prop :=
  bm.b_p.isSome = true ∧ 0 < bm.b_xsize ∧ 0 < bm.b_ysize ∧ 4 ≤ bm.b_planes ∧
    bm.b_ysize % 8 = 0 ∧ bm.b_psize = bm.b_ysize / 8 ∧
    bm.b_ysize < UINT_MOD ∧ bm.b_xsize < UINT_MOD

/-- The start value `height - 1` of the counter `x` of the decode loop is a value
of its type `int`. -/
def CounterFits (bm : Bitmap) : Prop := bm.b_xsize ≤ 2147483648

/-- The size in bytes of the decoded image fits the `unsigned int` in which
`gnuplot_save_bitmap_data` computes it. -/
def SizeFits (bm : Bitmap) : Prop := bm.b_ysize * bm.b_xsize * 3 < UINT_MOD

instance (bm : Bitmap) : Decidable (SizeFits bm) := by
  unfold SizeFits; infer_instance

instance (bm : Bitmap) : Decidable (ValidBitmap bm) := by
  unfold ValidBitmap; infer_instance

instance (bm : Bitmap) : Decidable (CounterFits bm) := by
  unfold CounterFits; infer_instance

/-! ### The byte stream of the decode loops -/

/-- The bytes that `bit_loop` stores, in order. -/
def bit_bytes (plane1 plane2 plane3 plane4 : Nat) : Nat → Nat → List Nat
  | 0, _ => []
  | n + 1, mask =>
    [(levels plane1 plane2 plane3 plane4 mask).1 * 85 % 256,
     (levels plane1 plane2 plane3 plane4 mask).2.1 * 85 % 256,
     (levels plane1 plane2 plane3 plane4 mask).2.2 * 85 % 256]
      ++ bit_bytes plane1 plane2 plane3 plane4 n (mask >>> 1)

/-- The blocks `f (n-1)`, ..., `f 1`, `f 0` one after the other: the output of a
loop that counts down. -/
def desc_concat {α : Type} (f : Nat → List α) : Nat → List α
  | 0 => []
  | n + 1 => f n ++ desc_concat f n

/-- The bytes that one pass of the body of `row_loop` stores. -/
def group_bytes (rows : Nat → Nat → Nat) (b_psize x j : Nat) : List Nat :=
  bit_bytes (rows j x) (rows (uint (j + b_psize)) x) (rows (uint (j + b_psize + b_psize)) x)
    (rows (uint (j + b_psize + b_psize + b_psize)) x) 8 0x80

/-- The bytes that `row_loop` stores. -/
def row_bytes (rows : Nat → Nat → Nat) (b_psize x n : Nat) : List Nat :=
  desc_concat (group_bytes rows b_psize x) n

/-- The bytes that `col_loop` stores when every column has `m` byte rows. -/
def col_bytes (rows : Nat → Nat → Nat) (b_psize m n : Nat) : List Nat :=
  desc_concat (fun x => row_bytes rows b_psize x m) n

/-- The block that the decode of `bm` builds from the row array `rows`. -/
def decoded_block (bm : Bitmap) (rows : Nat → Nat → Nat) : RgbBlock :=
  ⟨bm.b_ysize, bm.b_xsize, (col_bytes rows bm.b_psize (bm.b_ysize / 8) bm.b_xsize).map some⟩

/-! ### Sample data for the decoder -/

/-- Row array of a sample bitmap one byte wide with one byte row per plane. -/
def sample_rows : Nat → Nat → Nat :=
  fun r x => ([[0xA5], [0x0F], [0x33], [0x01]].getD r []).getD x 0

/-- A sample 4-plane bitmap with `b_xsize = 1` and `b_ysize = 8`. -/
def sample_bitmap : Bitmap := ⟨some sample_rows, 1, 8, 4, 1⟩

/-- The same rows offered as a 3-plane bitmap. -/
def sample_bitmap3 : Bitmap := ⟨some sample_rows, 1, 8, 3, 1⟩

/-- A valid bitmap of 178956971 byte columns and 8 pixel rows: its image has
`2 ^ 32 + 8` bytes. -/
def wrapping_bitmap : Bitmap := ⟨some (fun _ _ => 0), 178956971, 8, 4, 1⟩

/-- A valid bitmap of `2 ^ 31 + 1` byte columns and 8 pixel rows. -/
def overlong_bitmap : Bitmap := ⟨some (fun _ _ => 0), 2147483649, 8, 4, 1⟩

/-- The block decoded from `sample_bitmap`. -/
def sample_block : RgbBlock :=
  ⟨8, 1, [some 255, some 255, some 85, some 255, some 255, some 255, some 85, some 255, some 85,
    some 85, some 255, some 255, some 255, some 85, some 255, some 255, some 85, some 85,
    some 85, some 85, some 255, some 0, some 0, some 0]⟩

/-! ## Render-command buffer (`libgnuplot.c`, lines 396-489) -/

/-- A C `double`, given by its IEEE-754 bit pattern (bit 63 is the sign). -/
structure Double where
  bits : Nat
deriving DecidableEq, Repr

/-- The comparison `d != 0.0`: false for the two zeros only. -/
def Double.ne_zero (d : Double) : Bool := d.bits % 9223372036854775808 != 0

/-- The struct `luacmd_command_t` of `libgnuplot.h`; `text` is `none` for a
`NULL` pointer and the pointed-to string otherwise. -/
structure luacmd_command_t where
  type : Int
  x1 : Int
  y1 : Int
  x2 : Int
  y2 : Int
  text : Option (List Char)
  color : Nat
  value : Double
deriving DecidableEq, Repr

/-- Stands for the content of a slot that is allocated and has not been
written. -/
def luacmd_command_t.indeterminate : luacmd_command_t :=
  ⟨0, 0, 0, 0, 0, none, 0, ⟨0⟩⟩

/-- The statics `command_buffer`, `command_count`, `command_capacity`,
`plot_width`, `plot_height`.  `command_buffer` is `NULL` or the slots of the
allocated array. -/
structure CmdState where
  command_buffer : Option (List luacmd_command_t)
  command_count : Nat
  command_capacity : Nat
  plot_width : Int
  plot_height : Int
deriving DecidableEq, Repr

/-- The statics at program start. -/
def CmdState.init : CmdState := ⟨none, 0, 0, 800, 600⟩

/-- The call `realloc(block, n * sizeof(luacmd_command_t))`: on success the old
slots are kept and the array has `n` slots, on failure the result is `NULL`. -/
def realloc (ok : Bool) (block : Option (List luacmd_command_t)) (n : Nat) :
    Option (List luacmd_command_t) :=
  if ok then
    some ((block.getD []).take n ++
      List.replicate (n - (block.getD []).length) luacmd_command_t.indeterminate)
  else none

/-- The call `strdup(text)`, which yields `NULL` when it cannot allocate. -/
def strdup (ok : Bool) (text : List Char) : Option (List Char) :=
  if ok then some text else none

/-- The function `luacmd_clear_commands`: the text strings are freed and the
count is reset; the array stays allocated. -/
def luacmd_clear_commands (s : CmdState) : CmdState :=
  { s with command_count := 0 }

/-- The function `luacmd_begin_plot`. -/
def luacmd_begin_plot (width height : Int) (s : CmdState) : CmdState :=
  luacmd_clear_commands { s with plot_width := width, plot_height := height }

/-- The function `luacmd_end_plot`. -/
def luacmd_end_plot (s : CmdState) : CmdState := s

/-- The function `luacmd_add_command`.  `realloc_ok` and `strdup_ok` tell whether
the `realloc` of the array and the `strdup` of the text succeed. -/
def luacmd_add_command (realloc_ok strdup_ok : Bool) (type x1 y1 x2 y2 : Int)
    (text : Option (List Char)) (color : Nat) (value : Double) (s : CmdState) : CmdState :=
  let cmd : luacmd_command_t :=
    ⟨type, x1, y1, x2, y2, text.bind (strdup strdup_ok), color, value⟩
  if s.command_count ≥ s.command_capacity then
    let command_capacity := if s.command_capacity = 0 then 1024 else s.command_capacity * 2
    match realloc realloc_ok s.command_buffer command_capacity with
    | none => { s with command_buffer := none, command_count := 0, command_capacity := 0 }
    | some block =>
      { s with command_buffer := some (block.set s.command_count cmd),
               command_count := s.command_count + 1,
               command_capacity := command_capacity }
  else
    { s with command_buffer := s.command_buffer.map (fun block => block.set s.command_count cmd),
             command_count := s.command_count + 1 }

/-- The slot `command_buffer[i]`. -/
def CmdState.slot (s : CmdState) (i : Nat) : luacmd_command_t :=
  (s.command_buffer.getD []).getD i luacmd_command_t.indeterminate

/-- The function `luacmd_get_commands`.  `malloc_ok` tells whether the `malloc`
of the copy succeeds and `strdup_ok i` whether the `strdup` of the text of record
`i` does.  The result is the returned pointer and the values stored through
`count`, `width` and `height`. -/
def luacmd_get_commands (malloc_ok : Bool) (strdup_ok : Nat → Bool) (s : CmdState) :
    Option (List luacmd_command_t) × Nat × Int × Int :=
  let count := s.command_count
  let width := s.plot_width
  let height := s.plot_height
  if s.command_count = 0 then (none, count, width, height)
  else if malloc_ok = false then (none, count, width, height)
  else
    (some ((List.range s.command_count).map (fun i =>
        { s.slot i with text := (s.slot i).text.bind (strdup (strdup_ok i)) })),
      count, width, height)

/-- The Lua table built for one record by `l_gnuplot_get_commands`; a field that
is not set is `none`. -/
structure LuaCommand where
  type : Int
  x : Int
  y : Int
  x2 : Option Int
  y2 : Option Int
  text : Option (List Char)
  color : Option Nat
  value : Option Double
deriving DecidableEq, Repr

/-- What `l_gnuplot_get_commands` leaves on the Lua stack: `nil` and a message,
or a table with `width`, `height` and the list `commands` (record `i` at Lua
index `i + 1`). -/
inductive CommandsResult where
  | nil_msg (msg : String)
  | table (width height : Int) (commands : List LuaCommand)
deriving DecidableEq, Repr

/-- The message of `l_gnuplot_get_commands` when there is nothing to return. -/
def no_commands_msg : String :=
  "No commands available. Use 'set terminal luacmd' and plot something first."

/-- The body of the loop of `l_gnuplot_get_commands` for one record. -/
def lua_command (c : luacmd_command_t) : LuaCommand :=
  { type := c.type, x := c.x1, y := c.y1,
    x2 := if c.type = 1 ∨ c.type = 7 then some c.x2 else none,
    y2 := if c.type = 1 ∨ c.type = 7 then some c.y2 else none,
    text := c.text,
    color := if c.type = 3 ∨ c.color ≠ 0 then some c.color else none,
    value := if c.value.ne_zero then some c.value else none }

/-- The Lua function `gnuplot.get_commands()` (`lua_gnuplot.c`, lines 193-267). -/
def l_gnuplot_get_commands (malloc_ok : Bool) (strdup_ok : Nat → Bool) (s : CmdState) :
    CommandsResult :=
  match luacmd_get_commands malloc_ok strdup_ok s with
  | (none, _, _, _) => .nil_msg no_commands_msg
  | (some commands, count, width, height) =>
    if count = 0 then .nil_msg no_commands_msg
    else .table width height
      ((List.range count).map (fun i =>
        lua_command (commands.getD i luacmd_command_t.indeterminate)))

/-- The array has `command_capacity` slots and the count does not exceed it. -/
def CmdState.WF (s : CmdState) : Prop :=
  (s.command_buffer.getD []).length = s.command_capacity ∧
    s.command_count ≤ s.command_capacity

instance (s : CmdState) : Decidable s.WF := by
  unfold CmdState.WF; infer_instance

/-- The records in use: the first `command_count` slots. -/
def CmdState.records (s : CmdState) : List luacmd_command_t :=
  (s.command_buffer.getD []).take s.command_count

/-- One `luacmd_add_command` call per record of `rs`, with every allocation
succeeding. -/
def add_all (rs : List luacmd_command_t) (s : CmdState) : CmdState :=
  rs.foldl (fun s r =>
    luacmd_add_command true true r.type r.x1 r.y1 r.x2 r.y2 r.text r.color r.value s) s

/-! ### Sample data for the command buffer -/

/-- A vector record and a text record. -/
def sample_records : List luacmd_command_t :=
  [⟨1, 10, 20, 30, 40, none, 0, ⟨0⟩⟩, ⟨2, 5, 6, 0, 0, some ['h', 'i'], 255, ⟨0⟩⟩]

/-! ## Library session (`libgnuplot.c`, lines 32-299) -/

/-- A `struct value` of the engine as far as the library inspects it: its type
tag is `NOTDEFINED`, `DATABLOCK` (with `v.data_array`, `none` for `NULL`) or any
other type with its payload. -/
inductive Value where
  | NOTDEFINED
  | other (payload : Nat)
  | DATABLOCK (data_array : Option (List (List Char)))
deriving DecidableEq, Repr

/-- A `struct udvt_entry`: one named variable of the engine. -/
structure udvt_entry where
  udv_name : List Char
  udv_value : Value
deriving DecidableEq, Repr

/-- The disposition of `SIGINT`. -/
inductive SigHandler where
  | SIG_DFL
  | lib_inter
  | engine_handler
deriving DecidableEq, Repr

/-- The state of the engine and of the process that the library reads or
writes by name, and the remainder `core` of the engine state. -/
structure Gnuplot (ρ : Type) where
  interactive : Bool
  noinputfiles : Bool
  successful_initialization : Bool
  first_udv : List udvt_entry
  udv_NaN : Option (List Char)
  udv_user_head : Option (List Char)
  replot_line : Option (List Char)
  sigint : SigHandler
  env_GNUTERM : Option (List Char)
  core : ρ

/-- The functions and constants of gnuplot that the library calls and that are
not part of its sources.  A function called under `SETJMP` returns `.ok g` when
it returns and `.error g` when it jumps to the recovery point, `g` being the
engine state at that moment. -/
structure Engine (ρ : Type) where
  READLINE : Bool
  gnuplot_version : List Char
  gnuplot_patchlevel : List Char
  init_constants : Gnuplot ρ → Gnuplot ρ
  extend_input_line : Gnuplot ρ → Gnuplot ρ
  extend_token_table : Gnuplot ρ → Gnuplot ρ
  clear_sm_palette : Gnuplot ρ → Gnuplot ρ
  term_reset : Gnuplot ρ → Gnuplot ρ
  interrupt_setup : Gnuplot ρ → Except (Gnuplot ρ) (Gnuplot ρ)
  get_user_env : Gnuplot ρ → Except (Gnuplot ρ) (Gnuplot ρ)
  init_loadpath : Gnuplot ρ → Except (Gnuplot ρ) (Gnuplot ρ)
  init_locale : Gnuplot ρ → Except (Gnuplot ρ) (Gnuplot ρ)
  init_fit : Gnuplot ρ → Except (Gnuplot ρ) (Gnuplot ρ)
  init_encoding : Gnuplot ρ → Except (Gnuplot ρ) (Gnuplot ρ)
  init_gadgets : Gnuplot ρ → Except (Gnuplot ρ) (Gnuplot ρ)
  init_terminal : Gnuplot ρ → Except (Gnuplot ρ) (Gnuplot ρ)
  update_gpval_variables : Nat → Gnuplot ρ → Except (Gnuplot ρ) (Gnuplot ρ)
  reset_command : Gnuplot ρ → Except (Gnuplot ρ) (Gnuplot ρ)
  do_string : List Char → Gnuplot ρ → Except (Gnuplot ρ) (Gnuplot ρ)

/-- The static `lib_initialized`, the engine state, and a count of the heap
blocks the session functions have requested (`gp_strdup`, `gp_alloc`). -/
structure Lib (ρ : Type) where
  lib_initialized : Bool
  gp : Gnuplot ρ
  allocations : Nat

/-- Modelled from the spec: `add_udv_by_name` of the engine, which is not among
the library sources.  The name is looked up in the variable table and, when it
is absent, created as an undefined variable at the end of the table. -/
def add_udv_by_name (name : List Char) (udvs : List udvt_entry) : List udvt_entry :=
  if udvs.any (fun e => e.udv_name = name) then udvs else udvs ++ [⟨name, Value.NOTDEFINED⟩]

/-- An assignment through the entry pointer returned for `name`. -/
def update_udv (name : List Char) (f : Value → Value) (udvs : List udvt_entry) :
    List udvt_entry :=
  udvs.map (fun e => if e.udv_name = name then { e with udv_value := f e.udv_value } else e)

/-- The pieces of a text between its newline characters. -/
def split_lines : List Char → List (List Char)
  | [] => [[]]
  | c :: cs =>
    if c = '\n' then [] :: split_lines cs
    else match split_lines cs with
      | [] => [[c]]
      | l :: ls => (c :: l) :: ls

/-- Modelled from the spec: `append_multiline_to_datablock` of the engine, which
is not among the library sources.  The text is appended to the rows of the
datablock as newline-delimited rows. -/
def append_multiline_to_datablock (v : Value) (lines : List Char) : Value :=
  match v with
  | Value.DATABLOCK data_array => Value.DATABLOCK (some (data_array.getD [] ++ split_lines lines))
  | v => v

/-- The function `init_memory_lib`. -/
def init_memory_lib {ρ : Type} (E : Engine ρ) (s : Lib ρ) : Lib ρ :=
  let g := E.extend_input_line s.gp
  let g := E.extend_token_table g
  { s with gp := { g with replot_line := some [] }, allocations := s.allocations + 1 }

/-- The block of `gnuplot_init` that runs under `SETJMP`. -/
def guarded_bootstrap {ρ : Type} (E : Engine ρ) (g : Gnuplot ρ) :
    Except (Gnuplot ρ) (Gnuplot ρ) := do
  let g ← E.interrupt_setup g
  let g := { g with sigint := SigHandler.lib_inter }
  let g ← E.get_user_env g
  let g ← E.init_loadpath g
  let g ← E.init_locale g
  let g := E.clear_sm_palette g
  let g ← E.init_fit g
  let g ← if E.READLINE then E.init_encoding g else pure g
  let g ← E.init_gadgets g
  let g := if g.env_GNUTERM = none then { g with env_GNUTERM := some ['d', 'u', 'm', 'b'] } else g
  let g ← E.init_terminal g
  let g := { g with successful_initialization := true }
  let g ← E.update_gpval_variables 3 g
  E.reset_command g

/-- The function `gnuplot_init`. -/
def gnuplot_init {ρ : Type} (E : Engine ρ) (s : Lib ρ) : Int × Lib ρ :=
  if s.lib_initialized then (0, s)
  else
    let g := s.gp
    let g := { g with interactive := false, noinputfiles := false,
                      successful_initialization := false }
    let g := { g with first_udv := add_udv_by_name ['G', 'N', 'U', 'T', 'E', 'R', 'M'] g.first_udv }
    let g := { g with first_udv := add_udv_by_name ['I'] g.first_udv }
    let g := { g with first_udv := add_udv_by_name ['I', 'n', 'f'] g.first_udv }
    let g := { g with first_udv := add_udv_by_name ['N', 'a', 'N'] g.first_udv }
    let g := E.init_constants g
    let g := { g with udv_user_head := g.udv_NaN }
    let s := init_memory_lib E { s with gp := g }
    match guarded_bootstrap E s.gp with
    | .ok g => (0, { s with gp := g, lib_initialized := true })
    | .error g => (-1, { s with gp := g, lib_initialized := false })

/-- The function `gnuplot_cmd`; `command` is `none` for a `NULL` pointer. -/
def gnuplot_cmd {ρ : Type} (E : Engine ρ) (command : Option (List Char)) (s : Lib ρ) :
    Int × Lib ρ :=
  if s.lib_initialized = false then (-1, s)
  else
    match command with
    | none => (-1, s)
    | some cmd =>
      if cmd.length = 0 then (-1, s)
      else
        match E.do_string cmd s.gp with
        | .ok g => (0, { s with gp := g })
        | .error g => (-1, { s with gp := g })

/-- The call `strtok_r(str, "\n", &saveptr)` on the rest `str` of the copied
string: leading newlines are skipped; the result is the token (`none` when the
rest is used up) and the new `saveptr`. -/
def strtok_r (str : List Char) : Option (List Char) × List Char :=
  let str := str.dropWhile (fun c => c = '\n')
  if str = [] then (none, [])
  else (some (str.takeWhile (fun c => c ≠ '\n')), (str.dropWhile (fun c => c ≠ '\n')).drop 1)

/-- The `while (line != NULL)` loop of `gnuplot_cmd_multi`.  The first argument
bounds the number of passes; `result` is 0 on entry. -/
def cmd_multi_loop {ρ : Type} (E : Engine ρ) :
    Nat → Option (List Char) → List Char → Lib ρ → Int × Lib ρ
  | 0, _, _, s => (0, s)
  | _ + 1, none, _, s => (0, s)
  | fuel + 1, some line, saveptr, s =>
    let line := line.dropWhile (fun c => c = ' ' ∨ c = '\t')
    if line ≠ [] ∧ line.head? ≠ some '#' then
      match gnuplot_cmd E (some line) s with
      | (0, s) => cmd_multi_loop E fuel (strtok_r saveptr).1 (strtok_r saveptr).2 s
      | (_, s) => (-1, s)
    else cmd_multi_loop E fuel (strtok_r saveptr).1 (strtok_r saveptr).2 s

/-- The function `gnuplot_cmd_multi`.  Every pass of the loop consumes at least
one character of the copy, so `commands.length + 1` passes are never used up. -/
def gnuplot_cmd_multi {ρ : Type} (E : Engine ρ) (commands : Option (List Char)) (s : Lib ρ) :
    Int × Lib ρ :=
  if s.lib_initialized = false then (-1, s)
  else
    match commands with
    | none => (-1, s)
    | some cmds =>
      if cmds.length = 0 then (-1, s)
      else
        let s := { s with allocations := s.allocations + 1 }
        cmd_multi_loop E (cmds.length + 1) (strtok_r cmds).1 (strtok_r cmds).2 s

/-- The function `gnuplot_reset`. -/
def gnuplot_reset {ρ : Type} (E : Engine ρ) (s : Lib ρ) : Lib ρ :=
  if s.lib_initialized = false then s
  else (gnuplot_cmd E (some ['r', 'e', 's', 'e', 't']) s).2

/-- The function `gnuplot_close`. -/
def gnuplot_close {ρ : Type} (E : Engine ρ) (s : Lib ρ) : Lib ρ :=
  if s.lib_initialized = false then s
  else { s with gp := E.term_reset s.gp, lib_initialized := false }

/-- The function `gnuplot_get_version`: `"%s patchlevel %s"` printed into a
buffer of 256 bytes. -/
def gnuplot_get_version {ρ : Type} (E : Engine ρ) : List Char :=
  (E.gnuplot_version ++ " patchlevel ".toList ++ E.gnuplot_patchlevel).take 255

/-- The function `gnuplot_is_initialized`. -/
def gnuplot_is_initialized {ρ : Type} (s : Lib ρ) : Bool := s.lib_initialized

/-- The name that `gnuplot_set_datablock` passes to `add_udv_by_name`. -/
def datablock_name (name : List Char) : List Char :=
  if name.head? = some '$' then name else '$' :: name

/-- The function `gnuplot_set_datablock`; an argument is `none` for a `NULL`
pointer. -/
def gnuplot_set_datablock {ρ : Type} (name data : Option (List Char)) (s : Lib ρ) :
    Int × Lib ρ :=
  if s.lib_initialized = false then (-1, s)
  else
    match name, data with
    | some name, some data =>
      let udvs := add_udv_by_name (datablock_name name) s.gp.first_udv
      let udvs := update_udv (datablock_name name) (fun v =>
        let v := match v with
          | Value.DATABLOCK data_array => Value.DATABLOCK data_array
          | _ => Value.DATABLOCK none
        let v := match v with
          | Value.DATABLOCK (some _) => Value.DATABLOCK none
          | v => v
        append_multiline_to_datablock v data) udvs
      (0, { s with gp := { s.gp with first_udv := udvs }, allocations := s.allocations + 2 })
    | _, _ => (-1, s)

/-! ### A sample engine -/

/-- A small engine whose `core` is the list of the commands it has run.  Its
`do_string` jumps to the recovery point on the command `bad` and runs every
other command; its `term_reset` clears `replot_line`. -/
def sample_engine : Engine (List (List Char)) where
  READLINE := false
  gnuplot_version := ['6', '.', '0']
  gnuplot_patchlevel := ['0']
  init_constants := fun g => { g with udv_NaN := some ['N', 'a', 'N'] }
  extend_input_line := id
  extend_token_table := id
  clear_sm_palette := id
  term_reset := fun g => { g with replot_line := none }
  interrupt_setup := fun g => .ok { g with sigint := SigHandler.engine_handler }
  get_user_env := .ok
  init_loadpath := .ok
  init_locale := .ok
  init_fit := .ok
  init_encoding := .ok
  init_gadgets := .ok
  init_terminal := .ok
  update_gpval_variables := fun _ => .ok
  reset_command := .ok
  do_string := fun cmd g =>
    if cmd = ['b', 'a', 'd'] then .error g else .ok { g with core := g.core ++ [cmd] }

/-- The engine state before `gnuplot_init`. -/
def sample_gnuplot : Gnuplot (List (List Char)) :=
  ⟨true, true, false, [], none, none, none, SigHandler.SIG_DFL, none, []⟩

/-- The session before `gnuplot_init`. -/
def sample_lib : Lib (List (List Char)) := ⟨false, sample_gnuplot, 0⟩

/-! ### The bootstrap of `gnuplot_init` step by step -/

/-- The statements of `gnuplot_init` between the test of `lib_initialized` and
`SETJMP`. -/
def pre_bootstrap {ρ : Type} (E : Engine ρ) (s : Lib ρ) : Lib ρ :=
  let g := s.gp
  let g := { g with interactive := false, noinputfiles := false,
                    successful_initialization := false }
  let g := { g with first_udv := add_udv_by_name ['G', 'N', 'U', 'T', 'E', 'R', 'M'] g.first_udv }
  let g := { g with first_udv := add_udv_by_name ['I'] g.first_udv }
  let g := { g with first_udv := add_udv_by_name ['I', 'n', 'f'] g.first_udv }
  let g := { g with first_udv := add_udv_by_name ['N', 'a', 'N'] g.first_udv }
  let g := E.init_constants g
  let g := { g with udv_user_head := g.udv_NaN }
  init_memory_lib E { s with gp := g }

/-- The statements of the block of `gnuplot_init` under `SETJMP`, in order, from
`interrupt_setup()` to the final `reset_command()`.  A statement that cannot
jump always returns. -/
def bootstrap_steps {ρ : Type} (E : Engine ρ) :
    List (Gnuplot ρ → Except (Gnuplot ρ) (Gnuplot ρ)) :=
  [E.interrupt_setup,
   fun g => .ok { g with sigint := SigHandler.lib_inter },
   E.get_user_env,
   E.init_loadpath,
   E.init_locale,
   fun g => .ok (E.clear_sm_palette g),
   E.init_fit,
   fun g => if E.READLINE then E.init_encoding g else .ok g,
   E.init_gadgets,
   fun g => .ok (if g.env_GNUTERM = none then { g with env_GNUTERM := some ['d', 'u', 'm', 'b'] }
                 else g),
   E.init_terminal,
   fun g => .ok { g with successful_initialization := true },
   E.update_gpval_variables 3,
   E.reset_command]

/-- Running statements one after the other until one jumps. -/
def run_steps {ρ : Type} :
    List (Gnuplot ρ → Except (Gnuplot ρ) (Gnuplot ρ)) → Gnuplot ρ →
      Except (Gnuplot ρ) (Gnuplot ρ)
  | [], g => .ok g
  | f :: fs, g =>
    match f g with
    | .ok g => run_steps fs g
    | .error g => .error g

/-- An engine whose terminal setup jumps to the recovery point the first time
it runs and returns from then on: `interrupt_setup` counts the attempts in
`core`. -/
def flaky_engine : Engine (List (List Char)) :=
  { sample_engine with
    interrupt_setup := fun g => .ok { g with core := g.core ++ [[]] }
    init_terminal := fun g => if g.core.length < 2 then .error g else .ok g }

/-! ### The lines that `gnuplot_cmd_multi` keeps, and the lines of the specification -/

/-- A line with its leading spaces and tabs removed, as the loop
`while (*line == ' ' || *line == '\t') line++` leaves it. -/
def trim_leading (line : List Char) : List Char :=
  line.dropWhile (fun c => c = ' ' ∨ c = '\t')

/-- The lines of the input that the loop of `gnuplot_cmd_multi` keeps: the input
split at its newline characters, every line with its leading spaces and tabs
removed, without the lines that are then empty and the lines that then begin
with `#`. -/
def retained_lines (commands : List Char) : List (List Char) :=
  ((split_lines commands).map trim_leading).filter
    (fun line => line ≠ [] ∧ line.head? ≠ some '#')

/-- The lines to be executed in the words of the specification: the input split
at its newline characters, every line with its leading whitespace removed,
without the blank lines and the lines that begin with `#`.  Whitespace is
`Char.isWhitespace`: space, tab, carriage return and newline. -/
def stated_lines (commands : List Char) : List (List Char) :=
  ((split_lines commands).map (fun line => line.dropWhile Char.isWhitespace)).filter
    (fun line => line ≠ [] ∧ line.head? ≠ some '#')

/-- Calling `gnuplot_cmd` on the lines in order and stopping at the first one
that fails: the result code and the state after the last call made. -/
def exec_lines {ρ : Type} (E : Engine ρ) : List (List Char) → Lib ρ → Int × Lib ρ
  | [], s => (0, s)
  | line :: lines, s =>
    match gnuplot_cmd E (some line) s with
    | (0, s) => exec_lines E lines s
    | (_, s) => (-1, s)

/-- The state after `gnuplot_cmd` has been called on every line in order and
every call has returned 0; `none` when one of the calls fails. -/
def submit_all {ρ : Type} (E : Engine ρ) : List (List Char) → Lib ρ → Option (Lib ρ)
  | [], s => some s
  | line :: lines, s =>
    if (gnuplot_cmd E (some line) s).1 = 0 then submit_all E lines (gnuplot_cmd E (some line) s).2
    else none

/-- An engine that runs every command and appends it to the list `core`. -/
def recording_engine : Engine (List (List Char)) :=
  { sample_engine with
    do_string := fun cmd g => .ok { g with core := g.core ++ [cmd] } }

/-- A sample input of `gnuplot_cmd_multi` with a blank line, a comment line and
indented lines. -/
def sample_script : List Char :=
  "  set title 'a'\n\n# note\n\tplot x\n   \nbad\nreplot".toList

/-- Two commands and a blank line between them, with the line ends of a text file
of Windows. -/
def crlf_script : List Char :=
  "plot x\r\n\r\nreplot\r\n".toList

/-- A blank line and a comment line, with the line ends of a text file of
Windows. -/
def blank_crlf_script : List Char :=
  " \r\n# note\r\n".toList

/-! ### Reading the variable table -/

/-- The value of the first variable of the table that has the given name. -/
def udv_lookup (name : List Char) (udvs : List udvt_entry) : Option Value :=
  (udvs.find? (fun e => e.udv_name = name)).map (fun e => e.udv_value)

/-- The sample session after `gnuplot_init`. -/
def sample_session : Lib (List (List Char)) := (gnuplot_init sample_engine sample_lib).2

/-- The sample session with three more variables: `$A` without a value, `$B`
with a value that is not a datablock, and `$C`, a datablock with two rows. -/
def sample_session_vars : Lib (List (List Char)) :=
  { sample_session with
    gp := { sample_session.gp with
      first_udv := sample_session.gp.first_udv ++
        [⟨"$A".toList, Value.NOTDEFINED⟩, ⟨"$B".toList, Value.other 7⟩,
         ⟨"$C".toList, Value.DATABLOCK (some ["9 9".toList, "8 8".toList])⟩] } }

/-! ### Sample data for `gnuplot_close` and the Lua records -/

/-- An engine whose `term_reset` appends an empty entry to `core`, so that the
length of `core` counts the resets of the backend. -/
def counting_engine : Engine (List (List Char)) :=
  { sample_engine with term_reset := fun g => { g with core := g.core ++ [[]] } }

/-- A `luacmd_command_t` as it lies in memory: `text` is `none` for `NULL` and
the address of a string block otherwise. -/
structure RawCommand where
  type : Int
  x1 : Int
  y1 : Int
  x2 : Int
  y2 : Int
  text : Option Nat
  color : Nat
  value : Double
deriving DecidableEq, Repr

/-- Stands for the content of an array slot that has not been written. -/
def RawCommand.indeterminate : RawCommand := ⟨0, 0, 0, 0, 0, none, 0, ⟨0⟩⟩

/-- A block of the heap: a string, an array of records, or a block that has
been freed. -/
inductive Block where
  | str (text : List Char)
  | arr (slots : List RawCommand)
  | freed
deriving DecidableEq, Repr

/-- The heap and the statics of the command buffer; the block at address `a` is
`heap[a]`, and `command_buffer` is `none` for `NULL`. -/
structure CmdMem where
  heap : List Block
  command_buffer : Option Nat
  command_count : Nat
  command_capacity : Nat
  plot_width : Int
  plot_height : Int
deriving DecidableEq, Repr

/-- The statics at program start, with an empty heap. -/
def CmdMem.init : CmdMem := ⟨[], none, 0, 0, 800, 600⟩

/-- The string stored at an address. -/
def heap_str (heap : List Block) (a : Nat) : List Char :=
  match heap[a]? with
  | some (Block.str text) => text
  | _ => []

/-- The array stored at an address. -/
def heap_arr (heap : List Block) (a : Nat) : List RawCommand :=
  match heap[a]? with
  | some (Block.arr slots) => slots
  | _ => []

/-- The slots of the array `command_buffer`. -/
def CmdMem.slots (m : CmdMem) : List RawCommand :=
  match m.command_buffer with
  | none => []
  | some a => heap_arr m.heap a

/-- The call `strdup(text)` on the heap: the address of a new string block, or
`NULL` when it cannot allocate. -/
def mem_strdup (ok : Bool) (text : List Char) (heap : List Block) : Option Nat × List Block :=
  if ok then (some heap.length, heap ++ [Block.str text]) else (none, heap)

/-- The loop of `luacmd_clear_commands`: `free(command_buffer[i].text)` for the
records given. -/
def free_texts : List RawCommand → List Block → List Block
  | [], heap => heap
  | r :: rs, heap =>
    free_texts rs (match r.text with
      | some t => heap.set t Block.freed
      | none => heap)

/-- The function `luacmd_clear_commands` on the heap. -/
def mem_clear_commands (m : CmdMem) : CmdMem :=
  { m with heap := free_texts (m.slots.take m.command_count) m.heap, command_count := 0 }

/-- The function `luacmd_begin_plot` on the heap. -/
def mem_begin_plot (width height : Int) (m : CmdMem) : CmdMem :=
  mem_clear_commands { m with plot_width := width, plot_height := height }

/-- The call `realloc(block, n * sizeof(luacmd_command_t))` on the heap.  On
failure the result is `NULL` and nothing changes; on success the array has `n`
slots and keeps its old ones, either in place or, when `moves` is set, in a new
block while the old one is freed. -/
def mem_realloc (ok moves : Bool) (block : Option Nat) (n : Nat) (heap : List Block) :
    Option Nat × List Block :=
  if ok = false then (none, heap)
  else
    match block with
    | none => (some heap.length, heap ++ [Block.arr (List.replicate n RawCommand.indeterminate)])
    | some a =>
      let grown := (heap_arr heap a).take n ++
        List.replicate (n - (heap_arr heap a).length) RawCommand.indeterminate
      if moves then (some heap.length, heap.set a Block.freed ++ [Block.arr grown])
      else (some a, heap.set a (Block.arr grown))

/-- The statements of `luacmd_add_command` behind the growth of the array: the
text is duplicated and the record is written into slot `command_count`. -/
def mem_store_command (strdup_ok : Bool) (type x1 y1 x2 y2 : Int) (text : Option (List Char))
    (color : Nat) (value : Double) (m : CmdMem) : CmdMem :=
  let dup : Option Nat × List Block :=
    match text with
    | none => (none, m.heap)
    | some s => mem_strdup strdup_ok s m.heap
  match m.command_buffer with
  | none => { m with heap := dup.2, command_count := m.command_count + 1 }
  | some a =>
    { m with
      heap := dup.2.set a (Block.arr ((heap_arr dup.2 a).set m.command_count
        ⟨type, x1, y1, x2, y2, dup.1, color, value⟩)),
      command_count := m.command_count + 1 }

/-- The function `luacmd_add_command` on the heap. -/
def mem_add_command (realloc_ok moves strdup_ok : Bool) (type x1 y1 x2 y2 : Int)
    (text : Option (List Char)) (color : Nat) (value : Double) (m : CmdMem) : CmdMem :=
  if m.command_count ≥ m.command_capacity then
    let command_capacity := if m.command_capacity = 0 then 1024 else m.command_capacity * 2
    match mem_realloc realloc_ok moves m.command_buffer command_capacity m.heap with
    | (none, heap) =>
      { m with heap := heap, command_buffer := none, command_count := 0, command_capacity := 0 }
    | (some a, heap) =>
      mem_store_command strdup_ok type x1 y1 x2 y2 text color value
        { m with heap := heap, command_buffer := some a, command_capacity := command_capacity }
  else mem_store_command strdup_ok type x1 y1 x2 y2 text color value m

/-- The loop of `luacmd_get_commands` over the records `rs`, of which the first
has index `i`: the copies, and the string blocks that the calls of `strdup`
append to the heap, the first of them at address `next`.  The strings are read
from `heap`. -/
def copy_records (strdup_ok : Nat → Bool) (heap : List Block) :
    List RawCommand → Nat → Nat → List RawCommand × List Block
  | [], _, _ => ([], [])
  | r :: rs, i, next =>
    match r.text with
    | none =>
      ({ r with text := none } :: (copy_records strdup_ok heap rs (i + 1) next).1,
       (copy_records strdup_ok heap rs (i + 1) next).2)
    | some t =>
      if strdup_ok i then
        ({ r with text := some next } :: (copy_records strdup_ok heap rs (i + 1) (next + 1)).1,
         Block.str (heap_str heap t) :: (copy_records strdup_ok heap rs (i + 1) (next + 1)).2)
      else
        ({ r with text := none } :: (copy_records strdup_ok heap rs (i + 1) next).1,
         (copy_records strdup_ok heap rs (i + 1) next).2)

/-- The function `luacmd_get_commands` on the heap: the returned pointer, the
values stored through `count`, `width` and `height`, and the state after the
call.  The array of the copy is allocated first, the strings of the copies
behind it in the order of the records. -/
def mem_get_commands (malloc_ok : Bool) (strdup_ok : Nat → Bool) (m : CmdMem) :
    Option Nat × Nat × Int × Int × CmdMem :=
  if m.command_count = 0 then (none, m.command_count, m.plot_width, m.plot_height, m)
  else if malloc_ok = false then (none, m.command_count, m.plot_width, m.plot_height, m)
  else
    let copy := copy_records strdup_ok m.heap (m.slots.take m.command_count) 0
      (m.heap.length + 1)
    (some m.heap.length, m.command_count, m.plot_width, m.plot_height,
      { m with heap := m.heap ++ [Block.arr copy.1] ++ copy.2 })

/-- A record read through its text pointer; `none` when the pointer does not
lead to a string. -/
def read_command (heap : List Block) (r : RawCommand) : Option luacmd_command_t :=
  match r.text with
  | none => some ⟨r.type, r.x1, r.y1, r.x2, r.y2, none, r.color, r.value⟩
  | some t =>
    match heap[t]? with
    | some (Block.str text) => some ⟨r.type, r.x1, r.y1, r.x2, r.y2, some text, r.color, r.value⟩
    | _ => none

/-- The records read one after the other; `none` when one of them cannot be
read. -/
def read_commands (heap : List Block) : List RawCommand → Option (List luacmd_command_t)
  | [] => some []
  | r :: rs =>
    match read_command heap r, read_commands heap rs with
    | some c, some cs => some (c :: cs)
    | _, _ => none

/-- The records that a caller reads from the array at address `a`, text
payloads included; `none` when the array or one of the strings is not there
any more. -/
def read_snapshot (heap : List Block) (a : Nat) : Option (List luacmd_command_t) :=
  match heap[a]? with
  | some (Block.arr slots) => read_commands heap slots
  | _ => none

/-- The records `rs`, of which the first has index `i`, as `luacmd_get_commands`
copies them: every field as it is, and the text read from `heap` when the
record has one and its `strdup` succeeds. -/
def copied_records (strdup_ok : Nat → Bool) (heap : List Block) :
    List RawCommand → Nat → List luacmd_command_t
  | [], _ => []
  | r :: rs, i =>
    ⟨r.type, r.x1, r.y1, r.x2, r.y2,
      r.text.bind (fun t => if strdup_ok i then some (heap_str heap t) else none),
      r.color, r.value⟩ :: copied_records strdup_ok heap rs (i + 1)

/-- The text pointer of a record is `NULL` or leads to a string block. -/
def text_ok (heap : List Block) (r : RawCommand) : Bool :=
  match r.text with
  | none => true
  | some t =>
    match heap[t]? with
    | some (Block.str _) => true
    | _ => false

/-- The pointer `command_buffer` is `NULL` with capacity 0, or leads to an array
block of `command_capacity` slots. -/
def buffer_ok (m : CmdMem) : Bool :=
  match m.command_buffer with
  | none => m.command_capacity == 0
  | some a =>
    match m.heap[a]? with
    | some (Block.arr slots) => slots.length == m.command_capacity
    | _ => false

/-- The blocks that the command buffer owns are in the heap: the count does
not exceed the capacity, the array is allocated with `command_capacity` slots,
and the text pointers of the records in use lead to strings. -/
def CmdMem.WF (m : CmdMem) : Prop :=
  m.command_count ≤ m.command_capacity ∧ buffer_ok m = true ∧
  ∀ r ∈ m.slots.take m.command_count, text_ok m.heap r = true

instance (m : CmdMem) : Decidable m.WF := by
  unfold CmdMem.WF; infer_instance

/-- The state after the two `sample_records` have been appended at program
start. -/
def sample_mem : CmdMem :=
  mem_add_command true false true 2 5 6 0 0 (some ['h', 'i']) 255 ⟨0⟩
    (mem_add_command true false true 1 10 20 30 40 none 0 ⟨0⟩ CmdMem.init)

/-! ### Sequences of calls on the command buffer -/

/-- A call of one of the functions `luacmd_begin_plot`, `luacmd_add_command`,
`luacmd_clear_commands`, `luacmd_get_commands`, with its arguments and the
outcome of the allocations it requests. -/
inductive BufferCall where
  | begin_plot (width height : Int)
  | add_command (realloc_ok strdup_ok : Bool) (type x1 y1 x2 y2 : Int)
      (text : Option (List Char)) (color : Nat) (value : Double)
  | clear_commands
  | get_commands (malloc_ok : Bool) (strdup_ok : Nat → Bool)

/-- The statics of the command buffer after the call.  `luacmd_get_commands`
writes none of them. -/
def BufferCall.run : BufferCall → CmdState → CmdState
  | .begin_plot width height, s => luacmd_begin_plot width height s
  | .add_command realloc_ok strdup_ok type x1 y1 x2 y2 text color value, s =>
    luacmd_add_command realloc_ok strdup_ok type x1 y1 x2 y2 text color value s
  | .clear_commands, s => luacmd_clear_commands s
  | .get_commands _ _, s => s

/-- Whether the call is a `luacmd_add_command`. -/
def BufferCall.is_add : BufferCall → Bool
  | .add_command _ _ _ _ _ _ _ _ _ _ => true
  | _ => false

/-- The statics after the calls, made one after the other. -/
def run_calls (calls : List BufferCall) (s : CmdState) : CmdState :=
  calls.foldl (fun s c => c.run s) s

/-- The state reached from program start by the calls. -/
def reached (calls : List BufferCall) : CmdState := run_calls calls CmdState.init

/-- The number of `luacmd_add_command` calls among the calls. -/
def appends (calls : List BufferCall) : Nat := calls.countP BufferCall.is_add

/-- An append of a vector record, all allocations succeeding. -/
def sample_add : BufferCall :=
  .add_command true true 1 10 20 30 40 none 0 ⟨0⟩

/-- An append whose `realloc` fails. -/
def failing_add : BufferCall :=
  .add_command false true 1 10 20 30 40 none 0 ⟨0⟩

/-! ### The statics of the library together -/

/-- All the statics of `libgnuplot.c`: those of the session, of the saved bitmap
and of the command buffer.  Engine code that runs inside a session function
reaches the last two only through the functions of this file; such a call
counts as a call of its own. -/
structure Program (ρ : Type) where
  lib : Lib ρ
  saved : SavedBitmap
  commands : CmdState

/-- A call of a function that `libgnuplot.h` declares, with its arguments, the
bitmap globals it reads and the outcome of its allocations. -/
inductive Call where
  | gnuplot_init
  | gnuplot_cmd (command : Option (List Char))
  | gnuplot_cmd_multi (commands : Option (List Char))
  | gnuplot_reset
  | gnuplot_close
  | gnuplot_get_version
  | gnuplot_is_initialized
  | gnuplot_set_datablock (name data : Option (List Char))
  | gnuplot_save_bitmap_data (malloc_ok : Bool) (bm : Bitmap)
  | gnuplot_get_saved_bitmap_data
  | gnuplot_free_saved_bitmap
  | luacmd (c : BufferCall)
  | luacmd_end_plot
  | luacmd_free_commands

/-- The statics after the call: every function writes the statics of its own
group only.  The decode of `gnuplot_save_bitmap_data` has no defined result
when it stores outside its block. -/
def Program.call {ρ : Type} (E : Engine ρ) : Call → Program ρ → Except Fault (Program ρ)
  | .gnuplot_init, p => .ok { p with lib := (gnuplot_init E p.lib).2 }
  | .gnuplot_cmd command, p => .ok { p with lib := (gnuplot_cmd E command p.lib).2 }
  | .gnuplot_cmd_multi commands, p => .ok { p with lib := (gnuplot_cmd_multi E commands p.lib).2 }
  | .gnuplot_reset, p => .ok { p with lib := gnuplot_reset E p.lib }
  | .gnuplot_close, p => .ok { p with lib := gnuplot_close E p.lib }
  | .gnuplot_get_version, p => .ok p
  | .gnuplot_is_initialized, p => .ok p
  | .gnuplot_set_datablock name data, p =>
    .ok { p with lib := (gnuplot_set_datablock name data p.lib).2 }
  | .gnuplot_save_bitmap_data malloc_ok bm, p =>
    match gnuplot_save_bitmap_data malloc_ok bm p.saved with
    | .ok r => .ok { p with saved := r.2 }
    | .error f => .error f
  | .gnuplot_get_saved_bitmap_data, p => .ok p
  | .gnuplot_free_saved_bitmap, p => .ok { p with saved := gnuplot_free_saved_bitmap p.saved }
  | .luacmd c, p => .ok { p with commands := c.run p.commands }
  | .luacmd_end_plot, p => .ok { p with commands := luacmd_end_plot p.commands }
  | .luacmd_free_commands, p => .ok p

/-- The statics at program start, with the sample engine state. -/
def sample_program : Program (List (List Char)) :=
  ⟨sample_lib, SavedBitmap.init, CmdState.init⟩

/-! # Theorems -/

/-! ### Lemmas on the decode loops -/

theorem ok_bind {ε α β : Type} (a : α) (f : α → Except ε β) :
    ((Except.ok a : Except ε α) >>= f) = f a := rfl

theorem store_cons (v : Nat) (b : List (Option Nat)) (a : Option Nat) (r : List (Option Nat)) :
    store v ⟨b, a :: r⟩ = .ok ⟨b ++ [some v], r⟩ := rfl

theorem bit_bytes_length (p1 p2 p3 p4 : Nat) (n mask : Nat) :
    (bit_bytes p1 p2 p3 p4 n mask).length = 3 * n := by
  induction n generalizing mask with
  | zero => rfl
  | succ n ih => simp only [bit_bytes, List.length_append, ih, List.length_cons, List.length_nil]; omega

theorem bit_loop_eq (p1 p2 p3 p4 : Nat) (n mask : Nat) (c : Cursor)
    (h : 3 * n ≤ c.after.length) :
    bit_loop p1 p2 p3 p4 n mask c =
      .ok ⟨c.before ++ (bit_bytes p1 p2 p3 p4 n mask).map some, c.after.drop (3 * n)⟩ := by
  induction n generalizing mask c with
  | zero => simp [bit_loop, bit_bytes]
  | succ n ih =>
    obtain ⟨b, a⟩ := c
    match a, h with
    | a1 :: a2 :: a3 :: r, h =>
      simp only [bit_loop, store_cons, bind, Except.bind]
      rw [ih]
      · simp [bit_bytes, Nat.mul_succ]
      · simp at h ⊢; omega
    | [], h => simp at h
    | [_], h => simp at h; omega
    | [_, _], h => simp at h; omega

theorem desc_concat_length {α : Type} (f : Nat → List α) (L : Nat)
    (hL : ∀ y, (f y).length = L) (n : Nat) : (desc_concat f n).length = n * L := by
  induction n with
  | zero => simp [desc_concat]
  | succ n ih => simp [desc_concat, ih, hL, Nat.succ_mul]; omega

theorem desc_concat_getElem? {α : Type} (f : Nat → List α) (L : Nat)
    (hL : ∀ y, (f y).length = L) (n x k : Nat) (hx : x < n) (hk : k < L) :
    (desc_concat f n)[(n - 1 - x) * L + k]? = (f x)[k]? := by
  induction n with
  | zero => omega
  | succ n ih =>
    simp only [desc_concat]
    by_cases hxn : x = n
    · subst hxn
      have : x + 1 - 1 - x = 0 := by omega
      rw [this, Nat.zero_mul, Nat.zero_add, List.getElem?_append_left (by rw [hL]; exact hk)]
    · have hlt : x < n := by omega
      have e : (n + 1 - 1 - x) = (n - 1 - x) + 1 := by omega
      rw [e, Nat.succ_mul, List.getElem?_append_right (by rw [hL]; omega), hL]
      have : (n - 1 - x) * L + L + k - L = (n - 1 - x) * L + k := by omega
      rw [this]
      exact ih hlt

theorem group_bytes_length (rows : Nat → Nat → Nat) (b_psize x j : Nat) :
    (group_bytes rows b_psize x j).length = 24 := by
  simp [group_bytes, bit_bytes_length]

theorem row_bytes_length (rows : Nat → Nat → Nat) (b_psize x n : Nat) :
    (row_bytes rows b_psize x n).length = n * 24 :=
  desc_concat_length _ 24 (group_bytes_length rows b_psize x) n

theorem row_loop_eq (rows : Nat → Nat → Nat) (b_psize x n : Nat) (c : Cursor)
    (h : n * 24 ≤ c.after.length) :
    row_loop rows b_psize x n c =
      .ok ⟨c.before ++ (row_bytes rows b_psize x n).map some, c.after.drop (n * 24)⟩ := by
  induction n generalizing c with
  | zero => simp [row_loop, row_bytes, desc_concat]
  | succ n ih =>
    simp only [row_loop, bind, Except.bind]
    rw [bit_loop_eq _ _ _ _ 8 _ c (by omega)]
    simp only []
    rw [ih _ (by simp; omega)]
    simp [row_bytes, desc_concat, group_bytes, Nat.succ_mul, Nat.add_comm]

theorem col_bytes_length (rows : Nat → Nat → Nat) (b_psize m n : Nat) :
    (col_bytes rows b_psize m n).length = n * (m * 24) :=
  desc_concat_length _ _ (fun x => row_bytes_length rows b_psize x m) n

theorem col_loop_eq (rows : Nat → Nat → Nat) (b_psize width m : Nat)
    (hm : (toInt (usub (width / 8) 1) + 1).toNat = m) (n : Nat) (c : Cursor)
    (h : n * (m * 24) ≤ c.after.length) :
    col_loop rows b_psize width n c =
      .ok ⟨c.before ++ (col_bytes rows b_psize m n).map some, c.after.drop (n * (m * 24))⟩ := by
  induction n generalizing c with
  | zero => simp [col_loop, col_bytes, desc_concat]
  | succ n ih =>
    rw [Nat.succ_mul] at h
    rw [col_loop]
    simp only [hm]
    rw [row_loop_eq _ _ _ _ c (by omega), ok_bind,
      ih _ (by simp only [List.length_drop]; omega)]
    simp only [col_bytes, desc_concat, List.map_append, List.append_assoc, List.drop_drop,
      Nat.succ_mul]
    rw [Nat.add_comm (m * 24)]

/-! ### Machine arithmetic inside the valid range -/

theorem uint_of_lt (n : Nat) (h : n < 4294967296) : uint n = n := by
  unfold uint UINT_MOD; omega

theorem toInt_usub_one (a : Nat) (h1 : 1 ≤ a) (h2 : a ≤ 2147483648) :
    (toInt (usub a 1) + 1).toNat = a := by
  unfold toInt usub uint UINT_MOD
  split <;> omega

/-! ### One pixel -/

theorem and_shift_ne_zero (p i : Nat) (hi : i < 8) :
    (p &&& (0x80 >>> i) ≠ 0) ↔ p.testBit (7 - i) = true := by
  have key : ∀ k, (p &&& 2 ^ k ≠ 0) ↔ p.testBit k = true := by
    intro k
    rw [Nat.and_two_pow]
    cases p.testBit k <;> simp
  interval_cases i
  · exact key 7
  · exact key 6
  · exact key 5
  · exact key 4
  · exact key 3
  · exact key 2
  · exact key 1
  · exact key 0

theorem level_shift (p i : Nat) (hi : i < 8) :
    level p (0x80 >>> i) = if p.testBit (7 - i) = true then 1 else 3 := by
  unfold level
  by_cases h : p.testBit (7 - i) = true
  · rw [if_pos ((and_shift_ne_zero p i hi).2 h), if_pos h]
  · rw [if_neg (fun h2 => h ((and_shift_ne_zero p i hi).1 h2)), if_neg h]

theorem bit_bytes_getElem? (p1 p2 p3 p4 : Nat) (n mask i : Nat) (hi : i < n) :
    (bit_bytes p1 p2 p3 p4 n mask)[3 * i]? = some ((levels p1 p2 p3 p4 (mask >>> i)).1 * 85 % 256) ∧
    (bit_bytes p1 p2 p3 p4 n mask)[3 * i + 1]? = some ((levels p1 p2 p3 p4 (mask >>> i)).2.1 * 85 % 256) ∧
    (bit_bytes p1 p2 p3 p4 n mask)[3 * i + 2]? = some ((levels p1 p2 p3 p4 (mask >>> i)).2.2 * 85 % 256) := by
  induction n generalizing mask i with
  | zero => omega
  | succ n ih =>
    cases i with
    | zero => simp [bit_bytes]
    | succ i =>
      have e0 : 3 * (i + 1) = (3 * i) + 1 + 1 + 1 := by omega
      have e1 : 3 * i + 1 + 1 + 1 + 1 = (3 * i + 1) + 1 + 1 + 1 := by omega
      have e2 : 3 * i + 1 + 1 + 1 + 2 = (3 * i + 2) + 1 + 1 + 1 := by omega
      have hs : mask >>> (i + 1) = (mask >>> 1) >>> i := by
        rw [← Nat.shiftRight_add, Nat.add_comm]
      obtain ⟨a, b, c⟩ := ih (mask >>> 1) i (by omega)
      rw [e0, e1, e2, hs]
      simp only [bit_bytes, List.cons_append, List.nil_append, List.getElem?_cons_succ]
      exact ⟨a, b, c⟩

/-! ### The decode loops on a block that is too small -/

theorem error_bind {ε α β : Type} (e : ε) (f : α → Except ε β) :
    ((Except.error e : Except ε α) >>= f) = Except.error e := rfl

theorem store_nil (v : Nat) (b : List (Option Nat)) :
    store v ⟨b, []⟩ = .error Fault.store_outside_block := rfl

theorem bit_loop_fault (p1 p2 p3 p4 : Nat) (n mask : Nat) (c : Cursor)
    (h : c.after.length < 3 * n) :
    bit_loop p1 p2 p3 p4 n mask c = .error Fault.store_outside_block := by
  induction n generalizing mask c with
  | zero => omega
  | succ n ih =>
    obtain ⟨b, a⟩ := c
    rw [bit_loop]
    match a, h with
    | [], _ => simp only [store_nil, error_bind]
    | [_], _ => simp only [store_cons, store_nil, ok_bind, error_bind]
    | [_, _], _ => simp only [store_cons, store_nil, ok_bind, error_bind]
    | _ :: _ :: _ :: r, h =>
      simp only [store_cons, ok_bind]
      exact ih _ _ (by simp only [List.length_cons] at h ⊢; omega)

theorem row_loop_fault (rows : Nat → Nat → Nat) (b_psize x n : Nat) (c : Cursor)
    (h : c.after.length < n * 24) :
    row_loop rows b_psize x n c = .error Fault.store_outside_block := by
  induction n generalizing c with
  | zero => omega
  | succ n ih =>
    rw [row_loop]
    by_cases h24 : c.after.length < 24
    · simp only [bit_loop_fault _ _ _ _ 8 _ c (by omega), error_bind]
    · simp only [bit_loop_eq _ _ _ _ 8 _ c (by omega), ok_bind]
      exact ih _ (by simp only [List.length_drop]; omega)

theorem col_loop_fault (rows : Nat → Nat → Nat) (b_psize width m : Nat)
    (hm : (toInt (usub (width / 8) 1) + 1).toNat = m) (n : Nat) (c : Cursor)
    (h : c.after.length < n * (m * 24)) :
    col_loop rows b_psize width n c = .error Fault.store_outside_block := by
  induction n generalizing c with
  | zero => omega
  | succ n ih =>
    rw [Nat.succ_mul] at h
    rw [col_loop]
    simp only [hm]
    by_cases hrow : c.after.length < m * 24
    · rw [row_loop_fault _ _ _ _ c hrow, error_bind]
    · rw [row_loop_eq _ _ _ _ c (by omega), ok_bind]
      exact ih _ (by simp only [List.length_drop]; omega)

theorem levels_shift (p1 p2 p3 p4 i : Nat) (hi : i < 8) :
    (levels p1 p2 p3 p4 (0x80 >>> i)).1 * 85 % 256
        = 85 * ((if p3.testBit (7 - i) = true then 1 else 3)
                - (if p4.testBit (7 - i) = true then 1 else 0)) ∧
    (levels p1 p2 p3 p4 (0x80 >>> i)).2.1 * 85 % 256
        = 85 * ((if p2.testBit (7 - i) = true then 1 else 3)
                - (if p4.testBit (7 - i) = true then 1 else 0)) ∧
    (levels p1 p2 p3 p4 (0x80 >>> i)).2.2 * 85 % 256
        = 85 * ((if p1.testBit (7 - i) = true then 1 else 3)
                - (if p4.testBit (7 - i) = true then 1 else 0)) := by
  unfold levels
  simp only [level_shift _ _ hi]
  by_cases h4 : p4.testBit (7 - i) = true
  · rw [if_pos ((and_shift_ne_zero p4 i hi).2 h4)]
    simp only [h4, if_true]
    refine ⟨?_, ?_, ?_⟩ <;> split <;> rfl
  · rw [if_neg (fun h => h4 ((and_shift_ne_zero p4 i hi).1 h))]
    simp only [h4]
    refine ⟨?_, ?_, ?_⟩ <;> split <;> rfl

/-- The code of `gnuplot_save_bitmap_data` behind its two guards, for a valid
bitmap. -/
theorem save_unfold (malloc_ok : Bool) (bm : Bitmap) (rows : Nat → Nat → Nat) (s : SavedBitmap)
    (hv : ValidBitmap bm) (hc : CounterFits bm) (hp : bm.b_p = some rows) :
    gnuplot_save_bitmap_data malloc_ok bm s =
      if malloc_ok = false then .ok (none, { s with saved_rgb_data := none })
      else
        col_loop rows bm.b_psize bm.b_ysize bm.b_xsize
            ⟨[], List.replicate (uint (bm.b_ysize * bm.b_xsize * 3)) none⟩ >>= fun c =>
          .ok (some ⟨bm.b_ysize, bm.b_xsize, c.before ++ c.after⟩,
               ⟨some ⟨bm.b_ysize, bm.b_xsize, c.before ++ c.after⟩, bm.b_ysize, bm.b_xsize⟩) := by
  obtain ⟨_, hx, hy, hpl, h8, hps, hW, _⟩ := hv
  have hn := toInt_usub_one bm.b_xsize hx hc
  unfold gnuplot_save_bitmap_data
  rw [hp]
  simp only []
  rw [if_neg (by omega), if_neg (by omega), hn]

theorem rows_per_column (bm : Bitmap) (hv : ValidBitmap bm) :
    (toInt (usub (bm.b_ysize / 8) 1) + 1).toNat = bm.b_ysize / 8 := by
  obtain ⟨_, hx, hy, hpl, h8, hps, hW, hH⟩ := hv
  unfold UINT_MOD at hW
  exact toInt_usub_one (bm.b_ysize / 8) (by omega) (by omega)

theorem stream_length (bm : Bitmap) (hv : ValidBitmap bm) :
    bm.b_xsize * (bm.b_ysize / 8 * 24) = bm.b_ysize * bm.b_xsize * 3 := by
  have : bm.b_ysize / 8 * 24 = bm.b_ysize * 3 := by
    have := hv.2.2.2.2.1
    omega
  rw [this]; ring

/-- The decode of a valid bitmap whose size fits succeeds and yields
`decoded_block`. -/
theorem save_valid (bm : Bitmap) (rows : Nat → Nat → Nat) (s : SavedBitmap)
    (hv : ValidBitmap bm) (hc : CounterFits bm) (hp : bm.b_p = some rows) (hsz : SizeFits bm) :
    gnuplot_save_bitmap_data true bm s =
      .ok (some (decoded_block bm rows), ⟨some (decoded_block bm rows), bm.b_ysize, bm.b_xsize⟩) := by
  have hlen := stream_length bm hv
  unfold SizeFits UINT_MOD at hsz
  rw [save_unfold true bm rows s hv hc hp, if_neg (by simp), uint_of_lt _ hsz,
    col_loop_eq rows bm.b_psize bm.b_ysize _ (rows_per_column bm hv) bm.b_xsize _
      (by simp only [List.length_replicate]; omega), ok_bind]
  simp only [List.nil_append, hlen, List.drop_replicate, Nat.sub_self, List.replicate_zero,
    List.append_nil, decoded_block]

/-- The decode of a valid bitmap whose size does not fit stores outside the
block it allocated. -/
theorem save_too_large (bm : Bitmap) (rows : Nat → Nat → Nat) (s : SavedBitmap)
    (hv : ValidBitmap bm) (hc : CounterFits bm) (hp : bm.b_p = some rows) (hsz : ¬ SizeFits bm) :
    gnuplot_save_bitmap_data true bm s = .error Fault.store_outside_block := by
  have hlen := stream_length bm hv
  unfold SizeFits UINT_MOD at hsz
  have hlt : uint (bm.b_ysize * bm.b_xsize * 3) < 4294967296 := by
    unfold uint UINT_MOD; omega
  rw [save_unfold true bm rows s hv hc hp, if_neg (by simp),
    col_loop_fault rows bm.b_psize bm.b_ysize _ (rows_per_column bm hv) bm.b_xsize _
      (by simp only [List.length_replicate]; omega), error_bind]

/-- Every successful decode of a valid bitmap yields `decoded_block`, and the
size then fits. -/
theorem save_success (malloc_ok : Bool) (bm : Bitmap) (rows : Nat → Nat → Nat)
    (s s' : SavedBitmap) (block : RgbBlock)
    (hv : ValidBitmap bm) (hc : CounterFits bm) (hp : bm.b_p = some rows)
    (h : gnuplot_save_bitmap_data malloc_ok bm s = .ok (some block, s')) :
    SizeFits bm ∧ block = decoded_block bm rows ∧
      s' = ⟨some (decoded_block bm rows), bm.b_ysize, bm.b_xsize⟩ := by
  cases malloc_ok with
  | false =>
    rw [save_unfold false bm rows s hv hc hp, if_pos rfl] at h
    injection h with h
    injection h with h1 h2
    cases h1
  | true =>
    by_cases hsz : SizeFits bm
    · rw [save_valid bm rows s hv hc hp hsz] at h
      injection h with h
      injection h with h1 h2
      injection h1 with h1
      exact ⟨hsz, h1.symm, h2.symm⟩
    · rw [save_too_large bm rows s hv hc hp hsz] at h
      cases h

theorem col_bytes_getElem? (rows : Nat → Nat → Nat) (ps m H x j q : Nat)
    (hx : x < H) (hj : j < m) (hq : q < 24) :
    (col_bytes rows ps m H)[(H - 1 - x) * (m * 24) + ((m - 1 - j) * 24 + q)]?
      = (group_bytes rows ps x j)[q]? := by
  unfold col_bytes
  rw [desc_concat_getElem? _ (m * 24) (fun y => row_bytes_length rows ps y m) H x _ hx
    (by omega)]
  exact desc_concat_getElem? _ 24 (group_bytes_length rows ps x) m j q hj hq

/-- The three bytes of the pixel that the decode loops emit for byte column `x`,
byte row `j` and bit `i`. -/
theorem col_bytes_pixel (rows : Nat → Nat → Nat) (ps W H x j i : Nat)
    (h8 : W % 8 = 0) (hps : j + ps + ps + ps < 4294967296)
    (hx : x < H) (hj : j < W / 8) (hi : i < 8) :
    (col_bytes rows ps (W / 8) H)[3 * ((H - 1 - x) * W + (W / 8 - 1 - j) * 8 + i)]?
      = some (85 * ((if (rows (j + 2 * ps) x).testBit (7 - i) = true then 1 else 3)
                - (if (rows (j + 3 * ps) x).testBit (7 - i) = true then 1 else 0))) ∧
    (col_bytes rows ps (W / 8) H)[3 * ((H - 1 - x) * W + (W / 8 - 1 - j) * 8 + i) + 1]?
      = some (85 * ((if (rows (j + 1 * ps) x).testBit (7 - i) = true then 1 else 3)
                - (if (rows (j + 3 * ps) x).testBit (7 - i) = true then 1 else 0))) ∧
    (col_bytes rows ps (W / 8) H)[3 * ((H - 1 - x) * W + (W / 8 - 1 - j) * 8 + i) + 2]?
      = some (85 * ((if (rows (j + 0 * ps) x).testBit (7 - i) = true then 1 else 3)
                - (if (rows (j + 3 * ps) x).testBit (7 - i) = true then 1 else 0))) := by
  have r3 : j + 3 * ps = j + ps + ps + ps := by omega
  have r2 : j + 2 * ps = j + ps + ps := by omega
  have r1 : j + 1 * ps = j + ps := by omega
  have r0 : j + 0 * ps = j := by omega
  rw [r3, r2, r1, r0]
  have hW : W = 8 * (W / 8) := by omega
  generalize W / 8 = m at hW hj ⊢
  subst hW
  have e0 : 3 * ((H - 1 - x) * (8 * m) + (m - 1 - j) * 8 + i)
      = (H - 1 - x) * (m * 24) + ((m - 1 - j) * 24 + (3 * i)) := by ring
  have e1 : 3 * ((H - 1 - x) * (8 * m) + (m - 1 - j) * 8 + i) + 1
      = (H - 1 - x) * (m * 24) + ((m - 1 - j) * 24 + (3 * i + 1)) := by ring
  have e2 : 3 * ((H - 1 - x) * (8 * m) + (m - 1 - j) * 8 + i) + 2
      = (H - 1 - x) * (m * 24) + ((m - 1 - j) * 24 + (3 * i + 2)) := by ring
  rw [e1, e2, e0, col_bytes_getElem? rows ps m H x j _ hx hj (by omega),
    col_bytes_getElem? rows ps m H x j _ hx hj (by omega),
    col_bytes_getElem? rows ps m H x j _ hx hj (by omega)]
  unfold group_bytes
  rw [uint_of_lt _ (by omega : j + ps < 4294967296),
    uint_of_lt _ (by omega : j + ps + ps < 4294967296), uint_of_lt _ hps]
  obtain ⟨b0, b1, b2⟩ := bit_bytes_getElem? (rows j x) (rows (j + ps) x) (rows (j + ps + ps) x)
    (rows (j + ps + ps + ps) x) 8 0x80 i hi
  obtain ⟨c0, c1, c2⟩ := levels_shift (rows j x) (rows (j + ps) x) (rows (j + ps + ps) x)
    (rows (j + ps + ps + ps) x) i hi
  rw [b0, b1, b2, c0, c1, c2]
  exact ⟨rfl, rfl, rfl⟩

/-- The early returns of `gnuplot_save_bitmap_data` leave the statics alone. -/
theorem save_invalid (malloc_ok : Bool) (bm : Bitmap) (s : SavedBitmap)
    (h : bm.b_p = none ∨ bm.b_xsize = 0 ∨ bm.b_ysize = 0 ∨ bm.b_planes < 4) :
    gnuplot_save_bitmap_data malloc_ok bm s = .ok (none, s) := by
  unfold gnuplot_save_bitmap_data
  cases hp : bm.b_p with
  | none => rfl
  | some rows =>
    simp only []
    rcases h with h | h | h | h
    · rw [hp] at h; cases h
    · rw [if_pos (Or.inl h)]
    · rw [if_pos (Or.inr h)]
    · by_cases h0 : bm.b_xsize = 0 ∨ bm.b_ysize = 0
      · rw [if_pos h0]
      · rw [if_neg h0, if_pos h]

/-- The decode of a valid bitmap with more than `2 ^ 31` byte columns: the
counter `x` starts below zero, the loop body never runs, and the call returns a
block none of whose bytes has been stored to. -/
theorem save_counter_wraps (bm : Bitmap) (rows : Nat → Nat → Nat) (s : SavedBitmap)
    (hv : ValidBitmap bm) (hc : ¬ CounterFits bm) (hp : bm.b_p = some rows) :
    gnuplot_save_bitmap_data true bm s =
      .ok (some ⟨bm.b_ysize, bm.b_xsize,
              List.replicate (uint (bm.b_ysize * bm.b_xsize * 3)) none⟩,
           ⟨some ⟨bm.b_ysize, bm.b_xsize,
              List.replicate (uint (bm.b_ysize * bm.b_xsize * 3)) none⟩,
            bm.b_ysize, bm.b_xsize⟩) := by
  obtain ⟨_, hx, hy, hpl, h8, hps, hW, hH⟩ := hv
  unfold CounterFits at hc
  unfold UINT_MOD at hW hH
  have hn : (toInt (usub bm.b_xsize 1) + 1).toNat = 0 := by
    unfold toInt usub uint UINT_MOD
    split <;> omega
  unfold gnuplot_save_bitmap_data
  rw [hp]
  simp only []
  rw [if_neg (by omega), if_neg (by omega), hn, if_neg (by simp)]
  rfl

/-- The layout of the pixels of a valid 4-plane bitmap whose counter and size
fit: every successful `gnuplot_save_bitmap_data` returns a block in which, for
every byte column `x < b_xsize`, byte row `j < b_ysize / 8` and bit `i < 8`, the
pixel at output index `(b_xsize-1-x)*b_ysize + (b_ysize/8-1-j)*8 + i` holds the
bytes R, G, B = `85*(L3-h)`, `85*(L2-h)`, `85*(L1-h)`, where `Lk` is 1 if bit
`7-i` of byte `x` of row `j` of plane `k` is set and 3 otherwise, and `h` is 1 if
that bit of plane 4 is set and 0 otherwise; and the call does succeed when
`malloc` succeeds and the size of the image fits an `unsigned int`. -/
theorem save_bitmap_pixel_layout (malloc_ok : Bool) (bm : Bitmap) (rows : Nat → Nat → Nat)
    (s : SavedBitmap) (hv : ValidBitmap bm) (hc : CounterFits bm) (hp : bm.b_p = some rows) :
    (malloc_ok = true → SizeFits bm →
      ∃ block, gnuplot_save_bitmap_data malloc_ok bm s
        = .ok (some block, ⟨some block, bm.b_ysize, bm.b_xsize⟩)) ∧
    ∀ block s', gnuplot_save_bitmap_data malloc_ok bm s = .ok (some block, s') →
      ∀ x j i, x < bm.b_xsize → j < bm.b_ysize / 8 → i < 8 →
        let L := fun k =>
          if (rows (j + (k - 1) * bm.b_psize) x).testBit (7 - i) = true then 1 else 3
        let h := if (rows (j + 3 * bm.b_psize) x).testBit (7 - i) = true then 1 else 0
        let P := (bm.b_xsize - 1 - x) * bm.b_ysize + (bm.b_ysize / 8 - 1 - j) * 8 + i
        block.rgb[3 * P]? = some (some (85 * (L 3 - h))) ∧
        block.rgb[3 * P + 1]? = some (some (85 * (L 2 - h))) ∧
        block.rgb[3 * P + 2]? = some (some (85 * (L 1 - h))) := by
  refine ⟨fun hm hsz => ⟨_, by rw [hm]; exact save_valid bm rows s hv hc hp hsz⟩, ?_⟩
  intro block s' hok x j i hx hj hi
  obtain ⟨_, hb, _⟩ := save_success malloc_ok bm rows s s' block hv hc hp hok
  subst hb
  obtain ⟨_, _, hy, _, h8, hps, hW, _⟩ := hv
  unfold UINT_MOD at hW
  obtain ⟨a, b, c⟩ := col_bytes_pixel rows bm.b_psize bm.b_ysize bm.b_xsize x j i h8
    (by omega) hx hj hi
  simp only [decoded_block, List.getElem?_map, a, b, c, Option.map_some', and_self]

/-- The layout on `sample_bitmap`: the decode succeeds, and the first pixel
comes from bit 7 of the four plane bytes `0xA5`, `0x0F`, `0x33`, `0x01`. -/
theorem save_bitmap_pixel_layout_witness :
    ValidBitmap sample_bitmap ∧ CounterFits sample_bitmap ∧ SizeFits sample_bitmap ∧
    gnuplot_save_bitmap_data true sample_bitmap SavedBitmap.init
      = .ok (some sample_block, ⟨some sample_block, 8, 1⟩) ∧
    sample_block.rgb[0]? = some (some 255) ∧ sample_block.rgb[1]? = some (some 255) ∧
    sample_block.rgb[2]? = some (some 85) :=
  have hrun : gnuplot_save_bitmap_data true sample_bitmap SavedBitmap.init
      = .ok (some sample_block, ⟨some sample_block, 8, 1⟩) := by with_unfolding_all rfl
  ⟨by decide, by decide, by decide, hrun,
   (save_bitmap_pixel_layout true sample_bitmap sample_rows SavedBitmap.init (by decide)
     (by decide) rfl).2
     sample_block _ hrun 0 0 0 (by decide) (by decide) (by decide)⟩

/-- The size and the fill of the block of a valid 4-plane bitmap whose counter
fits: every successful `gnuplot_save_bitmap_data` reports width `b_ysize` and
height `b_xsize` (in the block header and in `saved_width`, `saved_height`), and
the pixel area of its block has exactly `width * height * 3` bytes, every one of
them stored to by the decode loops; and the call does succeed when `malloc`
succeeds and the size of the image fits an `unsigned int`. -/
theorem save_bitmap_size_and_fill (malloc_ok : Bool) (bm : Bitmap) (s : SavedBitmap)
    (hv : ValidBitmap bm) (hc : CounterFits bm) :
    (malloc_ok = true → SizeFits bm →
      ∃ block, gnuplot_save_bitmap_data malloc_ok bm s
        = .ok (some block, ⟨some block, bm.b_ysize, bm.b_xsize⟩)) ∧
    ∀ block s', gnuplot_save_bitmap_data malloc_ok bm s = .ok (some block, s') →
      s' = ⟨some block, bm.b_ysize, bm.b_xsize⟩ ∧
      block.width = bm.b_ysize ∧ block.height = bm.b_xsize ∧
      block.rgb.length = block.width * block.height * 3 ∧
      ∀ b ∈ block.rgb, b ≠ none := by
  obtain ⟨rows, hp⟩ := Option.isSome_iff_exists.1 hv.1
  refine ⟨fun hm hsz => ⟨_, by rw [hm]; exact save_valid bm rows s hv hc hp hsz⟩, ?_⟩
  intro block s' hok
  obtain ⟨_, hb, hs⟩ := save_success malloc_ok bm rows s s' block hv hc hp hok
  subst hb
  refine ⟨hs, rfl, rfl, ?_, ?_⟩
  · simp only [decoded_block, List.length_map, col_bytes_length]
    exact stream_length bm hv
  · intro b hb
    simp only [decoded_block, List.mem_map] at hb
    obtain ⟨v, _, rfl⟩ := hb
    exact Option.some_ne_none v

/-- The size and the fill on `sample_bitmap`. -/
theorem save_bitmap_size_and_fill_witness :
    ValidBitmap sample_bitmap ∧ CounterFits sample_bitmap ∧ SizeFits sample_bitmap ∧
    (∃ block, gnuplot_save_bitmap_data true sample_bitmap SavedBitmap.init
        = .ok (some block, ⟨some block, 8, 1⟩)) ∧
    sample_block.width = 8 ∧ sample_block.height = 1 ∧
    sample_block.rgb.length = sample_block.width * sample_block.height * 3 ∧
    ∀ b ∈ sample_block.rgb, b ≠ none :=
  have h := save_bitmap_size_and_fill true sample_bitmap SavedBitmap.init (by decide) (by decide)
  ⟨by decide, by decide, by decide, h.1 rfl (by decide),
   (h.2 sample_block ⟨some sample_block, 8, 1⟩ (by with_unfolding_all rfl)).2⟩

/-! ## The decoder claims -/

/-- C1: the code breaks the claim on `wrapping_bitmap`, a valid 4-plane bitmap
of 178956971 byte columns and 8 pixel rows.  Its image has `2 ^ 32 + 8` bytes;
`width * height * 3` is computed in `unsigned int` and gives 8, so the block
that is allocated has room for 8 pixel bytes, and the decode loop, which emits
24 bytes per byte column, stores outside it: no pixel is emitted at the index
the claim names. -/
theorem decode_overruns_wrapped_block :
    ValidBitmap wrapping_bitmap ∧ CounterFits wrapping_bitmap ∧
    wrapping_bitmap.b_ysize * wrapping_bitmap.b_xsize * 3 = 4294967296 + 8 ∧
    uint (wrapping_bitmap.b_ysize * wrapping_bitmap.b_xsize * 3) = 8 ∧
    ∀ s, gnuplot_save_bitmap_data true wrapping_bitmap s = .error Fault.store_outside_block := by
  have hv : ValidBitmap wrapping_bitmap := by
    unfold ValidBitmap wrapping_bitmap UINT_MOD
    simp
  have hc : CounterFits wrapping_bitmap := by
    unfold CounterFits wrapping_bitmap
    simp
  refine ⟨hv, hc, rfl, rfl, fun s => save_too_large wrapping_bitmap _ s hv hc rfl ?_⟩
  unfold SizeFits wrapping_bitmap UINT_MOD
  simp

/-- C2: the code breaks the claim on `overlong_bitmap`, a valid 4-plane bitmap
of `2 ^ 31 + 1` byte columns and 8 pixel rows.  The call succeeds and reports
width 8 and height 2147483649, but the `int` counter `x` starts at
`height - 1` below zero, so the loop body never runs, and
`width * height * 3`, computed in `unsigned int`, gives 24: the pixel area has
24 bytes instead of `width * height * 3`, and none of them has been stored
to. -/
theorem decode_returns_unwritten_block :
    ValidBitmap overlong_bitmap ∧
    gnuplot_save_bitmap_data true overlong_bitmap SavedBitmap.init
      = .ok (some ⟨8, 2147483649, List.replicate 24 none⟩,
             ⟨some ⟨8, 2147483649, List.replicate 24 none⟩, 8, 2147483649⟩) ∧
    (List.replicate 24 (none : Option Nat)).length ≠ 8 * 2147483649 * 3 ∧
    ∀ b ∈ List.replicate 24 (none : Option Nat), b = none := by
  have hv : ValidBitmap overlong_bitmap := by
    unfold ValidBitmap overlong_bitmap UINT_MOD
    simp
  have hc : ¬ CounterFits overlong_bitmap := by
    unfold CounterFits overlong_bitmap
    simp
  refine ⟨hv, ?_, by simp, fun b hb => (List.mem_replicate.1 hb).2⟩
  rw [save_counter_wraps overlong_bitmap _ SavedBitmap.init hv hc rfl]
  rfl

/-- C3: `gnuplot_save_bitmap_data` returns `NULL` when the plane pointer is
null, when a dimension is zero and when fewer than 4 planes are present, and in
each case `saved_rgb_data`, `saved_width` and `saved_height` are unchanged. -/
theorem save_bitmap_rejects_invalid (malloc_ok : Bool) (bm : Bitmap) (s : SavedBitmap)
    (h : bm.b_p = none ∨ bm.b_xsize = 0 ∨ bm.b_ysize = 0 ∨ bm.b_planes < 4) :
    gnuplot_save_bitmap_data malloc_ok bm s = .ok (none, s) :=
  save_invalid malloc_ok bm s h

/-- Witness of C3: a 3-plane bitmap offered while a block is cached. -/
theorem save_bitmap_rejects_invalid_witness :
    (sample_bitmap3.b_p = none ∨ sample_bitmap3.b_xsize = 0 ∨ sample_bitmap3.b_ysize = 0 ∨
      sample_bitmap3.b_planes < 4) ∧
    gnuplot_save_bitmap_data true sample_bitmap3 ⟨some sample_block, 8, 1⟩
      = .ok (none, ⟨some sample_block, 8, 1⟩) :=
  ⟨Or.inr (Or.inr (Or.inr (by decide))),
   save_bitmap_rejects_invalid true sample_bitmap3 ⟨some sample_block, 8, 1⟩
    (Or.inr (Or.inr (Or.inr (by decide))))⟩

/-- Counterexample to C4 as stated: decode `sample_bitmap`, then attempt a decode
of the 3-plane `sample_bitmap3`.  The attempt, the most recent one, returns
`NULL`, yet both retrieval functions hand out the block of the first decode
instead of absent. -/
theorem stale_block_after_three_plane_attempt :
    gnuplot_save_bitmap_data true sample_bitmap SavedBitmap.init
      = .ok (some sample_block, ⟨some sample_block, 8, 1⟩) ∧
    sample_bitmap3.b_planes < 4 ∧
    gnuplot_save_bitmap_data true sample_bitmap3 ⟨some sample_block, 8, 1⟩
      = .ok (none, ⟨some sample_block, 8, 1⟩) ∧
    gnuplot_get_saved_bitmap_data ⟨some sample_block, 8, 1⟩ = some sample_block ∧
    gnuplot_get_saved_bitmap_data ⟨some sample_block, 8, 1⟩ ≠ none ∧
    l_gnuplot_get_rgb_data ⟨some sample_block, 8, 1⟩ = .table 8 1 sample_block.rgb ∧
    l_gnuplot_get_rgb_data ⟨some sample_block, 8, 1⟩ ≠ .nil_msg no_bitmap_msg := by
  refine ⟨?_, by decide, rfl, rfl, by decide, rfl, by decide⟩
  with_unfolding_all rfl

/-- C4 (amended): a decode attempt on a bitmap with fewer than 4 planes returns
`NULL` and leaves the cache as it was, so the retrieval functions return after
it exactly what they returned before it; they return absent exactly when no
block was cached before the attempt. -/
theorem retrieval_after_rejected_decode (malloc_ok : Bool) (bm : Bitmap) (s : SavedBitmap)
    (h : bm.b_planes < 4) :
    ∃ s', gnuplot_save_bitmap_data malloc_ok bm s = .ok (none, s') ∧
      gnuplot_get_saved_bitmap_data s' = gnuplot_get_saved_bitmap_data s ∧
      l_gnuplot_get_rgb_data s' = l_gnuplot_get_rgb_data s ∧
      (gnuplot_get_saved_bitmap_data s' = none ↔ s.saved_rgb_data = none) ∧
      (l_gnuplot_get_rgb_data s' = .nil_msg no_bitmap_msg ↔ s.saved_rgb_data = none) := by
  refine ⟨s, save_invalid malloc_ok bm s (Or.inr (Or.inr (Or.inr h))), rfl, rfl, Iff.rfl, ?_⟩
  unfold l_gnuplot_get_rgb_data gnuplot_get_saved_bitmap_data
  cases s.saved_rgb_data <;> simp

/-- Witness of C4 (amended): with nothing cached the retrieval stays absent. -/
theorem retrieval_after_rejected_decode_witness :
    sample_bitmap3.b_planes < 4 ∧
    ∃ s', gnuplot_save_bitmap_data true sample_bitmap3 SavedBitmap.init = .ok (none, s') ∧
      gnuplot_get_saved_bitmap_data s' = gnuplot_get_saved_bitmap_data SavedBitmap.init ∧
      l_gnuplot_get_rgb_data s' = l_gnuplot_get_rgb_data SavedBitmap.init ∧
      (gnuplot_get_saved_bitmap_data s' = none ↔ SavedBitmap.init.saved_rgb_data = none) ∧
      (l_gnuplot_get_rgb_data s' = .nil_msg no_bitmap_msg ↔
        SavedBitmap.init.saved_rgb_data = none) :=
  ⟨by decide, retrieval_after_rejected_decode true sample_bitmap3 SavedBitmap.init (by decide)⟩

/-! ### Lemmas on the command buffer -/

theorem take_succ_set {α : Type} (l : List α) (n : Nat) (a : α) (h : n < l.length) :
    (l.set n a).take (n + 1) = l.take n ++ [a] := by
  induction l generalizing n with
  | nil => simp at h
  | cons x xs ih =>
    cases n with
    | zero => simp
    | succ n => simp at h; simp [ih n h]

theorem range_map_getD {α : Type} (l : List α) (d : α) (n : Nat) (h : n ≤ l.length) :
    (List.range n).map (fun i => l.getD i d) = l.take n := by
  apply List.ext_getElem
  · simp [h]
  · intro i h1 h2
    simp at h1 h2
    simp [List.getD_eq_getElem?_getD, List.getElem?_eq_getElem (by omega : i < l.length)]

theorem bind_strdup (text : Option (List Char)) : text.bind (strdup true) = text := by
  cases text <;> rfl

theorem init_WF : CmdState.init.WF := by decide

theorem clear_WF (s : CmdState) (h : s.WF) : (luacmd_clear_commands s).WF :=
  ⟨h.1, Nat.zero_le _⟩

theorem begin_plot_WF (w h : Int) (s : CmdState) (hs : s.WF) : (luacmd_begin_plot w h s).WF :=
  ⟨hs.1, Nat.zero_le _⟩

/-- One append with successful allocation adds the record behind the records
in use. -/
theorem add_command_ok (r : luacmd_command_t) (s : CmdState) (hs : s.WF) :
    (luacmd_add_command true true r.type r.x1 r.y1 r.x2 r.y2 r.text r.color r.value s).WF ∧
    (luacmd_add_command true true r.type r.x1 r.y1 r.x2 r.y2 r.text r.color r.value s).command_count
      = s.command_count + 1 ∧
    (luacmd_add_command true true r.type r.x1 r.y1 r.x2 r.y2 r.text r.color r.value s).records
      = s.records ++ [r] ∧
    (luacmd_add_command true true r.type r.x1 r.y1 r.x2 r.y2 r.text r.color r.value s).plot_width
      = s.plot_width ∧
    (luacmd_add_command true true r.type r.x1 r.y1 r.x2 r.y2 r.text r.color r.value s).plot_height
      = s.plot_height := by
  obtain ⟨buf, cnt, cap, w, h⟩ := s
  obtain ⟨h1, h2⟩ := hs
  simp only at h1 h2
  unfold luacmd_add_command
  simp only [bind_strdup]
  by_cases hc : cnt ≥ cap
  · have hcc : cnt = cap := by omega
    subst hcc
    simp only [ge_iff_le, le_refl, if_true, realloc]
    have hcap : cnt < (if cnt = 0 then 1024 else cnt * 2) := by split <;> omega
    generalize (if cnt = 0 then 1024 else cnt * 2) = newcap at hcap
    have htake : (buf.getD []).take newcap = buf.getD [] := List.take_of_length_le (by omega)
    simp only [htake, CmdState.WF, CmdState.records, Option.getD_some, List.length_set,
      List.length_append, List.length_replicate, h1]
    refine ⟨⟨by omega, by omega⟩, trivial, ?_, trivial, trivial⟩
    rw [take_succ_set _ _ _ (by simp [h1]; omega), List.take_append_of_le_length (by omega)]
  · have hlt : cnt < cap := by omega
    simp only [if_neg hc, CmdState.WF, CmdState.records]
    cases buf with
    | none => simp at h1; omega
    | some block =>
      simp only [Option.getD_some] at h1
      simp only [Option.map_some', Option.getD_some, List.length_set, h1]
      refine ⟨⟨trivial, by omega⟩, trivial, ?_, trivial, trivial⟩
      exact take_succ_set _ _ _ (by omega)

theorem add_all_ok (rs : List luacmd_command_t) (s : CmdState) (hs : s.WF) :
    (add_all rs s).WF ∧ (add_all rs s).command_count = s.command_count + rs.length ∧
    (add_all rs s).records = s.records ++ rs ∧
    (add_all rs s).plot_width = s.plot_width ∧ (add_all rs s).plot_height = s.plot_height := by
  induction rs generalizing s with
  | nil => simp [add_all, hs]
  | cons r rs ih =>
    obtain ⟨a1, a2, a3, a4, a5⟩ := add_command_ok r s hs
    obtain ⟨b1, b2, b3, b4, b5⟩ := ih _ a1
    simp only [add_all, List.foldl_cons] at b1 b2 b3 b4 b5 ⊢
    refine ⟨b1, ?_, ?_, ?_, ?_⟩
    · rw [b2, a2, List.length_cons]; omega
    · rw [b3, a3, List.append_assoc, List.singleton_append]
    · rw [b4, a4]
    · rw [b5, a5]

/-- The copy made by `luacmd_get_commands` when every allocation succeeds. -/
theorem get_commands_ok (s : CmdState) (hs : s.WF) (hc : s.command_count ≠ 0) :
    luacmd_get_commands true (fun _ => true) s
      = (some s.records, s.command_count, s.plot_width, s.plot_height) := by
  unfold luacmd_get_commands
  simp only [if_neg hc, Bool.true_eq_false, if_false, bind_strdup, CmdState.slot]
  rw [range_map_getD _ _ _ (by rw [hs.1]; exact hs.2)]
  rfl

/-! ## The command buffer claims -/

/-- C5: `luacmd_begin_plot` followed by one `luacmd_add_command` per record of a
non-empty list `rs` (no allocation failing) followed by `luacmd_get_commands`
returns count `rs.length` and exactly the records of `rs`, field for field with
their text, in append order, together with the canvas size of the frame; this
holds for every length, below and above the 1024-record growth threshold. -/
theorem begin_add_get_roundtrip (s : CmdState) (hs : s.WF) (width height : Int)
    (rs : List luacmd_command_t) (hN : 1 ≤ rs.length) :
    luacmd_get_commands true (fun _ => true) (add_all rs (luacmd_begin_plot width height s))
      = (some rs, rs.length, width, height) := by
  obtain ⟨a1, a2, a3, a4, a5⟩ := add_all_ok rs _ (begin_plot_WF width height s hs)
  have hc : (add_all rs (luacmd_begin_plot width height s)).command_count = rs.length := by
    rw [a2]; simp [luacmd_begin_plot, luacmd_clear_commands]
  have hr : (add_all rs (luacmd_begin_plot width height s)).records = rs := by
    rw [a3]; simp [luacmd_begin_plot, luacmd_clear_commands, CmdState.records]
  rw [get_commands_ok _ a1 (by omega), hr, hc, a4, a5]
  rfl

/-- Witness of C5 on the two `sample_records`, starting from the statics at
program start. -/
theorem begin_add_get_roundtrip_witness :
    CmdState.init.WF ∧ 1 ≤ sample_records.length ∧
    luacmd_get_commands true (fun _ => true)
        (add_all sample_records (luacmd_begin_plot 640 480 CmdState.init))
      = (some sample_records, sample_records.length, 640, 480) :=
  ⟨by decide, by decide,
   begin_add_get_roundtrip CmdState.init (by decide) 640 480 sample_records (by decide)⟩

/-- C6: with no record in the buffer `luacmd_get_commands` returns `NULL` with
count 0 and the Lua function `get_commands` returns `nil` and a message; with at
least one record and a successful `malloc` both results are present; and
`get_commands` never returns a table whose `commands` list is empty. -/
theorem get_commands_absent_iff_empty (malloc_ok : Bool) (strdup_ok : Nat → Bool)
    (s : CmdState) :
    (s.command_count = 0 →
      luacmd_get_commands malloc_ok strdup_ok s = (none, 0, s.plot_width, s.plot_height) ∧
      l_gnuplot_get_commands malloc_ok strdup_ok s = .nil_msg no_commands_msg) ∧
    (0 < s.command_count → malloc_ok = true →
      (∃ copy, (luacmd_get_commands malloc_ok strdup_ok s).1 = some copy ∧
        copy.length = s.command_count) ∧
      ∃ cs, l_gnuplot_get_commands malloc_ok strdup_ok s
          = .table s.plot_width s.plot_height cs ∧ cs.length = s.command_count) ∧
    (∀ w h, l_gnuplot_get_commands malloc_ok strdup_ok s ≠ .table w h []) := by
  refine ⟨?_, ?_, ?_⟩
  · intro h0
    simp [l_gnuplot_get_commands, luacmd_get_commands, h0]
  · intro hpos hm
    have hc : s.command_count ≠ 0 := by omega
    subst hm
    simp [l_gnuplot_get_commands, luacmd_get_commands, hc]
  · intro w h
    unfold l_gnuplot_get_commands luacmd_get_commands
    by_cases hc : s.command_count = 0
    · simp [hc]
    · cases malloc_ok
      · simp [hc]
      · simp [hc]

/-- Witness of C6: the empty buffer at program start, and the buffer after the
two `sample_records`. -/
theorem get_commands_absent_iff_empty_witness :
    (CmdState.init.command_count = 0 ∧
      luacmd_get_commands true (fun _ => true) CmdState.init = (none, 0, 800, 600) ∧
      l_gnuplot_get_commands true (fun _ => true) CmdState.init = .nil_msg no_commands_msg) ∧
    (0 < (add_all sample_records CmdState.init).command_count ∧
      ∃ cs, l_gnuplot_get_commands true (fun _ => true) (add_all sample_records CmdState.init)
          = .table 800 600 cs ∧ cs.length = 2) :=
  ⟨⟨rfl, (get_commands_absent_iff_empty true (fun _ => true) CmdState.init).1 rfl⟩,
   ⟨by decide,
    ((get_commands_absent_iff_empty true (fun _ => true)
      (add_all sample_records CmdState.init)).2.1 (by decide) rfl).2⟩⟩

/-! ## The session claims -/

/-- C7: on an uninitialized session, for every engine and every argument,
`gnuplot_cmd`, `gnuplot_cmd_multi` and `gnuplot_set_datablock` return the failure
code -1 and `gnuplot_reset` and `gnuplot_close` return; each of them leaves the
whole state as it was: the flag, the engine state (no engine function is
run) and the count of requested heap blocks. -/
theorem uninitialized_calls_do_nothing {ρ : Type} (E : Engine ρ) (s : Lib ρ)
    (h : s.lib_initialized = false) (arg arg2 : Option (List Char)) :
    gnuplot_cmd E arg s = (-1, s) ∧
    gnuplot_cmd_multi E arg s = (-1, s) ∧
    gnuplot_set_datablock arg arg2 s = (-1, s) ∧
    gnuplot_reset E s = s ∧
    gnuplot_close E s = s := by
  refine ⟨?_, ?_, ?_, ?_, ?_⟩
  · unfold gnuplot_cmd; rw [if_pos h]
  · unfold gnuplot_cmd_multi; rw [if_pos h]
  · unfold gnuplot_set_datablock; rw [if_pos h]
  · unfold gnuplot_reset; rw [if_pos h]
  · unfold gnuplot_close; rw [if_pos h]

/-- Witness of C7 on the sample session before `gnuplot_init`. -/
theorem uninitialized_calls_do_nothing_witness :
    sample_lib.lib_initialized = false ∧
    gnuplot_cmd sample_engine (some ['p', 'l', 'o', 't', ' ', 'x']) sample_lib
      = (-1, sample_lib) ∧
    gnuplot_cmd_multi sample_engine (some ['p', 'l', 'o', 't', ' ', 'x']) sample_lib
      = (-1, sample_lib) ∧
    gnuplot_set_datablock (some ['p', 'l', 'o', 't', ' ', 'x']) (some ['1', ' ', '2'])
      sample_lib = (-1, sample_lib) ∧
    gnuplot_reset sample_engine sample_lib = sample_lib ∧
    gnuplot_close sample_engine sample_lib = sample_lib :=
  ⟨rfl, uninitialized_calls_do_nothing sample_engine sample_lib rfl
    (some ['p', 'l', 'o', 't', ' ', 'x']) (some ['1', ' ', '2'])⟩

/-- C8: `gnuplot_cmd` called with the empty string returns the failure code -1
in every session, initialized or not, and leaves the whole state, the engine
state included, as it was. -/
theorem cmd_empty_string_fails {ρ : Type} (E : Engine ρ) (s : Lib ρ) :
    gnuplot_cmd E (some []) s = (-1, s) := by
  unfold gnuplot_cmd
  cases s.lib_initialized <;> rfl

/-- C9: on an initialized session, when the engine jumps to the recovery point
on a command, `gnuplot_cmd` returns the failure code -1 and
`gnuplot_is_initialized` is still true; a following `gnuplot_cmd` with a
non-empty command on which the engine returns gives the success code 0. -/
theorem failed_cmd_keeps_session {ρ : Type} (E : Engine ρ) (s : Lib ρ) (cmd : List Char)
    (g : Gnuplot ρ) (hi : s.lib_initialized = true) (hf : E.do_string cmd s.gp = .error g) :
    (gnuplot_cmd E (some cmd) s).1 = -1 ∧
    gnuplot_is_initialized (gnuplot_cmd E (some cmd) s).2 = true ∧
    ∀ (cmd2 : List Char) (g2 : Gnuplot ρ), cmd2 ≠ [] →
      E.do_string cmd2 (gnuplot_cmd E (some cmd) s).2.gp = .ok g2 →
      (gnuplot_cmd E (some cmd2) (gnuplot_cmd E (some cmd) s).2).1 = 0 := by
  have key : (gnuplot_cmd E (some cmd) s).1 = -1 ∧
      (gnuplot_cmd E (some cmd) s).2.lib_initialized = true := by
    unfold gnuplot_cmd
    rw [if_neg (by rw [hi]; exact Bool.noConfusion)]
    by_cases hc : cmd.length = 0
    · simp only [if_pos hc, hi, and_self]
    · simp only [if_neg hc, hf, hi, and_self]
  refine ⟨key.1, key.2, ?_⟩
  intro cmd2 g2 hne hok
  have hlen : ¬ cmd2.length = 0 := fun h0 => hne (List.length_eq_zero.1 h0)
  generalize gnuplot_cmd E (some cmd) s = r at key hok
  unfold gnuplot_cmd
  rw [if_neg (by rw [key.2]; exact Bool.noConfusion)]
  simp only [if_neg hlen, hok]

/-- Witness of C9 on the sample session after `gnuplot_init`: the command `bad`
fails and the command `plot x` after it succeeds. -/
theorem failed_cmd_keeps_session_witness :
    (gnuplot_init sample_engine sample_lib).2.lib_initialized = true ∧
    (gnuplot_cmd sample_engine (some ['b', 'a', 'd']) (gnuplot_init sample_engine sample_lib).2).1
      = -1 ∧
    gnuplot_is_initialized
      (gnuplot_cmd sample_engine (some ['b', 'a', 'd'])
        (gnuplot_init sample_engine sample_lib).2).2 = true ∧
    (gnuplot_cmd sample_engine (some ['p', 'l', 'o', 't', ' ', 'x'])
      (gnuplot_cmd sample_engine (some ['b', 'a', 'd'])
        (gnuplot_init sample_engine sample_lib).2).2).1 = 0 :=
  have h := failed_cmd_keeps_session sample_engine (gnuplot_init sample_engine sample_lib).2
    ['b', 'a', 'd'] (gnuplot_init sample_engine sample_lib).2.gp rfl rfl
  ⟨rfl, h.1, h.2.1, h.2.2 ['p', 'l', 'o', 't', ' ', 'x'] _ (by decide) rfl⟩

/-- C10: when the session is already initialized, `gnuplot_init` returns the
success code 0 and leaves the whole state as it was, for every engine: no
bootstrap step is run. -/
theorem init_when_initialized {ρ : Type} (E : Engine ρ) (s : Lib ρ)
    (h : s.lib_initialized = true) :
    gnuplot_init E s = (0, s) := by
  unfold gnuplot_init
  rw [if_pos h]

/-- Witness of C10: a second `gnuplot_init` on the sample session. -/
theorem init_when_initialized_witness :
    (gnuplot_init sample_engine sample_lib).2.lib_initialized = true ∧
    gnuplot_init sample_engine (gnuplot_init sample_engine sample_lib).2
      = (0, (gnuplot_init sample_engine sample_lib).2) :=
  ⟨rfl, init_when_initialized sample_engine (gnuplot_init sample_engine sample_lib).2 rfl⟩

/-! ### Lemmas on `gnuplot_init` -/

theorem guarded_bootstrap_eq_run {ρ : Type} (E : Engine ρ) (g : Gnuplot ρ) :
    guarded_bootstrap E g = run_steps (bootstrap_steps E) g := by
  unfold guarded_bootstrap bootstrap_steps
  simp only [run_steps, bind, Except.bind, pure, Except.pure]
  cases E.interrupt_setup g <;> simp only []
  rename_i g
  cases E.get_user_env _ <;> simp only []
  rename_i g
  cases E.init_loadpath _ <;> simp only []
  rename_i g
  cases E.init_locale _ <;> simp only []
  rename_i g
  cases E.init_fit _ <;> simp only []
  rename_i g
  cases hr : E.READLINE <;> simp only [if_true, if_false, Bool.false_eq_true]
  · cases E.init_gadgets _ <;> simp only []
    rename_i g
    cases E.init_terminal _ <;> simp only []
    rename_i g
    cases E.update_gpval_variables 3 _ <;> simp only []
    rename_i g
    cases E.reset_command _ <;> simp only []
  · cases E.init_encoding _ <;> simp only []
    rename_i g
    cases E.init_gadgets _ <;> simp only []
    rename_i g
    cases E.init_terminal _ <;> simp only []
    rename_i g
    cases E.update_gpval_variables 3 _ <;> simp only []
    rename_i g
    cases E.reset_command _ <;> simp only []

theorem run_steps_jump {ρ : Type} (steps : List (Gnuplot ρ → Except (Gnuplot ρ) (Gnuplot ρ)))
    (k : Nat) (g gk e : Gnuplot ρ) (f : Gnuplot ρ → Except (Gnuplot ρ) (Gnuplot ρ))
    (hpre : run_steps (steps.take k) g = .ok gk) (hk : steps[k]? = some f)
    (hf : f gk = .error e) : run_steps steps g = .error e := by
  induction steps generalizing k g with
  | nil => simp at hk
  | cons f0 fs ih =>
    cases k with
    | zero =>
      simp only [List.take_zero, run_steps] at hpre
      simp only [List.getElem?_cons_zero] at hk
      injection hpre with hpre
      injection hk with hk
      subst hpre hk
      simp only [run_steps, hf]
    | succ k =>
      simp only [List.take_succ_cons, run_steps] at hpre
      simp only [List.getElem?_cons_succ] at hk
      simp only [run_steps]
      cases h0 : f0 g with
      | error e0 => rw [h0] at hpre; cases hpre
      | ok g1 =>
        rw [h0] at hpre
        exact ih k g1 hpre hk

theorem run_steps_ok {ρ : Type} (steps : List (Gnuplot ρ → Except (Gnuplot ρ) (Gnuplot ρ)))
    (g g' : Gnuplot ρ) (h : run_steps steps g = .ok g') (k : Nat)
    (f : Gnuplot ρ → Except (Gnuplot ρ) (Gnuplot ρ)) (hk : steps[k]? = some f) :
    ∃ gk gk', run_steps (steps.take k) g = .ok gk ∧ f gk = .ok gk' := by
  induction steps generalizing k g with
  | nil => simp at hk
  | cons f0 fs ih =>
    simp only [run_steps] at h
    cases h0 : f0 g with
    | error e0 => rw [h0] at h; cases h
    | ok g1 =>
      rw [h0] at h
      cases k with
      | zero =>
        simp only [List.getElem?_cons_zero] at hk
        injection hk with hk
        subst hk
        exact ⟨g, g1, rfl, h0⟩
      | succ k =>
        simp only [List.getElem?_cons_succ] at hk
        obtain ⟨gk, gk', h1, h2⟩ := ih g1 h k hk
        exact ⟨gk, gk', by simp only [List.take_succ_cons, run_steps, h0, h1], h2⟩

/-- On an uninitialized session `gnuplot_init` runs the statements before
`SETJMP` and then the guarded block, whose outcome decides the result. -/
theorem init_unfold {ρ : Type} (E : Engine ρ) (s : Lib ρ) (hu : s.lib_initialized = false) :
    gnuplot_init E s =
      match run_steps (bootstrap_steps E) (pre_bootstrap E s).gp with
      | .ok g => (0, { pre_bootstrap E s with gp := g, lib_initialized := true })
      | .error g => (-1, { pre_bootstrap E s with gp := g, lib_initialized := false }) := by
  unfold gnuplot_init
  rw [if_neg (by rw [hu]; exact Bool.noConfusion), ← guarded_bootstrap_eq_run]
  rfl

/-! ## The bootstrap claim -/

/-- C11: on an uninitialized session, if a statement of the guarded block of
`gnuplot_init` (the final `reset_command()` included) jumps to the recovery
point after the statements before it have returned, `gnuplot_init` returns the
failure code -1 and leaves `lib_initialized` clear, so that a later
`gnuplot_init` goes through the bootstrap again and succeeds if every statement
then returns; and `gnuplot_init` returns the success code 0 only if every
statement of the guarded block has returned. -/
theorem init_fails_when_bootstrap_jumps {ρ : Type} (E : Engine ρ) (s : Lib ρ)
    (hu : s.lib_initialized = false) :
    (∀ k gk e f, run_steps ((bootstrap_steps E).take k) (pre_bootstrap E s).gp = .ok gk →
      (bootstrap_steps E)[k]? = some f → f gk = .error e →
      (gnuplot_init E s).1 = -1 ∧ (gnuplot_init E s).2.lib_initialized = false ∧
      ∀ g', run_steps (bootstrap_steps E) (pre_bootstrap E (gnuplot_init E s).2).gp = .ok g' →
        (gnuplot_init E (gnuplot_init E s).2).1 = 0 ∧
        (gnuplot_init E (gnuplot_init E s).2).2.lib_initialized = true) ∧
    ((gnuplot_init E s).1 = 0 →
      (gnuplot_init E s).2.lib_initialized = true ∧
      ∀ k f, (bootstrap_steps E)[k]? = some f →
        ∃ gk gk', run_steps ((bootstrap_steps E).take k) (pre_bootstrap E s).gp = .ok gk ∧
          f gk = .ok gk') := by
  refine ⟨?_, ?_⟩
  · intro k gk e f hpre hk hf
    have hrun := run_steps_jump (bootstrap_steps E) k _ gk e f hpre hk hf
    have h1 : gnuplot_init E s
        = (-1, { pre_bootstrap E s with gp := e, lib_initialized := false }) := by
      rw [init_unfold E s hu, hrun]
    rw [h1]
    refine ⟨rfl, rfl, ?_⟩
    intro g' hg'
    rw [init_unfold E _ rfl, hg']
    exact ⟨rfl, rfl⟩
  · intro h0
    rw [init_unfold E s hu] at h0 ⊢
    cases hrun : run_steps (bootstrap_steps E) (pre_bootstrap E s).gp with
    | error e => rw [hrun] at h0; simp at h0
    | ok g' =>
      refine ⟨rfl, ?_⟩
      intro k f hk
      exact run_steps_ok (bootstrap_steps E) _ g' hrun k f hk

/-- Witness of C11 on `flaky_engine`: the terminal setup (statement 10 of the
guarded block) jumps during the first `gnuplot_init`, which fails; the second
`gnuplot_init` succeeds. -/
theorem init_fails_when_bootstrap_jumps_witness :
    sample_lib.lib_initialized = false ∧
    (gnuplot_init flaky_engine sample_lib).1 = -1 ∧
    (gnuplot_init flaky_engine sample_lib).2.lib_initialized = false ∧
    (gnuplot_init flaky_engine (gnuplot_init flaky_engine sample_lib).2).1 = 0 ∧
    (gnuplot_init flaky_engine (gnuplot_init flaky_engine sample_lib).2).2.lib_initialized
      = true :=
  have h := (init_fails_when_bootstrap_jumps flaky_engine sample_lib rfl).1 10 _ _
    flaky_engine.init_terminal rfl rfl rfl
  ⟨rfl, h.1, h.2.1, h.2.2 _ rfl⟩

/-! ### Lemmas on `strtok_r` and the lines of a text -/

theorem split_lines_newline (cs : List Char) :
    split_lines ('\n' :: cs) = [] :: split_lines cs := by
  simp [split_lines]

theorem split_lines_ne_nil (cs : List Char) : split_lines cs ≠ [] := by
  induction cs with
  | nil => simp [split_lines]
  | cons c cs ih =>
    unfold split_lines
    split
    · simp
    · split <;> simp

theorem split_lines_token (tok rest : List Char) (h : ∀ c ∈ tok, c ≠ '\n') :
    split_lines (tok ++ '\n' :: rest) = tok :: split_lines rest := by
  induction tok with
  | nil => exact split_lines_newline rest
  | cons c cs ih =>
    have hc : c ≠ '\n' := h c (List.mem_cons_self _ _)
    have ih' := ih (fun d hd => h d (List.mem_cons_of_mem _ hd))
    rw [List.cons_append, split_lines, if_neg hc, ih']

theorem split_lines_single (tok : List Char) (h : ∀ c ∈ tok, c ≠ '\n') :
    split_lines tok = [tok] := by
  induction tok with
  | nil => rfl
  | cons c cs ih =>
    have hc : c ≠ '\n' := h c (List.mem_cons_self _ _)
    have ih' := ih (fun d hd => h d (List.mem_cons_of_mem _ hd))
    simp only [split_lines, if_neg hc, ih']

theorem retained_newline (cs : List Char) :
    retained_lines ('\n' :: cs) = retained_lines cs := by
  simp [retained_lines, split_lines_newline, trim_leading]

theorem retained_nil : retained_lines [] = [] := by
  simp [retained_lines, split_lines, trim_leading]

theorem retained_dropWhile (str : List Char) :
    retained_lines (str.dropWhile (fun c => c = '\n')) = retained_lines str := by
  induction str with
  | nil => rfl
  | cons c cs ih =>
    by_cases hc : c = '\n'
    · subst hc
      simp only [List.dropWhile_cons, decide_True, if_true, ih, retained_newline]
    · simp only [List.dropWhile_cons, hc, decide_False, Bool.false_eq_true, if_false]

/-- The lines that one token contributes. -/
theorem retained_token (tok rest : List Char) (h : ∀ c ∈ tok, c ≠ '\n') :
    retained_lines (tok ++ '\n' :: rest) =
      (if trim_leading tok ≠ [] ∧ (trim_leading tok).head? ≠ some '#' then [trim_leading tok]
        else []) ++ retained_lines rest := by
  unfold retained_lines
  rw [split_lines_token tok rest h]
  simp only [List.map_cons, List.filter_cons]
  split <;> rename_i hk
  · rw [if_pos (by simpa using hk)]; rfl
  · rw [if_neg (by simpa using hk)]; rfl

theorem retained_single (tok : List Char) (h : ∀ c ∈ tok, c ≠ '\n') :
    retained_lines tok =
      if trim_leading tok ≠ [] ∧ (trim_leading tok).head? ≠ some '#' then [trim_leading tok]
        else [] := by
  unfold retained_lines
  rw [split_lines_single tok h]
  simp only [List.map_cons, List.map_nil, List.filter_cons, List.filter_nil]
  split <;> rename_i hk
  · rw [if_pos (by simpa using hk)]
  · rw [if_neg (by simpa using hk)]

theorem takeWhile_no_newline (str : List Char) :
    ∀ c ∈ str.takeWhile (fun c => c ≠ '\n'), c ≠ '\n' := by
  intro c hc
  have := List.mem_takeWhile_imp hc
  simpa using this

theorem dropWhile_newline_form (str : List Char) :
    str.dropWhile (fun c => c ≠ '\n') = [] ∨
      ∃ r, str.dropWhile (fun c => c ≠ '\n') = '\n' :: r := by
  induction str with
  | nil => exact Or.inl rfl
  | cons c cs ih =>
    by_cases hc : c = '\n'
    · subst hc
      exact Or.inr ⟨cs, by simp [List.dropWhile_cons]⟩
    · simpa [List.dropWhile_cons, hc] using ih

/-- The lines of a text that does not begin with a newline: those of its first
token followed by those of what `strtok_r` leaves in `saveptr`. -/
theorem retained_strtok (str : List Char) :
    retained_lines str =
      (if trim_leading (str.takeWhile (fun c => c ≠ '\n')) ≠ [] ∧
          (trim_leading (str.takeWhile (fun c => c ≠ '\n'))).head? ≠ some '#'
        then [trim_leading (str.takeWhile (fun c => c ≠ '\n'))] else []) ++
      retained_lines ((str.dropWhile (fun c => c ≠ '\n')).drop 1) := by
  have hsplit := List.takeWhile_append_dropWhile (fun c => decide (c ≠ '\n')) str
  rcases dropWhile_newline_form str with h0 | ⟨r, hr⟩
  · rw [h0] at hsplit ⊢
    rw [List.append_nil] at hsplit
    rw [hsplit, List.drop_nil, retained_nil, List.append_nil]
    exact retained_single str (by rw [← hsplit]; exact takeWhile_no_newline str)
  · rw [hr] at hsplit ⊢
    have := retained_token (str.takeWhile (fun c => c ≠ '\n')) r (takeWhile_no_newline str)
    rw [hsplit] at this
    rw [this]
    rfl

theorem length_dropWhile_le {α : Type} (p : α → Bool) (l : List α) :
    (l.dropWhile p).length ≤ l.length := by
  induction l with
  | nil => simp
  | cons a l ih =>
    simp only [List.dropWhile_cons]
    split
    · simp only [List.length_cons]; omega
    · simp

/-- The loop of `gnuplot_cmd_multi` calls `gnuplot_cmd` on the retained lines of
the copy in order and stops at the first call that fails. -/
theorem cmd_multi_loop_eq {ρ : Type} (E : Engine ρ) (fuel : Nat) (str : List Char) (s : Lib ρ)
    (hfuel : str.length < fuel) :
    cmd_multi_loop E fuel (strtok_r str).1 (strtok_r str).2 s
      = exec_lines E (retained_lines str) s := by
  induction fuel generalizing str s with
  | zero => omega
  | succ fuel ih =>
    rw [← retained_dropWhile str]
    have hlen := length_dropWhile_le (fun c => decide (c = '\n')) str
    unfold strtok_r
    simp only []
    generalize str.dropWhile (fun c => decide (c = '\n')) = str' at hlen ⊢
    by_cases hnil : str' = []
    · subst hnil
      simp only [if_true, cmd_multi_loop, retained_nil, exec_lines]
    · rw [if_neg hnil]
      simp only []
      have hrest : ((str'.dropWhile (fun c => decide (c ≠ '\n'))).drop 1).length < fuel := by
        have h1 := length_dropWhile_le (fun c => decide (c ≠ '\n')) str'
        have h2 : 0 < str'.length := List.length_pos.2 hnil
        rcases dropWhile_newline_form str' with h0 | ⟨r, hr⟩
        · rw [h0]; simp only [List.drop_nil, List.length_nil]; omega
        · rw [hr] at h1 ⊢
          simp only [List.drop_succ_cons, List.drop_zero, List.length_cons] at h1 ⊢
          omega
      have hih := ih ((str'.dropWhile (fun c => decide (c ≠ '\n'))).drop 1) 
      rw [retained_strtok str']
      unfold cmd_multi_loop
      simp only []
      by_cases hk : trim_leading (str'.takeWhile (fun c => decide (c ≠ '\n'))) ≠ [] ∧
          (trim_leading (str'.takeWhile (fun c => decide (c ≠ '\n')))).head? ≠ some '#'
      · rw [if_pos hk]
        unfold trim_leading at hk
        rw [if_pos hk]
        simp only [List.singleton_append, exec_lines, trim_leading]
        rcases hres : gnuplot_cmd E
            (some (List.dropWhile (fun c => decide (c = ' ' ∨ c = '\t'))
              (List.takeWhile (fun c => decide (c ≠ '\n')) str'))) s with ⟨code, s1⟩
        by_cases hc : code = 0
        · subst hc
          simp only []
          exact hih s1 hrest
        · have : ∀ (x : Int × Lib ρ), x = (code, s1) →
              (match x with
                | (0, s) => cmd_multi_loop E fuel
                    (strtok_r (List.drop 1 (List.dropWhile (fun c => decide (c ≠ '\n')) str'))).1
                    (strtok_r (List.drop 1 (List.dropWhile (fun c => decide (c ≠ '\n')) str'))).2 s
                | (_, s) => (-1, s)) =
              (match x with
                | (0, s) => exec_lines E
                    (retained_lines (List.drop 1 (List.dropWhile (fun c => decide (c ≠ '\n')) str'))) s
                | (_, s) => (-1, s)) := by
            intro x hx
            subst hx
            split
            · rename_i heq; injection heq with h1 h2; exact absurd h1.symm (fun h => hc h.symm)
            · rfl
          exact this _ rfl
      · rw [if_neg hk]
        unfold trim_leading at hk
        rw [if_neg hk]
        simp only [List.nil_append]
        exact hih s hrest

/-! ### Lemmas on the execution of a list of lines -/

theorem exec_lines_cons {ρ : Type} (E : Engine ρ) (line : List Char) (lines : List (List Char))
    (s : Lib ρ) :
    exec_lines E (line :: lines) s =
      if (gnuplot_cmd E (some line) s).1 = 0 then exec_lines E lines (gnuplot_cmd E (some line) s).2
      else (-1, (gnuplot_cmd E (some line) s).2) := by
  rw [exec_lines]
  rcases gnuplot_cmd E (some line) s with ⟨code, s1⟩
  by_cases hc : code = 0
  · subst hc; rfl
  · simp only [hc, if_false]

theorem exec_lines_code {ρ : Type} (E : Engine ρ) (lines : List (List Char)) (s : Lib ρ) :
    (exec_lines E lines s).1 = 0 ∨ (exec_lines E lines s).1 = -1 := by
  induction lines generalizing s with
  | nil => exact Or.inl rfl
  | cons line lines ih =>
    rw [exec_lines_cons]
    split
    · exact ih _
    · exact Or.inr rfl

theorem exec_lines_ok {ρ : Type} (E : Engine ρ) (lines : List (List Char)) (s : Lib ρ)
    (h : (exec_lines E lines s).1 = 0) :
    submit_all E lines s = some (exec_lines E lines s).2 := by
  induction lines generalizing s with
  | nil => rfl
  | cons line lines ih =>
    rw [exec_lines_cons] at h ⊢
    rw [submit_all]
    by_cases hc : (gnuplot_cmd E (some line) s).1 = 0
    · rw [if_pos hc] at h ⊢
      rw [if_pos hc]
      exact ih _ h
    · rw [if_neg hc] at h
      simp at h

theorem exec_lines_of_all {ρ : Type} (E : Engine ρ) (lines : List (List Char))
    (s s' : Lib ρ) (h : submit_all E lines s = some s') :
    exec_lines E lines s = (0, s') := by
  induction lines generalizing s with
  | nil =>
    simp only [submit_all] at h
    injection h with h
    subst h
    rfl
  | cons line lines ih =>
    rw [submit_all] at h
    by_cases hc : (gnuplot_cmd E (some line) s).1 = 0
    · rw [if_pos hc] at h
      rw [exec_lines_cons, if_pos hc]
      exact ih _ h
    · rw [if_neg hc] at h
      cases h

theorem exec_lines_of_submit {ρ : Type} (E : Engine ρ) (pre rest : List (List Char))
    (s sk : Lib ρ) (h : submit_all E pre s = some sk) :
    exec_lines E (pre ++ rest) s = exec_lines E rest sk := by
  induction pre generalizing s with
  | nil =>
    simp only [submit_all] at h
    injection h with h
    subst h
    rfl
  | cons line pre ih =>
    rw [submit_all] at h
    by_cases hc : (gnuplot_cmd E (some line) s).1 = 0
    · rw [if_pos hc] at h
      rw [List.cons_append, exec_lines_cons, if_pos hc]
      exact ih _ h
    · rw [if_neg hc] at h
      cases h

theorem exec_lines_fail {ρ : Type} (E : Engine ρ) (lines : List (List Char)) (s : Lib ρ)
    (h : (exec_lines E lines s).1 ≠ 0) :
    ∃ pre line post sk, lines = pre ++ line :: post ∧ submit_all E pre s = some sk ∧
      (gnuplot_cmd E (some line) sk).1 ≠ 0 ∧
      exec_lines E lines s = (-1, (gnuplot_cmd E (some line) sk).2) := by
  induction lines generalizing s with
  | nil => exact absurd rfl h
  | cons line lines ih =>
    rw [exec_lines_cons] at h ⊢
    by_cases hc : (gnuplot_cmd E (some line) s).1 = 0
    · rw [if_pos hc] at h ⊢
      obtain ⟨pre, l, post, sk, h1, h2, h3, h4⟩ := ih _ h
      refine ⟨line :: pre, l, post, sk, by rw [h1]; rfl, ?_, h3, h4⟩
      rw [submit_all, if_pos hc]
      exact h2
    · rw [if_neg hc]
      exact ⟨[], line, lines, s, rfl, rfl, hc, rfl⟩

theorem retained_ne_nil (cmds : List Char) : ∀ line ∈ retained_lines cmds, line ≠ [] := by
  intro line hl
  unfold retained_lines at hl
  have := (List.mem_filter.1 hl).2
  simp only [decide_eq_true_eq] at this
  exact this.1

theorem exec_lines_recording (lines : List (List Char)) (s : Lib (List (List Char)))
    (hi : s.lib_initialized = true) (hne : ∀ line ∈ lines, line ≠ []) :
    exec_lines recording_engine lines s
      = (0, { s with gp := { s.gp with core := s.gp.core ++ lines } }) := by
  induction lines generalizing s with
  | nil => simp [exec_lines]
  | cons line lines ih =>
    have hl : ¬ line.length = 0 := fun h0 =>
      hne line (List.mem_cons_self _ _) (List.length_eq_zero.1 h0)
    have hcmd : gnuplot_cmd recording_engine (some line) s
        = (0, { s with gp := { s.gp with core := s.gp.core ++ [line] } }) := by
      unfold gnuplot_cmd
      rw [if_neg (by rw [hi]; exact Bool.noConfusion)]
      simp only [if_neg hl]
      rfl
    rw [exec_lines_cons, hcmd]
    simp only [if_true]
    have hnext := ih { s with gp := { s.gp with core := s.gp.core ++ [line] } } hi
      (fun l h => hne l (List.mem_cons_of_mem _ h))
    simp only [List.append_assoc, List.singleton_append] at hnext
    exact hnext

/-- On an initialized session `gnuplot_cmd_multi` with a non-empty input calls
`gnuplot_cmd` on the retained lines of the input in order and stops at the first
call that fails. -/
theorem cmd_multi_eq_exec {ρ : Type} (E : Engine ρ) (s : Lib ρ) (cmds : List Char)
    (hi : s.lib_initialized = true) (hne : cmds ≠ []) :
    gnuplot_cmd_multi E (some cmds) s
      = exec_lines E (retained_lines cmds) { s with allocations := s.allocations + 1 } := by
  unfold gnuplot_cmd_multi
  rw [if_neg (by rw [hi]; exact Bool.noConfusion)]
  have hl : ¬ cmds.length = 0 := fun h0 => hne (List.length_eq_zero.1 h0)
  simp only [if_neg hl]
  exact cmd_multi_loop_eq E _ cmds _ (by omega)

/-! ## The batch claims -/

/-- Counterexample to C12 as stated: on `crlf_script`, whose second line holds a
carriage return only, no line fails, and `gnuplot_cmd_multi` passes three
strings to `gnuplot_cmd`, the second of them the carriage return.  The input
split into lines, with leading whitespace removed and blank lines dropped, has
two lines. -/
theorem carriage_return_line_is_submitted :
    sample_session.lib_initialized = true ∧
    (gnuplot_cmd_multi recording_engine (some crlf_script) sample_session).1 = 0 ∧
    (gnuplot_cmd_multi recording_engine (some crlf_script) sample_session).2.gp.core
      = ["plot x\r".toList, "\r".toList, "replot\r".toList] ∧
    stated_lines crlf_script = ["plot x\r".toList, "replot\r".toList] ∧
    (gnuplot_cmd_multi recording_engine (some crlf_script) sample_session).2.gp.core
      ≠ stated_lines crlf_script := by
  refine ⟨rfl, by decide, by decide, by decide, by decide⟩

/-- C12 (amended): on an initialized session, `gnuplot_cmd_multi` with a
non-empty input behaves as the calls of `gnuplot_cmd` on the retained lines of
the input, in their order: the input split at newline characters, each line
with its leading spaces and tabs removed, without the lines that are then empty
and the lines that then begin with `#`.  When no line fails the call returns the
state reached after all of these calls, and an engine that records the strings
it is given has recorded exactly the retained lines. -/
theorem cmd_multi_submits_retained_lines {ρ : Type} (E : Engine ρ) (s : Lib ρ)
    (cmds : List Char) (hi : s.lib_initialized = true) (hne : cmds ≠ []) :
    gnuplot_cmd_multi E (some cmds) s
      = exec_lines E (retained_lines cmds) { s with allocations := s.allocations + 1 } ∧
    ((gnuplot_cmd_multi E (some cmds) s).1 = 0 →
      submit_all E (retained_lines cmds) { s with allocations := s.allocations + 1 }
        = some (gnuplot_cmd_multi E (some cmds) s).2) ∧
    ∀ r : Lib (List (List Char)), r.lib_initialized = true →
      gnuplot_cmd_multi recording_engine (some cmds) r
        = (0, { r with gp := { r.gp with core := r.gp.core ++ retained_lines cmds },
                       allocations := r.allocations + 1 }) := by
  refine ⟨cmd_multi_eq_exec E s cmds hi hne, ?_, ?_⟩
  · intro h0
    rw [cmd_multi_eq_exec E s cmds hi hne] at h0 ⊢
    exact exec_lines_ok E _ _ h0
  · intro r hr
    rw [cmd_multi_eq_exec recording_engine r cmds hr hne]
    exact exec_lines_recording _ { r with allocations := r.allocations + 1 } hr
      (retained_ne_nil cmds)

/-- Witness of C12 on `sample_script`, whose retained lines are the four
commands `set title 'a'`, `plot x`, `bad` and `replot`. -/
theorem cmd_multi_submits_retained_lines_witness :
    (gnuplot_init sample_engine sample_lib).2.lib_initialized = true ∧ sample_script ≠ [] ∧
    retained_lines sample_script
      = ["set title 'a'".toList, "plot x".toList, "bad".toList, "replot".toList] ∧
    (gnuplot_cmd_multi recording_engine (some sample_script)
        (gnuplot_init sample_engine sample_lib).2).2.gp.core
      = ["set title 'a'".toList, "plot x".toList, "bad".toList, "replot".toList] :=
  have h := (cmd_multi_submits_retained_lines recording_engine
    (gnuplot_init sample_engine sample_lib).2 sample_script rfl (by decide)).2.2
    (gnuplot_init sample_engine sample_lib).2 rfl
  ⟨rfl, by decide, by decide, by rw [h]; decide⟩

/-- Counterexample to C13 as stated: `blank_crlf_script` has a blank line and a
comment line only, and `gnuplot_cmd_multi` makes a call of `gnuplot_cmd` on it,
with the carriage return of the blank line. -/
theorem blank_crlf_line_is_executed :
    sample_session.lib_initialized = true ∧ blank_crlf_script ≠ [] ∧
    stated_lines blank_crlf_script = [] ∧
    sample_session.gp.core = [] ∧
    (gnuplot_cmd_multi recording_engine (some blank_crlf_script) sample_session).2.gp.core
      = ["\r".toList] := by
  refine ⟨rfl, by decide, by decide, rfl, by decide⟩

/-- C13 (amended): on an initialized session, `gnuplot_cmd_multi` with a non-empty
input returns 0 or -1.  It returns -1 exactly when some retained line fails: the
retained lines before the first failing one have each been executed once, in
order, and have succeeded, and the state returned is the state right after the
failing call, so no later line is executed.  It returns 0 exactly when every
retained line has been executed in order and has succeeded; in particular an
input without retained lines, one in which every line is empty or begins with
`#` once its leading spaces and tabs are removed, returns 0 without any call of
`gnuplot_cmd`. -/
theorem cmd_multi_stops_at_first_failure {ρ : Type} (E : Engine ρ) (s : Lib ρ)
    (cmds : List Char) (hi : s.lib_initialized = true) (hne : cmds ≠ []) :
    ((gnuplot_cmd_multi E (some cmds) s).1 = 0 ∨ (gnuplot_cmd_multi E (some cmds) s).1 = -1) ∧
    ((gnuplot_cmd_multi E (some cmds) s).1 = -1 ↔
      ∃ pre line post sk, retained_lines cmds = pre ++ line :: post ∧
        submit_all E pre { s with allocations := s.allocations + 1 } = some sk ∧
        (gnuplot_cmd E (some line) sk).1 ≠ 0 ∧
        (gnuplot_cmd_multi E (some cmds) s).2 = (gnuplot_cmd E (some line) sk).2) ∧
    ((gnuplot_cmd_multi E (some cmds) s).1 = 0 ↔
      submit_all E (retained_lines cmds) { s with allocations := s.allocations + 1 }
        = some (gnuplot_cmd_multi E (some cmds) s).2) ∧
    (retained_lines cmds = [] →
      gnuplot_cmd_multi E (some cmds) s = (0, { s with allocations := s.allocations + 1 })) := by
  rw [cmd_multi_eq_exec E s cmds hi hne]
  generalize ({ s with allocations := s.allocations + 1 } : Lib ρ) = s1
  refine ⟨exec_lines_code E _ s1, ?_, ?_, ?_⟩
  · constructor
    · intro h
      obtain ⟨pre, line, post, sk, h1, h2, h3, h4⟩ :=
        exec_lines_fail E (retained_lines cmds) s1 (by rw [h]; decide)
      exact ⟨pre, line, post, sk, h1, h2, h3, by rw [h4]⟩
    · rintro ⟨pre, line, post, sk, h1, h2, h3, _⟩
      rw [h1, exec_lines_of_submit E pre _ s1 sk h2, exec_lines_cons, if_neg h3]
  · constructor
    · exact exec_lines_ok E _ s1
    · intro h
      rw [exec_lines_of_all E _ s1 _ h]
  · intro hnil
    rw [hnil]
    rfl

/-- Witness of C13 on `sample_script` with `sample_engine`, which fails on the
command `bad`: the two retained lines before it are executed, the line `replot`
after it is not. -/
theorem cmd_multi_stops_at_first_failure_witness :
    (gnuplot_init sample_engine sample_lib).2.lib_initialized = true ∧ sample_script ≠ [] ∧
    (gnuplot_cmd_multi sample_engine (some sample_script)
      (gnuplot_init sample_engine sample_lib).2).1 = -1 ∧
    (gnuplot_cmd_multi sample_engine (some sample_script)
      (gnuplot_init sample_engine sample_lib).2).2.gp.core
      = ["set title 'a'".toList, "plot x".toList] ∧
    ∃ pre line post sk, retained_lines sample_script = pre ++ line :: post ∧
      submit_all sample_engine pre
        { (gnuplot_init sample_engine sample_lib).2 with
          allocations := (gnuplot_init sample_engine sample_lib).2.allocations + 1 } = some sk ∧
      (gnuplot_cmd sample_engine (some line) sk).1 ≠ 0 ∧
      (gnuplot_cmd_multi sample_engine (some sample_script)
        (gnuplot_init sample_engine sample_lib).2).2 = (gnuplot_cmd sample_engine (some line) sk).2 :=
  ⟨rfl, by decide, by decide, by decide,
   (cmd_multi_stops_at_first_failure sample_engine (gnuplot_init sample_engine sample_lib).2
     sample_script rfl (by decide)).2.1.1 (by decide)⟩

/-! ### Lemmas on `gnuplot_set_datablock` -/

/-- The value that `gnuplot_set_datablock` leaves in the variable does not
depend on the value it finds there. -/
theorem datablock_value_const (data : List Char) (v : Value) :
    append_multiline_to_datablock
      (match (match v with
          | Value.DATABLOCK data_array => Value.DATABLOCK data_array
          | _ => Value.DATABLOCK none) with
        | Value.DATABLOCK (some _) => Value.DATABLOCK none
        | v => v) data
      = Value.DATABLOCK (some (split_lines data)) := by
  cases v with
  | NOTDEFINED => rfl
  | other p => rfl
  | DATABLOCK d =>
    cases d with
    | none => rfl
    | some rows => rfl

theorem set_datablock_eq {ρ : Type} (name data : List Char) (s : Lib ρ)
    (hi : s.lib_initialized = true) :
    gnuplot_set_datablock (some name) (some data) s =
      (0, { s with
            gp := { s.gp with
              first_udv := update_udv (datablock_name name)
                (fun _ => Value.DATABLOCK (some (split_lines data)))
                (add_udv_by_name (datablock_name name) s.gp.first_udv) },
            allocations := s.allocations + 2 }) := by
  unfold gnuplot_set_datablock
  rw [if_neg (by rw [hi]; exact Bool.noConfusion)]
  simp only [datablock_value_const]

theorem add_udv_has_name (name : List Char) (udvs : List udvt_entry) :
    ∃ e ∈ add_udv_by_name name udvs, e.udv_name = name := by
  unfold add_udv_by_name
  split
  · rename_i h
    obtain ⟨e, he, hn⟩ := List.any_eq_true.1 h
    exact ⟨e, he, by simpa using hn⟩
  · exact ⟨⟨name, Value.NOTDEFINED⟩, by simp, rfl⟩

theorem add_udv_of_mem (name : List Char) (udvs : List udvt_entry)
    (h : ∃ e ∈ udvs, e.udv_name = name) : add_udv_by_name name udvs = udvs := by
  unfold add_udv_by_name
  rw [if_pos]
  obtain ⟨e, he, hn⟩ := h
  exact List.any_eq_true.2 ⟨e, he, by simpa using hn⟩

theorem update_udv_has_name (name : List Char) (f : Value → Value) (udvs : List udvt_entry)
    (h : ∃ e ∈ udvs, e.udv_name = name) : ∃ e ∈ update_udv name f udvs, e.udv_name = name := by
  obtain ⟨e, he, hn⟩ := h
  refine ⟨{ e with udv_value := f e.udv_value }, ?_, hn⟩
  unfold update_udv
  exact List.mem_map.2 ⟨e, he, by rw [if_pos hn]⟩

theorem lookup_update_const (name : List Char) (c : Value) (udvs : List udvt_entry)
    (h : ∃ e ∈ udvs, e.udv_name = name) :
    udv_lookup name (update_udv name (fun _ => c) udvs) = some c := by
  induction udvs with
  | nil => obtain ⟨e, he, _⟩ := h; cases he
  | cons e0 es ih =>
    unfold udv_lookup update_udv at ih ⊢
    by_cases h0 : e0.udv_name = name
    · simp [List.find?_cons, h0]
    · have hes : ∃ e ∈ es, e.udv_name = name := by
        obtain ⟨e, he, hn⟩ := h
        rcases List.mem_cons.1 he with rfl | he
        · exact absurd hn h0
        · exact ⟨e, he, hn⟩
      simpa [List.find?_cons, h0] using ih hes

theorem update_update_const (name : List Char) (c1 c2 : Value) (udvs : List udvt_entry) :
    update_udv name (fun _ => c2) (update_udv name (fun _ => c1) udvs)
      = update_udv name (fun _ => c2) udvs := by
  unfold update_udv
  rw [List.map_map]
  apply List.map_congr_left
  intro e _
  by_cases h : e.udv_name = name
  · simp [h]
  · simp [h]

theorem update_udv_other (name : List Char) (f : Value → Value) (udvs : List udvt_entry) :
    (update_udv name f udvs).filter (fun e => e.udv_name ≠ name)
      = udvs.filter (fun e => e.udv_name ≠ name) := by
  induction udvs with
  | nil => rfl
  | cons e es ih =>
    unfold update_udv at ih ⊢
    simp only [ne_eq, decide_not] at ih
    by_cases h : e.udv_name = name
    · simp [List.filter_cons, h, ih]
    · simp [List.filter_cons, h, ih]

theorem add_udv_other (name : List Char) (udvs : List udvt_entry) :
    (add_udv_by_name name udvs).filter (fun e => e.udv_name ≠ name)
      = udvs.filter (fun e => e.udv_name ≠ name) := by
  unfold add_udv_by_name
  split
  · rfl
  · simp [List.filter_append]

/-! ## The datablock claims -/

/-- Counterexample to C14 as stated: on the initialized sample session
`gnuplot_set_datablock` succeeds with an empty name and with empty data, and
changes the variable table both times. -/
theorem set_datablock_accepts_empty_strings :
    sample_session.lib_initialized = true ∧
    (gnuplot_set_datablock (some []) (some "1 2".toList) sample_session).1 = 0 ∧
    (gnuplot_set_datablock (some []) (some "1 2".toList) sample_session).2.gp.first_udv
      ≠ sample_session.gp.first_udv ∧
    (gnuplot_set_datablock (some "DATA".toList) (some []) sample_session).1 = 0 ∧
    (gnuplot_set_datablock (some "DATA".toList) (some []) sample_session).2.gp.first_udv
      ≠ sample_session.gp.first_udv := by
  refine ⟨rfl, by decide, by decide, by decide, by decide⟩

/-- C14 (amended): `gnuplot_set_datablock` returns the failure code -1 exactly
when the session is uninitialized or the name or the data argument is absent (a
null pointer), and in those cases it leaves the whole state, the variable table
included, as it was; in every other case, an empty string included, it
returns 0. -/
theorem set_datablock_fails_iff {ρ : Type} (name data : Option (List Char)) (s : Lib ρ) :
    ((gnuplot_set_datablock name data s).1 = -1 ↔
      (s.lib_initialized = false ∨ name = none ∨ data = none)) ∧
    ((s.lib_initialized = false ∨ name = none ∨ data = none) →
      gnuplot_set_datablock name data s = (-1, s)) ∧
    ((gnuplot_set_datablock name data s).1 = 0 ∨ (gnuplot_set_datablock name data s).1 = -1) := by
  unfold gnuplot_set_datablock
  cases hi : s.lib_initialized with
  | false => simp
  | true =>
    cases name with
    | none => simp
    | some n =>
      cases data with
      | none => simp
      | some d => simp

/-- Witness of C14 (amended): an absent data argument on the initialized sample
session. -/
theorem set_datablock_fails_iff_witness :
    (sample_session.lib_initialized = false ∨ (some "DATA".toList) = none ∨
      (none : Option (List Char)) = none) ∧
    gnuplot_set_datablock (some "DATA".toList) none sample_session = (-1, sample_session) :=
  ⟨Or.inr (Or.inr rfl),
   (set_datablock_fails_iff (some "DATA".toList) none sample_session).2.1 (Or.inr (Or.inr rfl))⟩

/-- C15: the variable name that `gnuplot_set_datablock` resolves is the given
name when it begins with `$` and `$` followed by the given name otherwise.  The
normalisation is idempotent; for a name `n` without a leading `$` the calls with
`n` and with `$n` have the same result and the same effect on the state; and a
successful call leaves a variable of the resolved name in the table and every
variable of another name as it was. -/
theorem datablock_name_normalised {ρ : Type} (n : List Char) (data : Option (List Char))
    (s : Lib ρ) :
    datablock_name n = (if n.head? = some '$' then n else '$' :: n) ∧
    datablock_name (datablock_name n) = datablock_name n ∧
    (n.head? ≠ some '$' →
      gnuplot_set_datablock (some n) data s = gnuplot_set_datablock (some ('$' :: n)) data s) ∧
    (s.lib_initialized = true → data ≠ none →
      (∃ e ∈ (gnuplot_set_datablock (some n) data s).2.gp.first_udv,
        e.udv_name = datablock_name n) ∧
      (gnuplot_set_datablock (some n) data s).2.gp.first_udv.filter
          (fun e => e.udv_name ≠ datablock_name n)
        = s.gp.first_udv.filter (fun e => e.udv_name ≠ datablock_name n)) := by
  have hidem : datablock_name (datablock_name n) = datablock_name n := by
    unfold datablock_name
    by_cases h : n.head? = some '$'
    · simp [h]
    · simp [h]
  refine ⟨rfl, hidem, ?_, ?_⟩
  · intro h
    have hn : datablock_name ('$' :: n) = datablock_name n := by
      have : datablock_name n = '$' :: n := by unfold datablock_name; rw [if_neg h]
      rw [← this, hidem]
    cases data with
    | none => simp [gnuplot_set_datablock]
    | some d => simp only [gnuplot_set_datablock, hn]
  · intro hi hd
    cases data with
    | none => exact absurd rfl hd
    | some d =>
      rw [set_datablock_eq n d s hi]
      simp only []
      refine ⟨update_udv_has_name _ _ _ (add_udv_has_name _ _), ?_⟩
      rw [update_udv_other, add_udv_other]

/-- Witness of C15 on the sample session: the names `DATA` and `$DATA`. -/
theorem datablock_name_normalised_witness :
    "DATA".toList.head? ≠ some '$' ∧ sample_session.lib_initialized = true ∧
    datablock_name "DATA".toList = "$DATA".toList ∧
    datablock_name "$DATA".toList = "$DATA".toList ∧
    gnuplot_set_datablock (some "DATA".toList) (some "1 2".toList) sample_session
      = gnuplot_set_datablock (some "$DATA".toList) (some "1 2".toList) sample_session ∧
    ∃ e ∈ (gnuplot_set_datablock (some "DATA".toList) (some "1 2".toList)
        sample_session).2.gp.first_udv, e.udv_name = "$DATA".toList :=
  have h := datablock_name_normalised "DATA".toList (some "1 2".toList) sample_session
  ⟨by decide, rfl, by decide, by decide, h.2.2.1 (by decide),
   (h.2.2.2 rfl (by simp)).1⟩

/-- C16: after a successful `gnuplot_set_datablock(name, data)` the variable of
the resolved name is a datablock whose rows are exactly the newline-delimited
lines of `data`, whatever the table held for that name before; so a call with
`d1` followed by a call with `d2` leaves the same variable table as the call
with `d2` alone; and the data `1 2\n2 4\n3 6` are the three rows `1 2`, `2 4`
and `3 6`. -/
theorem set_datablock_contents {ρ : Type} (n d1 d2 : List Char) (s : Lib ρ)
    (hi : s.lib_initialized = true) :
    (gnuplot_set_datablock (some n) (some d2) s).1 = 0 ∧
    udv_lookup (datablock_name n) (gnuplot_set_datablock (some n) (some d2) s).2.gp.first_udv
      = some (Value.DATABLOCK (some (split_lines d2))) ∧
    (gnuplot_set_datablock (some n) (some d2)
        (gnuplot_set_datablock (some n) (some d1) s).2).2.gp.first_udv
      = (gnuplot_set_datablock (some n) (some d2) s).2.gp.first_udv ∧
    split_lines "1 2\n2 4\n3 6".toList = ["1 2".toList, "2 4".toList, "3 6".toList] := by
  have h2 := set_datablock_eq n d2 s hi
  have h1 := set_datablock_eq n d1 s hi
  refine ⟨by rw [h2], ?_, ?_, by decide⟩
  · rw [h2]
    simp only []
    exact lookup_update_const _ _ _ (add_udv_has_name _ _)
  · have h12 := set_datablock_eq n d2 (gnuplot_set_datablock (some n) (some d1) s).2
      (by rw [h1]; exact hi)
    rw [h12, h2]
    simp only [h1]
    rw [add_udv_of_mem _ _ (update_udv_has_name _ _ _ (add_udv_has_name _ _)),
      update_update_const]

/-- Witness of C16 on `sample_session_vars`: the variable `$C`, a datablock with
two rows before the call, holds the three rows of the data after it. -/
theorem set_datablock_contents_witness :
    sample_session_vars.lib_initialized = true ∧
    udv_lookup "$C".toList sample_session_vars.gp.first_udv
      = some (Value.DATABLOCK (some ["9 9".toList, "8 8".toList])) ∧
    udv_lookup "$C".toList
        (gnuplot_set_datablock (some "C".toList) (some "1 2\n2 4\n3 6".toList)
          sample_session_vars).2.gp.first_udv
      = some (Value.DATABLOCK (some ["1 2".toList, "2 4".toList, "3 6".toList])) :=
  ⟨rfl, by decide,
   (set_datablock_contents "C".toList [] "1 2\n2 4\n3 6".toList sample_session_vars rfl).2.1⟩

/-! ## The shutdown claim -/

/-- C17: `gnuplot_close` leaves an uninitialized session as it is; on an
initialized session it runs `term_reset` once and clears `lib_initialized`.  In
every state `gnuplot_is_initialized` is false after `gnuplot_close`, and a
second `gnuplot_close` changes nothing, so the backend is reset at most once. -/
theorem close_once {ρ : Type} (E : Engine ρ) (s : Lib ρ) :
    (s.lib_initialized = false → gnuplot_close E s = s) ∧
    (s.lib_initialized = true →
      gnuplot_close E s = { s with gp := E.term_reset s.gp, lib_initialized := false }) ∧
    gnuplot_is_initialized (gnuplot_close E s) = false ∧
    gnuplot_close E (gnuplot_close E s) = gnuplot_close E s := by
  unfold gnuplot_close gnuplot_is_initialized
  cases hi : s.lib_initialized with
  | false => simp [hi]
  | true => simp

/-- Witness of C17 on `counting_engine`: after two calls of `gnuplot_close` on the
initialized sample session the backend has been reset once. -/
theorem close_once_witness :
    sample_session.lib_initialized = true ∧
    (gnuplot_close counting_engine sample_session).gp.core = [[]] ∧
    gnuplot_is_initialized (gnuplot_close counting_engine sample_session) = false ∧
    (gnuplot_close counting_engine (gnuplot_close counting_engine sample_session)).gp.core
      = [[]] ∧
    gnuplot_close counting_engine (gnuplot_close counting_engine sample_session)
      = gnuplot_close counting_engine sample_session :=
  have h := close_once counting_engine sample_session
  ⟨rfl, by rw [h.2.1 rfl]; rfl, h.2.2.1, by rw [h.2.2.2, h.2.1 rfl]; rfl, h.2.2.2⟩

/-! ## The Lua record claim -/

/-- C19: when `luacmd_add_command` has to grow the array (`command_count` has
reached `command_capacity`) and `realloc` fails, the buffer is empty afterwards:
count 0, capacity 0, no array, the record is not stored, and
`luacmd_get_commands` and the Lua function `get_commands` return absent; a later
append whose allocations succeed starts a new array of 1024 slots that holds
exactly that one record. -/
theorem add_command_growth_failure (strdup_ok : Bool) (type x1 y1 x2 y2 : Int)
    (text : Option (List Char)) (color : Nat) (value : Double) (s : CmdState)
    (hfull : s.command_capacity ≤ s.command_count) :
    (luacmd_add_command false strdup_ok type x1 y1 x2 y2 text color value s)
      = { s with command_buffer := none, command_count := 0, command_capacity := 0 } ∧
    (luacmd_add_command false strdup_ok type x1 y1 x2 y2 text color value s).records = [] ∧
    (∀ malloc_ok sd,
      luacmd_get_commands malloc_ok sd
          (luacmd_add_command false strdup_ok type x1 y1 x2 y2 text color value s)
        = (none, 0, s.plot_width, s.plot_height) ∧
      l_gnuplot_get_commands malloc_ok sd
          (luacmd_add_command false strdup_ok type x1 y1 x2 y2 text color value s)
        = .nil_msg no_commands_msg) ∧
    ∀ r : luacmd_command_t,
      luacmd_get_commands true (fun _ => true)
          (luacmd_add_command true true r.type r.x1 r.y1 r.x2 r.y2 r.text r.color r.value
            (luacmd_add_command false strdup_ok type x1 y1 x2 y2 text color value s))
        = (some [r], 1, s.plot_width, s.plot_height) ∧
      (luacmd_add_command true true r.type r.x1 r.y1 r.x2 r.y2 r.text r.color r.value
        (luacmd_add_command false strdup_ok type x1 y1 x2 y2 text color value s)).command_capacity
        = 1024 := by
  have hfail : luacmd_add_command false strdup_ok type x1 y1 x2 y2 text color value s
      = { s with command_buffer := none, command_count := 0, command_capacity := 0 } := by
    unfold luacmd_add_command
    simp only [ge_iff_le, hfull, if_true, realloc, Bool.false_eq_true, if_false]
  rw [hfail]
  refine ⟨rfl, rfl, ?_, ?_⟩
  · intro malloc_ok sd
    simp [luacmd_get_commands, l_gnuplot_get_commands]
  · intro r
    have hwf : ({ s with command_buffer := none, command_count := 0, command_capacity := 0 }
        : CmdState).WF := ⟨rfl, Nat.le_refl _⟩
    obtain ⟨a1, a2, a3, a4, a5⟩ := add_command_ok r _ hwf
    refine ⟨?_, ?_⟩
    · rw [get_commands_ok _ a1 (by rw [a2]; simp), a2, a3, a4, a5]
      rfl
    · rfl

/-- Witness of C19: the first append at program start fails to allocate, the
next one succeeds. -/
theorem add_command_growth_failure_witness :
    CmdState.init.command_capacity ≤ CmdState.init.command_count ∧
    luacmd_add_command false true 1 10 20 30 40 none 0 ⟨0⟩ CmdState.init = CmdState.init ∧
    luacmd_get_commands true (fun _ => true)
        (luacmd_add_command true true 2 5 6 0 0 (some ['h', 'i']) 255 ⟨0⟩
          (luacmd_add_command false true 1 10 20 30 40 none 0 ⟨0⟩ CmdState.init))
      = (some [⟨2, 5, 6, 0, 0, some ['h', 'i'], 255, ⟨0⟩⟩], 1, 800, 600) :=
  have h := add_command_growth_failure true 1 10 20 30 40 none 0 ⟨0⟩ CmdState.init (by decide)
  ⟨by decide, h.1, (h.2.2.2 ⟨2, 5, 6, 0, 0, some ['h', 'i'], 255, ⟨0⟩⟩).1⟩

/-! ### Lemmas on the command buffer in memory -/

theorem free_texts_length (rs : List RawCommand) (heap : List Block) :
    (free_texts rs heap).length = heap.length := by
  induction rs generalizing heap with
  | nil => rfl
  | cons r rs ih =>
    rw [free_texts, ih]
    cases r.text <;> simp

/-- Freeing the texts of some records changes no block at another address. -/
theorem free_texts_frame (rs : List RawCommand) (heap : List Block) (x : Nat)
    (h : ∀ r ∈ rs, ∀ t, r.text = some t → t ≠ x) :
    (free_texts rs heap)[x]? = heap[x]? := by
  induction rs generalizing heap with
  | nil => rfl
  | cons r rs ih =>
    rw [free_texts, ih _ (fun r' hr' => h r' (List.mem_cons_of_mem _ hr'))]
    cases ht : r.text with
    | none => rfl
    | some t =>
      simp only []
      exact List.getElem?_set_ne (h r (List.mem_cons_self _ _) t ht)

theorem mem_strdup_frame (ok : Bool) (text : List Char) (heap : List Block) (x : Nat)
    (hx : x < heap.length) : (mem_strdup ok text heap).2[x]? = heap[x]? := by
  unfold mem_strdup
  cases ok with
  | false => rfl
  | true => exact List.getElem?_append_left hx

theorem mem_strdup_length (ok : Bool) (text : List Char) (heap : List Block) :
    heap.length ≤ (mem_strdup ok text heap).2.length := by
  unfold mem_strdup
  cases ok <;> simp

/-- Writing a record changes no block other than the array of the buffer. -/
theorem mem_store_frame (strdup_ok : Bool) (type x1 y1 x2 y2 : Int) (text : Option (List Char))
    (color : Nat) (value : Double) (m : CmdMem) (x : Nat)
    (hx : x < m.heap.length) (hbuf : m.command_buffer ≠ some x) :
    (mem_store_command strdup_ok type x1 y1 x2 y2 text color value m).heap[x]? = m.heap[x]? := by
  have hdup : ∀ (d : Option Nat × List Block),
      d = (match text with
        | none => (none, m.heap)
        | some s => mem_strdup strdup_ok s m.heap) → d.2[x]? = m.heap[x]? := by
    intro d hd
    subst hd
    cases text with
    | none => rfl
    | some s => exact mem_strdup_frame strdup_ok s m.heap x hx
  unfold mem_store_command
  cases hb : m.command_buffer with
  | none => exact hdup _ rfl
  | some a =>
    simp only []
    rw [List.getElem?_set_ne (by intro h; exact hbuf (by rw [hb, h]))]
    exact hdup _ rfl

/-- An append changes no block other than the array of the buffer. -/
theorem mem_add_frame (realloc_ok moves strdup_ok : Bool) (type x1 y1 x2 y2 : Int)
    (text : Option (List Char)) (color : Nat) (value : Double) (m : CmdMem) (x : Nat)
    (hx : x < m.heap.length) (hbuf : m.command_buffer ≠ some x) :
    (mem_add_command realloc_ok moves strdup_ok type x1 y1 x2 y2 text color value m).heap[x]?
      = m.heap[x]? := by
  unfold mem_add_command
  by_cases hfull : m.command_count ≥ m.command_capacity
  · rw [if_pos hfull]
    simp only []
    generalize (if m.command_capacity = 0 then 1024 else m.command_capacity * 2) = cap
    unfold mem_realloc
    cases realloc_ok with
    | false => rfl
    | true =>
      simp only [Bool.true_eq_false, if_false]
      cases hb : m.command_buffer with
      | none =>
        simp only []
        rw [mem_store_frame _ _ _ _ _ _ _ _ _ _ x (by simp; omega) (by simp; omega)]
        exact List.getElem?_append_left hx
      | some a =>
        have hax : a ≠ x := fun h => hbuf (by rw [hb, h])
        cases moves with
        | true =>
          simp only [if_true]
          rw [mem_store_frame _ _ _ _ _ _ _ _ _ _ x (by simp; omega) (by simp; omega)]
          simp only []
          rw [List.getElem?_append_left (by simp; exact hx), List.getElem?_set_ne hax]
        | false =>
          simp only [Bool.false_eq_true, if_false]
          rw [mem_store_frame _ _ _ _ _ _ _ _ _ _ x (by simp; exact hx)
            (by simp; exact hax)]
          simp only []
          rw [List.getElem?_set_ne hax]
  · rw [if_neg hfull]
    exact mem_store_frame _ _ _ _ _ _ _ _ _ _ x hx hbuf

theorem read_commands_congr (heap heap' : List Block) (rs : List RawCommand)
    (h : ∀ r ∈ rs, ∀ t, r.text = some t → heap'[t]? = heap[t]?) :
    read_commands heap' rs = read_commands heap rs := by
  induction rs with
  | nil => rfl
  | cons r rs ih =>
    have hr : read_command heap' r = read_command heap r := by
      unfold read_command
      cases ht : r.text with
      | none => rfl
      | some t => simp only [h r (List.mem_cons_self _ _) t ht]
    rw [read_commands, read_commands, hr, ih (fun r' hr' => h r' (List.mem_cons_of_mem _ hr'))]

/-- A snapshot reads the same from two heaps that agree on its array and on the
strings its records point to. -/
theorem read_snapshot_congr (heap heap' : List Block) (a : Nat) (slots : List RawCommand)
    (ha : heap[a]? = some (Block.arr slots)) (ha' : heap'[a]? = heap[a]?)
    (h : ∀ r ∈ slots, ∀ t, r.text = some t → heap'[t]? = heap[t]?) :
    read_snapshot heap' a = read_snapshot heap a := by
  unfold read_snapshot
  rw [ha', ha]
  exact read_commands_congr heap heap' slots h

theorem copy_records_length (sd : Nat → Bool) (heap : List Block) (rs : List RawCommand)
    (i next : Nat) : (copy_records sd heap rs i next).1.length = rs.length := by
  induction rs generalizing i next with
  | nil => rfl
  | cons r rs ih =>
    rw [copy_records]
    cases r.text with
    | none => simp [ih]
    | some t =>
      simp only []
      cases sd i <;> simp [ih]

theorem copied_records_length (sd : Nat → Bool) (heap : List Block) (rs : List RawCommand)
    (i : Nat) : (copied_records sd heap rs i).length = rs.length := by
  induction rs generalizing i with
  | nil => rfl
  | cons r rs ih => simp [copied_records, ih]

/-- The text pointers of the copies lead to the string blocks that the copy
loop has appended. -/
theorem copy_records_fresh (sd : Nat → Bool) (heap : List Block) (rs : List RawCommand)
    (i next : Nat) :
    ∀ c ∈ (copy_records sd heap rs i next).1, ∀ t, c.text = some t →
      next ≤ t ∧ t < next + (copy_records sd heap rs i next).2.length := by
  induction rs generalizing i next with
  | nil => intro c hc; cases hc
  | cons r rs ih =>
    intro c hc t ht
    rw [copy_records] at hc ⊢
    cases hr : r.text with
    | none =>
      rw [hr] at hc
      simp only [] at hc ⊢
      rcases List.mem_cons.1 hc with rfl | hc
      · cases ht
      · exact ih _ _ c hc t ht
    | some t0 =>
      rw [hr] at hc
      simp only [] at hc ⊢
      cases hs : sd i with
      | false =>
        rw [hs] at hc
        simp only [Bool.false_eq_true, if_false] at hc ⊢
        rcases List.mem_cons.1 hc with rfl | hc
        · cases ht
        · exact ih _ _ c hc t ht
      | true =>
        rw [hs] at hc
        simp only [if_true] at hc ⊢
        rcases List.mem_cons.1 hc with rfl | hc
        · simp only [Option.some.injEq] at ht
          subst ht
          simp only [List.length_cons]
          omega
        · have := ih _ _ c hc t ht
          simp only [List.length_cons]
          omega

/-- Read from a heap that holds the appended string blocks at their addresses,
the copies are the records of the buffer with their texts. -/
theorem copy_records_read (sd : Nat → Bool) (heap heap' : List Block) (rs : List RawCommand)
    (i next : Nat)
    (h : ∀ k, k < (copy_records sd heap rs i next).2.length →
      heap'[next + k]? = (copy_records sd heap rs i next).2[k]?) :
    read_commands heap' (copy_records sd heap rs i next).1
      = some (copied_records sd heap rs i) := by
  induction rs generalizing i next with
  | nil => rfl
  | cons r rs ih =>
    rw [copy_records] at h ⊢
    rw [copied_records]
    cases hr : r.text with
    | none =>
      rw [hr] at h
      simp only [] at h ⊢
      rw [read_commands, ih _ _ h]
      simp only [read_command, Option.bind]
    | some t0 =>
      rw [hr] at h
      simp only [] at h ⊢
      cases hs : sd i with
      | false =>
        rw [hs] at h
        simp only [Bool.false_eq_true, if_false] at h ⊢
        rw [read_commands, ih _ _ h]
        simp only [read_command, Option.bind, hs, Bool.false_eq_true, if_false]
      | true =>
        rw [hs] at h
        simp only [if_true] at h ⊢
        have h0 := h 0 (by simp)
        simp only [Nat.add_zero, List.getElem?_cons_zero] at h0
        have hrest : ∀ k, k < (copy_records sd heap rs (i + 1) (next + 1)).2.length →
            heap'[next + 1 + k]? = (copy_records sd heap rs (i + 1) (next + 1)).2[k]? := by
          intro k hk
          have := h (k + 1) (by simp only [List.length_cons]; omega)
          simp only [List.getElem?_cons_succ] at this
          rw [← this]
          congr 1
          omega
        rw [read_commands, ih _ _ hrest]
        simp only [read_command, h0, Option.bind, hs, if_true]

/-- The state in which a successful `luacmd_get_commands` leaves the heap. -/
theorem mem_get_some (malloc_ok : Bool) (sd : Nat → Bool) (m m1 : CmdMem) (a count : Nat)
    (w h : Int) (hget : mem_get_commands malloc_ok sd m = (some a, count, w, h, m1)) :
    a = m.heap.length ∧ count = m.command_count ∧
    m1 = { m with heap := m.heap ++
      [Block.arr (copy_records sd m.heap (m.slots.take m.command_count) 0 (m.heap.length + 1)).1]
      ++ (copy_records sd m.heap (m.slots.take m.command_count) 0 (m.heap.length + 1)).2 } := by
  unfold mem_get_commands at hget
  by_cases h0 : m.command_count = 0
  · rw [if_pos h0] at hget
    injection hget with h1 _
    cases h1
  · rw [if_neg h0] at hget
    cases malloc_ok with
    | false =>
      rw [if_pos rfl] at hget
      injection hget with h1 _
      cases h1
    | true =>
      rw [if_neg (by simp)] at hget
      simp only [] at hget
      injection hget with h1 h2
      injection h1 with h1
      injection h2 with h2 h3
      injection h3 with h3 h4
      injection h4 with h4 h5
      exact ⟨h1.symm, h2.symm, h5.symm⟩

theorem getElem?_some_lt {α : Type} (l : List α) (i : Nat) (x : α) (h : l[i]? = some x) :
    i < l.length := by
  by_contra hge
  rw [List.getElem?_eq_none (by omega)] at h
  cases h

theorem wf_buffer (m : CmdMem) (hwf : m.WF) (a : Nat) (hb : m.command_buffer = some a) :
    ∃ slots, m.heap[a]? = some (Block.arr slots) ∧ slots.length = m.command_capacity := by
  have h := hwf.2.1
  unfold buffer_ok at h
  rw [hb] at h
  simp only [] at h
  cases hh : m.heap[a]? with
  | none => rw [hh] at h; cases h
  | some blk =>
    rw [hh] at h
    cases blk with
    | str t => cases h
    | freed => cases h
    | arr slots => exact ⟨slots, rfl, by simpa using h⟩

theorem text_ok_some (heap : List Block) (r : RawCommand) (t : Nat) (h : text_ok heap r = true)
    (ht : r.text = some t) : ∃ s, heap[t]? = some (Block.str s) := by
  unfold text_ok at h
  rw [ht] at h
  simp only [] at h
  cases hh : heap[t]? with
  | none => rw [hh] at h; cases h
  | some blk =>
    rw [hh] at h
    cases blk with
    | str s => exact ⟨s, rfl⟩
    | freed => cases h
    | arr slots => cases h

/-- The slots of the buffer are the same in a heap that has only grown. -/
theorem slots_append (m : CmdMem) (hwf : m.WF) (extra : List Block) :
    ({ m with heap := m.heap ++ extra } : CmdMem).slots = m.slots := by
  unfold CmdMem.slots
  cases hb : m.command_buffer with
  | none => rfl
  | some a =>
    obtain ⟨slots, hs, _⟩ := wf_buffer m hwf a hb
    have ha : a < m.heap.length := getElem?_some_lt _ _ _ hs
    simp only [heap_arr, List.getElem?_append_left ha]

/-! ## The snapshot claim -/

/-- C20: a snapshot returned by `luacmd_get_commands` is independent of the live
buffer.  In every state of the buffer in which its blocks lie in the heap, the
array returned reads as the records of the buffer with their texts, and it
reads exactly the same, text payloads included, after a following
`luacmd_clear_commands`, `luacmd_begin_plot` or `luacmd_add_command`, whatever
the outcome of the allocations of that call and whether or not `realloc` moves
the array of the buffer. -/
theorem snapshot_independent (malloc_ok : Bool) (sd : Nat → Bool) (m m1 : CmdMem)
    (a count : Nat) (w h : Int) (hwf : m.WF)
    (hget : mem_get_commands malloc_ok sd m = (some a, count, w, h, m1)) :
    read_snapshot m1.heap a
      = some (copied_records sd m.heap (m.slots.take m.command_count) 0) ∧
    (copied_records sd m.heap (m.slots.take m.command_count) 0).length = count ∧
    read_snapshot (mem_clear_commands m1).heap a = read_snapshot m1.heap a ∧
    (∀ width height,
      read_snapshot (mem_begin_plot width height m1).heap a = read_snapshot m1.heap a) ∧
    (∀ realloc_ok moves strdup_ok type x1 y1 x2 y2 text color value,
      read_snapshot
          (mem_add_command realloc_ok moves strdup_ok type x1 y1 x2 y2 text color value m1).heap a
        = read_snapshot m1.heap a) := by
  obtain ⟨ha, hc, hm1⟩ := mem_get_some malloc_ok sd m m1 a count w h hget
  subst ha hc
  generalize hcs : copy_records sd m.heap (m.slots.take m.command_count) 0 (m.heap.length + 1)
    = cp at hm1
  have hfresh := copy_records_fresh sd m.heap (m.slots.take m.command_count) 0 (m.heap.length + 1)
  rw [hcs] at hfresh
  have hlen1 : m1.heap.length = m.heap.length + 1 + cp.2.length := by
    rw [hm1]; simp; omega
  have harr : m1.heap[m.heap.length]? = some (Block.arr cp.1) := by
    rw [hm1]
    simp only [List.append_assoc]
    rw [List.getElem?_append_right (Nat.le_refl _)]
    simp
  have hstr : ∀ k, k < cp.2.length → m1.heap[m.heap.length + 1 + k]? = cp.2[k]? := by
    intro k _
    rw [hm1]
    simp only []
    rw [List.getElem?_append_right (by simp)]
    congr 1
    simp
  have hread : read_snapshot m1.heap m.heap.length
      = some (copied_records sd m.heap (m.slots.take m.command_count) 0) := by
    unfold read_snapshot
    rw [harr]
    simp only []
    rw [← hcs] at hstr ⊢
    exact copy_records_read sd m.heap m1.heap _ 0 _ hstr
  have hframe : ∀ heap' : List Block,
      (∀ x, m.heap.length ≤ x → x < m1.heap.length → heap'[x]? = m1.heap[x]?) →
      read_snapshot heap' m.heap.length = read_snapshot m1.heap m.heap.length := by
    intro heap' hagree
    refine read_snapshot_congr m1.heap heap' _ cp.1 harr
      (hagree _ (Nat.le_refl _) (by omega)) ?_
    intro r hr t ht
    have := hfresh r hr t ht
    exact hagree t (by omega) (by omega)
  have hbuf : ∀ x, m.heap.length ≤ x → m1.command_buffer ≠ some x := by
    intro x hx hb
    rw [hm1] at hb
    simp only [] at hb
    obtain ⟨slots, hs, _⟩ := wf_buffer m hwf x hb
    have := getElem?_some_lt _ _ _ hs
    omega
  have hslots : m1.slots = m.slots := by
    rw [hm1]
    have := slots_append m hwf ([Block.arr cp.1] ++ cp.2)
    simpa only [List.append_assoc] using this
  have hcount : m1.command_count = m.command_count := by rw [hm1]
  have htexts : ∀ x, m.heap.length ≤ x →
      ∀ r ∈ m1.slots.take m1.command_count, ∀ t, r.text = some t → t ≠ x := by
    intro x hx r hr t ht
    rw [hslots, hcount] at hr
    obtain ⟨s, hs⟩ := text_ok_some _ r t (hwf.2.2 r hr) ht
    have := getElem?_some_lt _ _ _ hs
    omega
  refine ⟨hread, ?_, ?_, ?_, ?_⟩
  · rw [copied_records_length, List.length_take]
    have h1 := hwf.1
    unfold CmdMem.slots
    cases hb : m.command_buffer with
    | none =>
      have h2 := hwf.2.1
      unfold buffer_ok at h2
      rw [hb] at h2
      simp only [beq_iff_eq] at h2
      simp only [List.length_nil]
      omega
    | some b =>
      obtain ⟨slots, hs, hl⟩ := wf_buffer m hwf b hb
      simp only [heap_arr, hs, hl]
      omega
  · apply hframe
    intro x hx _
    exact free_texts_frame _ _ x (htexts x hx)
  · intro width height
    apply hframe
    intro x hx _
    exact free_texts_frame _ _ x (htexts x hx)
  · intro realloc_ok moves strdup_ok type x1 y1 x2 y2 text color value
    apply hframe
    intro x hx hlt
    exact mem_add_frame _ _ _ _ _ _ _ _ _ _ _ m1 x hlt (hbuf x hx)

/-! ### The invariant of the command buffer in memory -/

theorem text_ok_congr (heap heap' : List Block) (r : RawCommand)
    (h : ∀ t, r.text = some t → heap'[t]? = heap[t]?) : text_ok heap' r = text_ok heap r := by
  unfold text_ok
  cases ht : r.text with
  | none => rfl
  | some t => simp only [h t ht]

theorem buffer_ok_of (m : CmdMem) (a : Nat) (slots : List RawCommand)
    (hb : m.command_buffer = some a) (ha : m.heap[a]? = some (Block.arr slots))
    (hl : slots.length = m.command_capacity) : buffer_ok m = true := by
  unfold buffer_ok
  rw [hb]
  simp only [ha, hl, beq_self_eq_true]

theorem mem_init_WF : CmdMem.init.WF := by decide

/-- The text pointers of the records in use differ from the address of the
array. -/
theorem wf_text_ne_buffer (m : CmdMem) (hwf : m.WF) (a : Nat)
    (hb : m.command_buffer = some a) :
    ∀ r ∈ m.slots.take m.command_count, ∀ t, r.text = some t → t ≠ a := by
  intro r hr t ht hta
  obtain ⟨slots, hs, _⟩ := wf_buffer m hwf a hb
  obtain ⟨s, hstr⟩ := text_ok_some _ r t (hwf.2.2 r hr) ht
  rw [hta, hs] at hstr
  cases hstr

theorem mem_clear_WF (m : CmdMem) (hwf : m.WF) : (mem_clear_commands m).WF := by
  refine ⟨Nat.zero_le _, ?_, ?_⟩
  · cases hb : m.command_buffer with
    | none =>
      have h := hwf.2.1
      unfold buffer_ok at h ⊢
      unfold mem_clear_commands
      simp only [hb] at h ⊢
      exact h
    | some a =>
      obtain ⟨slots, hs, hl⟩ := wf_buffer m hwf a hb
      refine buffer_ok_of _ a slots hb ?_ hl
      unfold mem_clear_commands
      simp only []
      rw [free_texts_frame _ _ a (wf_text_ne_buffer m hwf a hb)]
      exact hs
  · intro r hr
    unfold mem_clear_commands at hr
    simp only [List.take_zero] at hr
    cases hr

theorem mem_begin_plot_WF (width height : Int) (m : CmdMem) (hwf : m.WF) :
    (mem_begin_plot width height m).WF :=
  mem_clear_WF { m with plot_width := width, plot_height := height } hwf

theorem mem_get_WF (malloc_ok : Bool) (sd : Nat → Bool) (m : CmdMem) (hwf : m.WF) :
    (mem_get_commands malloc_ok sd m).2.2.2.2.WF := by
  unfold mem_get_commands
  by_cases h0 : m.command_count = 0
  · rw [if_pos h0]; exact hwf
  · rw [if_neg h0]
    cases malloc_ok with
    | false => rw [if_pos rfl]; exact hwf
    | true =>
      rw [if_neg (by simp)]
      simp only [List.append_assoc]
      generalize ([Block.arr (copy_records sd m.heap (List.take m.command_count m.slots) 0
        (m.heap.length + 1)).1] ++ (copy_records sd m.heap (List.take m.command_count m.slots) 0
        (m.heap.length + 1)).2) = extra
      refine ⟨hwf.1, ?_, ?_⟩
      · cases hb : m.command_buffer with
        | none =>
          have h := hwf.2.1
          unfold buffer_ok at h ⊢
          simp only [hb] at h ⊢
          exact h
        | some a =>
          obtain ⟨slots, hs, hl⟩ := wf_buffer m hwf a hb
          refine buffer_ok_of _ a slots rfl ?_ hl
          simp only []
          rw [List.getElem?_append_left (getElem?_some_lt _ _ _ hs)]
          exact hs
      · intro r hr
        rw [slots_append m hwf extra] at hr
        simp only [] at hr ⊢
        rw [text_ok_congr m.heap _ r]
        · exact hwf.2.2 r hr
        · intro t ht
          obtain ⟨s, hstr⟩ := text_ok_some _ r t (hwf.2.2 r hr) ht
          exact List.getElem?_append_left (getElem?_some_lt _ _ _ hstr)

/-- Writing a record into an array that has room for it keeps the invariant. -/
theorem mem_store_WF (strdup_ok : Bool) (type x1 y1 x2 y2 : Int) (text : Option (List Char))
    (color : Nat) (value : Double) (m : CmdMem) (a : Nat) (slots : List RawCommand)
    (hb : m.command_buffer = some a) (ha : m.heap[a]? = some (Block.arr slots))
    (hl : slots.length = m.command_capacity) (hlt : m.command_count < m.command_capacity)
    (hlive : ∀ r ∈ slots.take m.command_count, text_ok m.heap r = true) :
    (mem_store_command strdup_ok type x1 y1 x2 y2 text color value m).WF := by
  have halt : a < m.heap.length := getElem?_some_lt _ _ _ ha
  -- the duplicate of the text
  have hdup : ∃ d : Option Nat × List Block,
      d = (match text with
        | none => (none, m.heap)
        | some s => mem_strdup strdup_ok s m.heap) ∧
      (∀ x, x < m.heap.length → d.2[x]? = m.heap[x]?) ∧
      (∀ t, d.1 = some t → t ≠ a ∧ ∃ s, d.2[t]? = some (Block.str s)) := by
    refine ⟨_, rfl, ?_, ?_⟩
    · intro x hx
      cases text with
      | none => rfl
      | some s => exact mem_strdup_frame strdup_ok s m.heap x hx
    · intro t ht
      cases text with
      | none => cases ht
      | some s =>
        unfold mem_strdup at ht ⊢
        cases strdup_ok with
        | false => cases ht
        | true =>
          simp only [if_true, Option.some.injEq] at ht ⊢
          subst ht
          exact ⟨by omega, s, List.getElem?_concat_length _ _⟩
  obtain ⟨d, hd, hd1, hd2⟩ := hdup
  have hstore : mem_store_command strdup_ok type x1 y1 x2 y2 text color value m
      = { m with
          heap := d.2.set a (Block.arr ((heap_arr d.2 a).set m.command_count
            ⟨type, x1, y1, x2, y2, d.1, color, value⟩)),
          command_count := m.command_count + 1 } := by
    unfold mem_store_command
    rw [hb, hd]
  have harr : heap_arr d.2 a = slots := by
    unfold heap_arr
    rw [hd1 a halt, ha]
  have hda : a < d.2.length := by
    have := hd1 a halt
    rw [ha] at this
    exact getElem?_some_lt _ _ _ this
  rw [hstore, harr]
  refine ⟨by simp only []; omega, ?_, ?_⟩
  · refine buffer_ok_of _ a (slots.set m.command_count ⟨type, x1, y1, x2, y2, d.1, color, value⟩)
      hb ?_ (by simp only [List.length_set]; exact hl)
    simp only []
    exact List.getElem?_set_self hda
  · intro r hr
    have hslots : ({ m with
          heap := d.2.set a (Block.arr (slots.set m.command_count
            ⟨type, x1, y1, x2, y2, d.1, color, value⟩)),
          command_count := m.command_count + 1 } : CmdMem).slots
        = slots.set m.command_count ⟨type, x1, y1, x2, y2, d.1, color, value⟩ := by
      unfold CmdMem.slots
      simp only [hb, heap_arr, List.getElem?_set_self hda]
    rw [hslots] at hr
    simp only [] at hr ⊢
    rw [take_succ_set _ _ _ (by omega)] at hr
    rcases List.mem_append.1 hr with hold | hnew
    · have hok := hlive r hold
      rw [text_ok_congr m.heap _ r]
      · exact hok
      · intro t ht
        obtain ⟨s, hstr⟩ := text_ok_some _ r t hok ht
        have hta : a ≠ t := by
          intro h
          rw [← h, ha] at hstr
          cases hstr
        rw [List.getElem?_set_ne hta]
        exact hd1 t (getElem?_some_lt _ _ _ hstr)
    · rw [List.mem_singleton] at hnew
      subst hnew
      unfold text_ok
      simp only []
      cases h1 : d.1 with
      | none => rfl
      | some t =>
        obtain ⟨hne, s, hs⟩ := hd2 t h1
        simp only []
        rw [List.getElem?_set_ne (fun h => hne h.symm), hs]

theorem mem_add_WF (realloc_ok moves strdup_ok : Bool) (type x1 y1 x2 y2 : Int)
    (text : Option (List Char)) (color : Nat) (value : Double) (m : CmdMem) (hwf : m.WF) :
    (mem_add_command realloc_ok moves strdup_ok type x1 y1 x2 y2 text color value m).WF := by
  unfold mem_add_command
  by_cases hfull : m.command_count ≥ m.command_capacity
  · rw [if_pos hfull]
    simp only []
    have hcap : m.command_count < (if m.command_capacity = 0 then 1024
        else m.command_capacity * 2) := by
      have := hwf.1
      split <;> omega
    generalize (if m.command_capacity = 0 then 1024 else m.command_capacity * 2) = cap at hcap
    unfold mem_realloc
    cases realloc_ok with
    | false => exact ⟨Nat.le_refl _, rfl, fun r hr => by cases hr⟩
    | true =>
      simp only [Bool.true_eq_false, if_false]
      cases hb : m.command_buffer with
      | none =>
        simp only []
        have hc0 : m.command_count = 0 := by
          have h := hwf.2.1
          unfold buffer_ok at h
          rw [hb] at h
          simp only [beq_iff_eq] at h
          have := hwf.1
          omega
        refine mem_store_WF _ _ _ _ _ _ _ _ _ _ m.heap.length
          (List.replicate cap RawCommand.indeterminate) rfl
          (List.getElem?_concat_length _ _) (by simp) hcap ?_
        intro r hr
        simp only [hc0, List.take_zero] at hr
        cases hr
      | some a =>
        obtain ⟨slots, hs, hl⟩ := wf_buffer m hwf a hb
        have halt : a < m.heap.length := getElem?_some_lt _ _ _ hs
        have harr : heap_arr m.heap a = slots := by unfold heap_arr; rw [hs]
        have hne := wf_text_ne_buffer m hwf a hb
        have hlive0 : ∀ r ∈ slots.take m.command_count, text_ok m.heap r = true := by
          intro r hr
          apply hwf.2.2 r
          unfold CmdMem.slots
          rw [hb]
          simp only [harr]
          exact hr
        have hmem : ∀ r ∈ slots.take m.command_count, r ∈ m.slots.take m.command_count := by
          intro r hr
          unfold CmdMem.slots
          rw [hb]
          simp only [harr]
          exact hr
        have hgrown : (slots.take cap ++
            List.replicate (cap - slots.length) RawCommand.indeterminate).take m.command_count
              = slots.take m.command_count := by
          have h1 := hwf.1
          rw [List.take_of_length_le (by omega : slots.length ≤ cap),
            List.take_append_of_le_length (by omega)]
        have hglen : (slots.take cap ++
            List.replicate (cap - slots.length) RawCommand.indeterminate).length = cap := by
          have h1 := hwf.1
          rw [List.take_of_length_le (by omega : slots.length ≤ cap)]
          simp only [List.length_append, List.length_replicate]
          omega
        simp only [harr]
        cases moves with
        | true =>
          simp only [if_true]
          refine mem_store_WF _ _ _ _ _ _ _ _ _ _ m.heap.length _ rfl ?_ hglen hcap ?_
          · simp only []
            have : m.heap.length = (m.heap.set a Block.freed).length := by simp
            rw [this]
            exact List.getElem?_concat_length _ _
          · intro r hr
            rw [hgrown] at hr
            simp only []
            rw [text_ok_congr m.heap _ r]
            · exact hlive0 r hr
            · intro t ht
              obtain ⟨s, hstr⟩ := text_ok_some _ r t (hlive0 r hr) ht
              rw [List.getElem?_append_left (by simp; exact getElem?_some_lt _ _ _ hstr),
                List.getElem?_set_ne (fun h => hne r (hmem r hr) t ht h.symm)]
        | false =>
          simp only [Bool.false_eq_true, if_false]
          refine mem_store_WF _ _ _ _ _ _ _ _ _ _ a _ rfl ?_ hglen hcap ?_
          · simp only []
            exact List.getElem?_set_self halt
          · intro r hr
            rw [hgrown] at hr
            simp only []
            rw [text_ok_congr m.heap _ r]
            · exact hlive0 r hr
            · intro t ht
              rw [List.getElem?_set_ne (fun h => hne r (hmem r hr) t ht h.symm)]
  · rw [if_neg hfull]
    have hlt : m.command_count < m.command_capacity := by omega
    cases hb : m.command_buffer with
    | none =>
      have h := hwf.2.1
      unfold buffer_ok at h
      rw [hb] at h
      simp only [beq_iff_eq] at h
      omega
    | some a =>
      obtain ⟨slots, hs, hl⟩ := wf_buffer m hwf a hb
      refine mem_store_WF _ _ _ _ _ _ _ _ _ m a slots hb hs hl hlt ?_
      intro r hr
      apply hwf.2.2 r
      unfold CmdMem.slots
      rw [hb]
      simp only [heap_arr, hs]
      exact hr

theorem sample_mem_WF : sample_mem.WF :=
  mem_add_WF _ _ _ _ _ _ _ _ _ _ _ _ (mem_add_WF _ _ _ _ _ _ _ _ _ _ _ _ mem_init_WF)

/-- The text block of a record of the live buffer, by contrast, is released by
`luacmd_clear_commands`. -/
theorem live_text_released :
    sample_mem.heap[1]? = some (Block.str ['h', 'i']) ∧
    (mem_clear_commands sample_mem).heap[1]? = some Block.freed :=
  ⟨rfl, rfl⟩

theorem snapshot_independent_witness :
    sample_mem.WF ∧
    mem_get_commands true (fun _ => true) sample_mem
      = (some 2, 2, 800, 600, (mem_get_commands true (fun _ => true) sample_mem).2.2.2.2) ∧
    read_snapshot
        (mem_clear_commands (mem_get_commands true (fun _ => true) sample_mem).2.2.2.2).heap 2
      = read_snapshot (mem_get_commands true (fun _ => true) sample_mem).2.2.2.2.heap 2 :=
  ⟨sample_mem_WF, rfl,
    (snapshot_independent true (fun _ => true) sample_mem _ 2 2 800 600 sample_mem_WF rfl).2.2.1⟩

/-! ## Clearing the command buffer -/

/-- C21: `luacmd_clear_commands` sets the record count to zero and leaves the
capacity, the array and the canvas dimensions as they are;
`luacmd_begin_plot w h` is the same clearing with the canvas dimensions set to
`(w, h)`, and a `luacmd_get_commands` immediately after it returns no array and
reports count 0, width `w` and height `h`, whatever its allocations would do.
The same holds on the heap, where the clearing also releases the text blocks:
the array block of the buffer stays where it is. -/
theorem clear_and_begin_plot_frame (w h : Int) (malloc_ok : Bool) (sd : Nat → Bool)
    (s : CmdState) (m : CmdMem) :
    ((luacmd_clear_commands s).command_count = 0 ∧
      (luacmd_clear_commands s).command_capacity = s.command_capacity ∧
      (luacmd_clear_commands s).command_buffer = s.command_buffer ∧
      (luacmd_clear_commands s).plot_width = s.plot_width ∧
      (luacmd_clear_commands s).plot_height = s.plot_height) ∧
    (luacmd_begin_plot w h s
        = { luacmd_clear_commands s with plot_width := w, plot_height := h } ∧
      (luacmd_begin_plot w h s).command_count = 0 ∧
      (luacmd_begin_plot w h s).command_capacity = s.command_capacity ∧
      (luacmd_begin_plot w h s).plot_width = w ∧
      (luacmd_begin_plot w h s).plot_height = h ∧
      luacmd_get_commands malloc_ok sd (luacmd_begin_plot w h s) = (none, 0, w, h)) ∧
    ((mem_clear_commands m).command_count = 0 ∧
      (mem_clear_commands m).command_capacity = m.command_capacity ∧
      (mem_clear_commands m).command_buffer = m.command_buffer ∧
      (mem_clear_commands m).plot_width = m.plot_width ∧
      (mem_clear_commands m).plot_height = m.plot_height ∧
      (mem_clear_commands m).heap.length = m.heap.length) ∧
    (mem_begin_plot w h m
        = { mem_clear_commands m with plot_width := w, plot_height := h } ∧
      (mem_get_commands malloc_ok sd (mem_begin_plot w h m)).1 = none ∧
      (mem_get_commands malloc_ok sd (mem_begin_plot w h m)).2.1 = 0 ∧
      (mem_get_commands malloc_ok sd (mem_begin_plot w h m)).2.2.1 = w ∧
      (mem_get_commands malloc_ok sd (mem_begin_plot w h m)).2.2.2.1 = h) := by
  refine ⟨⟨rfl, rfl, rfl, rfl, rfl⟩, ⟨rfl, rfl, rfl, rfl, rfl, ?_⟩,
    ⟨rfl, rfl, rfl, rfl, rfl, ?_⟩, ⟨rfl, ?_, ?_, ?_, ?_⟩⟩
  · unfold luacmd_get_commands luacmd_begin_plot luacmd_clear_commands
    simp only [if_true]
  · unfold mem_clear_commands
    exact free_texts_length _ _
  all_goals
    unfold mem_get_commands mem_begin_plot mem_clear_commands
    simp only [if_true]

/-! ## The invariant of the counters of the command buffer -/

/-- One `luacmd_add_command` in a state in which the array has `command_capacity`
slots and the count does not exceed it. -/
theorem add_command_step (realloc_ok strdup_ok : Bool) (type x1 y1 x2 y2 : Int)
    (text : Option (List Char)) (color : Nat) (value : Double) (s : CmdState) (hs : s.WF) :
    (luacmd_add_command realloc_ok strdup_ok type x1 y1 x2 y2 text color value s).WF ∧
    (luacmd_add_command realloc_ok strdup_ok type x1 y1 x2 y2 text color value s).command_count
      ≤ s.command_count + 1 ∧
    ((luacmd_add_command realloc_ok strdup_ok type x1 y1 x2 y2 text color value s).command_capacity
        = s.command_capacity ∨
      (s.command_count = s.command_capacity ∧
        ((s.command_capacity = 0 ∧
            (luacmd_add_command realloc_ok strdup_ok type x1 y1 x2 y2 text color value
              s).command_capacity = 1024) ∨
          (s.command_capacity ≠ 0 ∧
            (luacmd_add_command realloc_ok strdup_ok type x1 y1 x2 y2 text color value
              s).command_capacity = 2 * s.command_capacity) ∨
          ((luacmd_add_command realloc_ok strdup_ok type x1 y1 x2 y2 text color value
              s).command_capacity = 0 ∧
            (luacmd_add_command realloc_ok strdup_ok type x1 y1 x2 y2 text color value
              s).command_count = 0 ∧
            (luacmd_add_command realloc_ok strdup_ok type x1 y1 x2 y2 text color value
              s).command_buffer = none)))) ∧
    (∀ block,
      (luacmd_add_command realloc_ok strdup_ok type x1 y1 x2 y2 text color value s).command_buffer
        = some block →
      s.command_count < block.length ∧
      block.length
        = (luacmd_add_command realloc_ok strdup_ok type x1 y1 x2 y2 text color value
            s).command_capacity) := by
  obtain ⟨buf, cnt, cap, w, h⟩ := s
  obtain ⟨h1, h2⟩ := hs
  simp only at h1 h2
  unfold luacmd_add_command
  simp only []
  by_cases hfull : cnt ≥ cap
  · have hcnt : cnt = cap := by omega
    rw [if_pos hfull]
    cases realloc_ok with
    | false =>
      simp only [realloc, Bool.false_eq_true, if_false]
      refine ⟨⟨rfl, Nat.le_refl _⟩, Nat.zero_le _, ?_, ?_⟩
      · right
        exact ⟨hcnt, Or.inr (Or.inr ⟨trivial, trivial, trivial⟩)⟩
      · intro block hb
        cases hb
    | true =>
      simp only [realloc, if_true]
      have hlen : ∀ n, cap ≤ n →
          ((buf.getD []).take n ++
            List.replicate (n - (buf.getD []).length) luacmd_command_t.indeterminate).length
            = n := by
        intro n hn
        simp only [List.length_append, List.length_take, List.length_replicate, h1]
        omega
      by_cases hc0 : cap = 0
      · simp only [hc0, if_true] at hlen ⊢
        refine ⟨⟨?_, ?_⟩, Nat.le_refl _, ?_, ?_⟩
        · simp only [Option.getD_some, List.length_set]
          exact hlen 1024 (by omega)
        · simp only []
          omega
        · right
          exact ⟨by omega, Or.inl ⟨trivial, trivial⟩⟩
        · intro block hb
          simp only [Option.some.injEq] at hb
          subst hb
          simp only [List.length_set]
          rw [hlen 1024 (by omega)]
          exact ⟨by omega, rfl⟩
      · simp only [hc0, if_false] at hlen ⊢
        refine ⟨⟨?_, ?_⟩, Nat.le_refl _, ?_, ?_⟩
        · simp only [Option.getD_some, List.length_set]
          exact hlen (cap * 2) (by omega)
        · simp only []
          omega
        · right
          exact ⟨hcnt, Or.inr (Or.inl ⟨hc0, by omega⟩)⟩
        · intro block hb
          simp only [Option.some.injEq] at hb
          subst hb
          simp only [List.length_set]
          rw [hlen (cap * 2) (by omega)]
          exact ⟨by omega, rfl⟩
  · rw [if_neg hfull]
    have hlt : cnt < cap := by omega
    cases buf with
    | none =>
      simp only [Option.getD_none, List.length_nil] at h1
      omega
    | some block0 =>
      simp only [Option.getD_some] at h1
      simp only [Option.map_some']
      refine ⟨⟨?_, ?_⟩, Nat.le_refl _, Or.inl trivial, ?_⟩
      · simp only [Option.getD_some, List.length_set]
        exact h1
      · simp only []
        omega
      · intro block hb
        simp only [Option.some.injEq] at hb
        subst hb
        simp only [List.length_set]
        exact ⟨by omega, h1⟩

/-- One call keeps the counters in their relation: the array has
`command_capacity` slots, the count is at most the capacity and at most the
number `n` of appends made, the capacity is 0 or 1024 times a power of two and
at most `max 1024 (2 * n)`. -/
theorem run_step (c : BufferCall) (s : CmdState) (n : Nat) (hs : s.WF)
    (hcap : s.command_capacity = 0 ∨ ∃ k, s.command_capacity = 1024 * 2 ^ k)
    (hn : s.command_count ≤ n) (hb : s.command_capacity ≤ max 1024 (2 * n)) :
    (c.run s).WF ∧
    ((c.run s).command_capacity = 0 ∨ ∃ k, (c.run s).command_capacity = 1024 * 2 ^ k) ∧
    (c.run s).command_count ≤ n + (if c.is_add then 1 else 0) ∧
    (c.run s).command_capacity ≤ max 1024 (2 * (n + (if c.is_add then 1 else 0))) := by
  cases c with
  | begin_plot width height =>
    exact ⟨begin_plot_WF _ _ s hs, hcap, Nat.zero_le _, by simpa [BufferCall.is_add] using hb⟩
  | clear_commands =>
    exact ⟨clear_WF s hs, hcap, Nat.zero_le _, by simpa [BufferCall.is_add] using hb⟩
  | get_commands malloc_ok strdup_ok =>
    exact ⟨hs, hcap, by simpa [BufferCall.is_add] using hn, by simpa [BufferCall.is_add] using hb⟩
  | add_command realloc_ok strdup_ok type x1 y1 x2 y2 text color value =>
    obtain ⟨a1, a2, a3, _⟩ :=
      add_command_step realloc_ok strdup_ok type x1 y1 x2 y2 text color value s hs
    simp only [BufferCall.run, BufferCall.is_add, if_true]
    refine ⟨a1, ?_, by omega, ?_⟩
    · rcases a3 with h | ⟨_, h | h | h⟩
      · rw [h]; exact hcap
      · exact Or.inr ⟨0, by rw [h.2]; rfl⟩
      · rcases hcap with h0 | ⟨k, hk⟩
        · exact absurd h0 h.1
        · exact Or.inr ⟨k + 1, by rw [h.2, hk, pow_succ]; ring⟩
      · exact Or.inl h.1
    · rcases a3 with h | ⟨hc, h | h | h⟩
      · rw [h]
        exact le_trans hb (max_le_max (le_refl _) (by omega))
      · rw [h.2]; exact le_max_left _ _
      · rw [h.2]
        exact le_trans (by omega) (le_max_right _ _)
      · rw [h.1]; exact Nat.zero_le _

theorem run_calls_append (calls : List BufferCall) (c : BufferCall) (s : CmdState) :
    run_calls (calls ++ [c]) s = c.run (run_calls calls s) := by
  simp only [run_calls, List.foldl_append, List.foldl_cons, List.foldl_nil]

theorem appends_append (calls : List BufferCall) (c : BufferCall) :
    appends (calls ++ [c]) = appends calls + (if c.is_add then 1 else 0) := by
  simp only [appends, List.countP_append, List.countP_cons, List.countP_nil, Nat.zero_add]

/-- The relation of the counters in every state reached from program start. -/
theorem reached_inv (calls : List BufferCall) :
    (reached calls).WF ∧
    ((reached calls).command_capacity = 0 ∨ ∃ k, (reached calls).command_capacity = 1024 * 2 ^ k) ∧
    (reached calls).command_count ≤ appends calls ∧
    (reached calls).command_capacity ≤ max 1024 (2 * appends calls) := by
  induction calls using List.reverseRecOn with
  | nil => exact ⟨init_WF, Or.inl rfl, Nat.le_refl _, Nat.zero_le _⟩
  | append_singleton calls c ih =>
    obtain ⟨i1, i2, i3, i4⟩ := ih
    have h := run_step c (reached calls) (appends calls) i1 i2 i3 i4
    unfold reached at h ⊢
    rw [run_calls_append, appends_append]
    exact h

/-- A `luacmd_add_command` whose `realloc` fails when the array is full leaves
capacity 0. -/
theorem failed_growth_capacity (strdup_ok : Bool) (type x1 y1 x2 y2 : Int)
    (text : Option (List Char)) (color : Nat) (value : Double) (s : CmdState)
    (hfull : s.command_count ≥ s.command_capacity) :
    (luacmd_add_command false strdup_ok type x1 y1 x2 y2 text color value s).command_capacity
      = 0 := by
  unfold luacmd_add_command
  simp only [if_pos hfull, realloc, Bool.false_eq_true, if_false]

/-- The counters after `n` appends from program start, for `n` up to the first
capacity. -/
theorem replicate_add_counts (n : Nat) (hn : n ≤ 1024) :
    (reached (List.replicate n sample_add)).command_count = n ∧
    (reached (List.replicate n sample_add)).command_capacity = (if n = 0 then 0 else 1024) := by
  induction n with
  | zero => exact ⟨rfl, rfl⟩
  | succ n ih =>
    obtain ⟨ic, icap⟩ := ih (by omega)
    have hwf := (reached_inv (List.replicate n sample_add)).1
    have hrun : reached (List.replicate (n + 1) sample_add)
        = luacmd_add_command true true 1 10 20 30 40 none 0 ⟨0⟩
            (reached (List.replicate n sample_add)) := by
      unfold reached
      rw [List.replicate_succ', run_calls_append]
      rfl
    rw [hrun]
    generalize reached (List.replicate n sample_add) = s at ic icap hwf ⊢
    obtain ⟨_, a2, _, _, _⟩ := add_command_ok ⟨1, 10, 20, 30, 40, none, 0, ⟨0⟩⟩ s hwf
    obtain ⟨b1, _, b3, _⟩ := add_command_step true true 1 10 20 30 40 none 0 ⟨0⟩ s hwf
    simp only [] at a2
    have hle := b1.2
    rw [a2] at hle
    have icap' : (n = 0 ∧ s.command_capacity = 0) ∨ (n ≠ 0 ∧ s.command_capacity = 1024) := by
      by_cases h : n = 0
      · left; simp only [h, if_true] at icap; exact ⟨h, icap⟩
      · right; simp only [h, if_false] at icap; exact ⟨h, icap⟩
    refine ⟨by rw [a2, ic], ?_⟩
    simp only [Nat.succ_ne_zero, if_false]
    rcases b3 with h | ⟨hc, h | h | h⟩
    · rcases icap' with i | i <;> omega
    · exact h.2
    · omega
    · omega

/-! ## The invariant claim -/

/-- C23, what the code does not do: after 1024 appends from program start the
count and the capacity are both 1024, and an append whose `realloc` fails then
changes the capacity from 1024 to 0, which is neither the step from 0 to 1024
nor a doubling. -/
theorem failed_growth_resets_capacity :
    (reached (List.replicate 1024 sample_add)).command_count = 1024 ∧
    (reached (List.replicate 1024 sample_add)).command_capacity = 1024 ∧
    (failing_add.run (reached (List.replicate 1024 sample_add))).command_capacity = 0 ∧
    (failing_add.run (reached (List.replicate 1024 sample_add))).command_capacity
      ≠ 2 * (reached (List.replicate 1024 sample_add)).command_capacity := by
  have h := replicate_add_counts 1024 (Nat.le_refl _)
  generalize reached (List.replicate 1024 sample_add) = s at h ⊢
  obtain ⟨hc, hcap⟩ := h
  rw [if_neg (by omega)] at hcap
  have hrun : failing_add.run s
      = luacmd_add_command false true 1 10 20 30 40 none 0 ⟨0⟩ s := rfl
  have h0 : (failing_add.run s).command_capacity = 0 := by
    rw [hrun]
    exact failed_growth_capacity true 1 10 20 30 40 none 0 ⟨0⟩ s (by omega)
  refine ⟨hc, hcap, h0, ?_⟩
  omega

/-- C23: in every state reached from program start through `luacmd_begin_plot`,
`luacmd_add_command`, `luacmd_clear_commands` and `luacmd_get_commands`, with
any outcome of the allocations, the count satisfies `0 ≤ count ≤ capacity` and
the capacity is 0 or 1024 times a power of two.  A call changes the capacity
only if it is a `luacmd_add_command` made with the count equal to the capacity,
and then to 1024 from 0, to twice its value otherwise, or, when `realloc`
fails, to 0 together with the count and with the array pointer `NULL`.  When an
append leaves an array, the slot it has written, the one at the former count,
lies inside that array, which has as many slots as the new capacity.  The
counters are natural numbers here: the capacity is at most
`max 1024 (2 * appends)`, so they are the values of the `int` statics of the
source in every run of fewer than `2 ^ 30` appends. -/
theorem buffer_counters_invariant (calls : List BufferCall) (c : BufferCall) :
    (0 ≤ (reached calls).command_count ∧
      (reached calls).command_count ≤ (reached calls).command_capacity) ∧
    ((reached calls).command_capacity = 0 ∨
      ∃ k, (reached calls).command_capacity = 1024 * 2 ^ k) ∧
    (reached calls).command_capacity ≤ max 1024 (2 * appends calls) ∧
    ((c.run (reached calls)).command_capacity = (reached calls).command_capacity ∨
      (c.is_add = true ∧
        (reached calls).command_count = (reached calls).command_capacity ∧
        (((reached calls).command_capacity = 0 ∧
            (c.run (reached calls)).command_capacity = 1024) ∨
          ((reached calls).command_capacity ≠ 0 ∧
            (c.run (reached calls)).command_capacity = 2 * (reached calls).command_capacity) ∨
          ((c.run (reached calls)).command_capacity = 0 ∧
            (c.run (reached calls)).command_count = 0 ∧
            (c.run (reached calls)).command_buffer = none)))) ∧
    (c.is_add = true → ∀ block, (c.run (reached calls)).command_buffer = some block →
      (reached calls).command_count < block.length ∧
      block.length = (c.run (reached calls)).command_capacity) := by
  obtain ⟨hwf, hcap, _, hb⟩ := reached_inv calls
  refine ⟨⟨Nat.zero_le _, hwf.2⟩, hcap, hb, ?_, ?_⟩
  · cases c with
    | begin_plot width height => exact Or.inl rfl
    | clear_commands => exact Or.inl rfl
    | get_commands malloc_ok strdup_ok => exact Or.inl rfl
    | add_command realloc_ok strdup_ok type x1 y1 x2 y2 text color value =>
      obtain ⟨_, _, a3, _⟩ :=
        add_command_step realloc_ok strdup_ok type x1 y1 x2 y2 text color value _ hwf
      rcases a3 with h | h
      · exact Or.inl h
      · exact Or.inr ⟨rfl, h⟩
  · intro hadd block hblock
    cases c with
    | begin_plot width height => cases hadd
    | clear_commands => cases hadd
    | get_commands malloc_ok strdup_ok => cases hadd
    | add_command realloc_ok strdup_ok type x1 y1 x2 y2 text color value =>
      exact (add_command_step realloc_ok strdup_ok type x1 y1 x2 y2 text color value _ hwf).2.2.2
        block hblock

theorem buffer_counters_invariant_witness :
    (reached [sample_add]).command_capacity = 1024 ∧
    sample_add.is_add = true ∧
    (reached []).command_count
        < ((sample_add.run (reached [])).command_buffer.getD []).length ∧
    ((sample_add.run (reached [])).command_buffer.getD []).length
        = (sample_add.run (reached [])).command_capacity :=
  ⟨rfl, rfl, (buffer_counters_invariant [] sample_add).2.2.2.2 rfl _ rfl⟩

/-! ## The initialized flag -/

theorem cmd_flag {ρ : Type} (E : Engine ρ) (command : Option (List Char)) (s : Lib ρ) :
    (gnuplot_cmd E command s).2.lib_initialized = s.lib_initialized := by
  unfold gnuplot_cmd
  split
  · rfl
  · cases command with
    | none => rfl
    | some cmd =>
      simp only []
      split
      · rfl
      · cases E.do_string cmd s.gp <;> rfl

theorem cmd_multi_loop_flag {ρ : Type} (E : Engine ρ) (fuel : Nat) (line : Option (List Char))
    (saveptr : List Char) (s : Lib ρ) :
    (cmd_multi_loop E fuel line saveptr s).2.lib_initialized = s.lib_initialized := by
  induction fuel generalizing line saveptr s with
  | zero => rfl
  | succ fuel ih =>
    cases line with
    | none => rfl
    | some line =>
      unfold cmd_multi_loop
      simp only []
      split
      · have hc := cmd_flag E (some (line.dropWhile (fun c => c = ' ' ∨ c = '\t'))) s
        split
        · rename_i s1 heq
          rw [ih]
          rw [heq] at hc
          exact hc
        · rename_i r s1 _ heq
          rw [heq] at hc
          exact hc
      · exact ih _ _ _

theorem cmd_multi_flag {ρ : Type} (E : Engine ρ) (commands : Option (List Char)) (s : Lib ρ) :
    (gnuplot_cmd_multi E commands s).2.lib_initialized = s.lib_initialized := by
  unfold gnuplot_cmd_multi
  split
  · rfl
  · cases commands with
    | none => rfl
    | some cmds =>
      simp only []
      split
      · rfl
      · rw [cmd_multi_loop_flag]

theorem reset_flag {ρ : Type} (E : Engine ρ) (s : Lib ρ) :
    (gnuplot_reset E s).lib_initialized = s.lib_initialized := by
  unfold gnuplot_reset
  split
  · rfl
  · exact cmd_flag E _ s

theorem set_datablock_flag {ρ : Type} (name data : Option (List Char)) (s : Lib ρ) :
    (gnuplot_set_datablock name data s).2.lib_initialized = s.lib_initialized := by
  unfold gnuplot_set_datablock
  split
  · rfl
  · cases name <;> cases data <;> rfl

theorem close_flag {ρ : Type} (E : Engine ρ) (s : Lib ρ) :
    (gnuplot_close E s).lib_initialized = false := by
  unfold gnuplot_close
  split
  · assumption
  · rfl

/-- The flag after `gnuplot_init`: it is set exactly when the call returns 0,
and a call that finds it set returns 0. -/
theorem init_flag {ρ : Type} (E : Engine ρ) (s : Lib ρ) :
    ((gnuplot_init E s).2.lib_initialized = true ↔ (gnuplot_init E s).1 = 0) ∧
    (s.lib_initialized = true → (gnuplot_init E s).2.lib_initialized = true) := by
  unfold gnuplot_init
  cases hi : s.lib_initialized with
  | true => simp [hi]
  | false =>
    simp only [Bool.false_eq_true, if_false]
    split <;> simp

/-- C22: the flag `lib_initialized`, which the source only ever assigns 0 and 1
and which is a `Bool` here, changes only by a `gnuplot_init` that returns 0
(from false to true) and by `gnuplot_close` (from true to false).  Every call
other than the bitmap decode returns; after a call that returns, for every
engine and every outcome of the allocations: after `gnuplot_init` the flag is
set exactly when the call has returned 0, and a flag that was set stays set;
after `gnuplot_close` it is clear; after `gnuplot_cmd`, `gnuplot_cmd_multi`,
`gnuplot_reset`, `gnuplot_set_datablock`, `gnuplot_get_version`,
`gnuplot_is_initialized`, the bitmap functions and the command-buffer functions
it is what it was. -/
theorem initialized_changes_only_by_init_and_close {ρ : Type} (E : Engine ρ) (c : Call)
    (p : Program ρ) :
    ((∀ malloc_ok bm, c ≠ Call.gnuplot_save_bitmap_data malloc_ok bm) →
      ∃ p', Program.call E c p = .ok p') ∧
    ∀ p', Program.call E c p = .ok p' →
      (c = Call.gnuplot_init →
        (p'.lib.lib_initialized = true ↔ (gnuplot_init E p.lib).1 = 0) ∧
        (p.lib.lib_initialized = true → p'.lib.lib_initialized = true)) ∧
      (c = Call.gnuplot_close → p'.lib.lib_initialized = false) ∧
      (c ≠ Call.gnuplot_init → c ≠ Call.gnuplot_close →
        p'.lib.lib_initialized = p.lib.lib_initialized) ∧
      (p'.lib.lib_initialized ≠ p.lib.lib_initialized →
        (c = Call.gnuplot_init ∧ p.lib.lib_initialized = false ∧
          p'.lib.lib_initialized = true ∧ (gnuplot_init E p.lib).1 = 0) ∨
        (c = Call.gnuplot_close ∧ p.lib.lib_initialized = true ∧
          p'.lib.lib_initialized = false)) := by
  have hsame : ∀ p' : Program ρ, p'.lib.lib_initialized = p.lib.lib_initialized →
      c ≠ Call.gnuplot_init → c ≠ Call.gnuplot_close →
      (c = Call.gnuplot_init →
        (p'.lib.lib_initialized = true ↔ (gnuplot_init E p.lib).1 = 0) ∧
        (p.lib.lib_initialized = true → p'.lib.lib_initialized = true)) ∧
      (c = Call.gnuplot_close → p'.lib.lib_initialized = false) ∧
      (c ≠ Call.gnuplot_init → c ≠ Call.gnuplot_close →
        p'.lib.lib_initialized = p.lib.lib_initialized) ∧
      (p'.lib.lib_initialized ≠ p.lib.lib_initialized →
        (c = Call.gnuplot_init ∧ p.lib.lib_initialized = false ∧
          p'.lib.lib_initialized = true ∧ (gnuplot_init E p.lib).1 = 0) ∨
        (c = Call.gnuplot_close ∧ p.lib.lib_initialized = true ∧
          p'.lib.lib_initialized = false)) :=
    fun p' h h1 h2 =>
      ⟨fun hc => absurd hc h1, fun hc => absurd hc h2, fun _ _ => h, fun hne => absurd h hne⟩
  cases c with
  | gnuplot_init =>
    refine ⟨fun _ => ⟨_, rfl⟩, ?_⟩
    intro p' hp
    simp only [Program.call, Except.ok.injEq] at hp
    subst hp
    obtain ⟨h1, h2⟩ := init_flag E p.lib
    refine ⟨fun _ => ⟨h1, h2⟩, fun hc => (by cases hc), fun hc => absurd rfl hc, ?_⟩
    intro hne
    left
    simp only [] at hne ⊢
    cases hb : p.lib.lib_initialized with
    | true => exact absurd ((h2 hb).trans hb.symm) hne
    | false =>
      rw [hb] at hne
      have ht : (gnuplot_init E p.lib).2.lib_initialized = true := by
        cases h : (gnuplot_init E p.lib).2.lib_initialized with
        | true => rfl
        | false => exact absurd h hne
      exact ⟨trivial, rfl, ht, h1.1 ht⟩
  | gnuplot_close =>
    refine ⟨fun _ => ⟨_, rfl⟩, ?_⟩
    intro p' hp
    simp only [Program.call, Except.ok.injEq] at hp
    subst hp
    have h1 := close_flag E p.lib
    refine ⟨fun hc => (by cases hc), fun _ => h1, fun _ hc => absurd rfl hc, ?_⟩
    intro hne
    right
    simp only [] at hne ⊢
    refine ⟨trivial, ?_, h1⟩
    cases hb : p.lib.lib_initialized with
    | true => rfl
    | false => exact absurd (h1.trans hb.symm) hne
  | gnuplot_cmd command =>
    refine ⟨fun _ => ⟨_, rfl⟩, ?_⟩
    intro p' hp
    simp only [Program.call, Except.ok.injEq] at hp
    subst hp
    exact hsame _ (cmd_flag E command p.lib) (fun h => by cases h) (fun h => by cases h)
  | gnuplot_cmd_multi commands =>
    refine ⟨fun _ => ⟨_, rfl⟩, ?_⟩
    intro p' hp
    simp only [Program.call, Except.ok.injEq] at hp
    subst hp
    exact hsame _ (cmd_multi_flag E commands p.lib) (fun h => by cases h) (fun h => by cases h)
  | gnuplot_reset =>
    refine ⟨fun _ => ⟨_, rfl⟩, ?_⟩
    intro p' hp
    simp only [Program.call, Except.ok.injEq] at hp
    subst hp
    exact hsame _ (reset_flag E p.lib) (fun h => by cases h) (fun h => by cases h)
  | gnuplot_set_datablock name data =>
    refine ⟨fun _ => ⟨_, rfl⟩, ?_⟩
    intro p' hp
    simp only [Program.call, Except.ok.injEq] at hp
    subst hp
    exact hsame _ (set_datablock_flag name data p.lib) (fun h => by cases h) (fun h => by cases h)
  | gnuplot_save_bitmap_data malloc_ok bm =>
    refine ⟨fun h => absurd rfl (h malloc_ok bm), ?_⟩
    intro p' hp
    simp only [Program.call] at hp
    cases hr : gnuplot_save_bitmap_data malloc_ok bm p.saved with
    | error f => rw [hr] at hp; cases hp
    | ok r =>
      rw [hr] at hp
      simp only [Except.ok.injEq] at hp
      subst hp
      exact hsame _ rfl (fun h => by cases h) (fun h => by cases h)
  | gnuplot_get_version | gnuplot_is_initialized | gnuplot_get_saved_bitmap_data
  | gnuplot_free_saved_bitmap | luacmd_end_plot | luacmd_free_commands =>
    refine ⟨fun _ => ⟨_, rfl⟩, ?_⟩
    intro p' hp
    simp only [Program.call, Except.ok.injEq] at hp
    subst hp
    exact hsame _ rfl (fun h => by cases h) (fun h => by cases h)
  | luacmd b =>
    refine ⟨fun _ => ⟨_, rfl⟩, ?_⟩
    intro p' hp
    simp only [Program.call, Except.ok.injEq] at hp
    subst hp
    exact hsame _ rfl (fun h => by cases h) (fun h => by cases h)

theorem initialized_changes_only_by_init_and_close_witness :
    sample_program.lib.lib_initialized = false ∧
    (gnuplot_init sample_engine sample_program.lib).1 = 0 ∧
    (gnuplot_init sample_engine sample_program.lib).2.lib_initialized = true ∧
    (gnuplot_cmd sample_engine (some ['b', 'a', 'd'])
      (gnuplot_init sample_engine sample_program.lib).2).1 = -1 ∧
    (gnuplot_cmd sample_engine (some ['b', 'a', 'd'])
      (gnuplot_init sample_engine sample_program.lib).2).2.lib_initialized = true :=
  ⟨rfl, rfl,
    (((initialized_changes_only_by_init_and_close sample_engine Call.gnuplot_init
      sample_program).2 _ rfl).1 rfl).1.2 rfl,
    rfl,
    (((initialized_changes_only_by_init_and_close sample_engine
      (Call.gnuplot_cmd (some ['b', 'a', 'd']))
      { sample_program with lib := (gnuplot_init sample_engine sample_program.lib).2 }).2 _
        rfl).2.2.1 (fun h => by cases h) (fun h => by cases h)).trans rfl⟩

end LuaGnuplot
